import Mathlib

/-!
Two-level inclusive cache simulator (cacheSim.cpp).

A shallow embedding of `Line`, `Cache` and `Simulator` from `src/src/cacheSim.cpp`.

Conventions of the embedding:

* `unsigned` values are naturals below `2^32`, `uint64_t` values are naturals below `2^64`;
  every arithmetic operation of the source that can wrap carries its explicit `% 2^32` or
  `% 2^64`.
* `vector<vector<Line>>` is a list of rows, a row is a list of lines.
* A `Line *` into row `set` of a cache is the way position of the line inside that row, so
  `Res.ln` is a position and a write through the pointer is a `List.modify` at that position.
* `blk % sets` is below `sets`, an `unsigned`, so its narrowing to `unsigned` is exact and is
  not written out.
* Where the source has undefined behaviour (a shift by the width of the type or more, a
  division by `sets = 0`, an index outside the grid) the embedding takes the value of the
  corresponding operation on naturals; the results on the contents of the caches assume
  `sets ≥ 1`.
* `report` computes in `double`; the embedding keeps the exact rational quotients.
-/

namespace CacheSim

/-! ## Data model -/

/-- One cache line (`struct Line`). -/
structure Line where
  valid : Bool
  dirty : Bool
  tag : Nat
  lru : Nat
deriving DecidableEq, Repr

/-- A line as its default member initialisers build it. -/
def Line.fresh : Line := ⟨false, false, 0, 0⟩

/-- A set-associative cache (`struct Cache`). -/
structure Cache where
  sets : Nat
  ways : Nat
  blockB : Nat
  data : List (List Line)
deriving DecidableEq, Repr

/-- The value of `1u << n` in 32-bit unsigned arithmetic. For `n ≥ 32`, where the shift of
the source is undefined, this is 0, which gives a cache with `sets = 0`. -/
def shl32 (n : Nat) : Nat := (1 <<< n) % 2 ^ 32

/-- Constructor `Cache::Cache(sizeLog2, assocLog2, blockLog2)`; the subtraction
`sizeLog2 - blockB` is an unsigned one. -/
def Cache.new (sizeLog2 assocLog2 blockLog2 : Nat) : Cache :=
  let ways := shl32 assocLog2
  let blockB := blockLog2
  let nblocks := shl32 ((sizeLog2 + 2 ^ 32 - blockB) % 2 ^ 32)
  let sets := nblocks / ways
  ⟨sets, ways, blockB, List.replicate sets (List.replicate ways Line.fresh)⟩

/-- Result of a probe (`struct Res`); `ln` is the way position of the returned line. -/
structure Res where
  hit : Bool
  set : Nat
  tag : Nat
  ln : Nat
deriving DecidableEq, Repr

/-- Row `idx` of the grid, `data[idx]`; an index outside the grid reads as the empty row. -/
def Cache.row (c : Cache) (idx : Nat) : List Line := c.data.getD idx []

/-- The line at way position `w` of row `idx`, if there is one. -/
def Cache.line? (c : Cache) (idx w : Nat) : Option Line := (c.row idx)[w]?

/-- Reading through a line pointer (`*ln`). -/
def Cache.lineAt (c : Cache) (idx w : Nat) : Line := (c.line? idx w).getD Line.fresh

/-- Writing through a line pointer: the line at way `w` of row `idx` becomes `f` of itself. -/
def Cache.modifyLine (c : Cache) (idx w : Nat) (f : Line → Line) : Cache :=
  { c with data := c.data.modify (fun S => S.modify f w) idx }

/-- First loop of `probe`: position of the first valid line carrying tag `t`. -/
def findHit (t : Nat) : List Line → Option Nat
  | [] => none
  | L :: S => if L.valid && L.tag == t then some 0 else (findHit t S).map (· + 1)

/-- Second loop of `probe`: position of the first invalid line. -/
def findFree : List Line → Option Nat
  | [] => none
  | L :: S => if !L.valid then some 0 else (findFree S).map (· + 1)

/-- The loop of `std::max_element` with the comparator `a.lru < b.lru`: `best` is the lru of
the current largest line, `bestIdx` its position, `cur` the position of the next line. -/
def maxElementLoop : List Line → Nat → Nat → Nat → Nat
  | [], _, bestIdx, _ => bestIdx
  | L :: S, best, bestIdx, cur =>
    if best < L.lru then maxElementLoop S L.lru cur (cur + 1)
    else maxElementLoop S best bestIdx (cur + 1)

/-- The call `max_element(S.begin(), S.end(), lru-less)`, as a position in `S`. -/
def maxElement : List Line → Nat
  | [] => 0
  | L :: S => maxElementLoop S L.lru 0 1

/-- The probe `Cache::probe(addr)`. -/
def Cache.probe (c : Cache) (addr : Nat) : Res :=
  let blk := addr >>> c.blockB
  let idx := blk % c.sets
  let t := blk / c.sets
  let S := c.row idx
  match findHit t S with
  | some w => ⟨true, idx, t, w⟩
  | none =>
    match findFree S with
    | some w => ⟨false, idx, t, w⟩
    | none => ⟨false, idx, t, maxElement S⟩

/-- The recency update `Cache::updateLRU(idx, recent)`; `lru` is a 32-bit unsigned. -/
def Cache.updateLRU (c : Cache) (idx recent : Nat) : Cache :=
  let touch : List Line → List Line := fun S =>
    (S.map (fun L => { L with lru := (L.lru + 1) % 2 ^ 32 })).modify (fun L => { L with lru := 0 }) recent
  { c with data := c.data.modify touch idx }

/-- The simulator (`struct Simulator`). -/
structure Simulator where
  memC : Nat
  blkB : Nat
  wrAlloc : Nat
  tL1 : Nat
  tL2 : Nat
  L1 : Cache
  L2 : Cache
  nL1 : Nat
  mL1 : Nat
  nL2 : Nat
  mL2 : Nat
  cycles : Nat
deriving DecidableEq, Repr

/-- Constructor `Simulator::Simulator(_m, _b, _w, s1, a1, c1, s2, a2, c2)`. -/
def Simulator.new (m b w s1 a1 c1 s2 a2 c2 : Nat) : Simulator :=
  { memC := m, blkB := b, wrAlloc := w, tL1 := c1, tL2 := c2,
    L1 := Cache.new s1 a1 b, L2 := Cache.new s2 a2 b,
    nL1 := 0, mL1 := 0, nL2 := 0, mL2 := 0, cycles := 0 }

/-- The loop body of `invalidateL1`: clear `valid` on the first valid line with tag `t`. -/
def invalidateFirst (t : Nat) : List Line → List Line
  | [] => []
  | L :: S =>
    if L.valid && L.tag == t then { L with valid := false } :: S
    else L :: invalidateFirst t S

/-- Back-invalidation `Simulator::invalidateL1(tag2, set2)`. -/
def Simulator.invalidateL1 (s : Simulator) (tag2 set2 : Nat) : Simulator :=
  let blk2 := (tag2 * s.L2.sets + set2) % 2 ^ 64
  let s1 := blk2 % s.L1.sets
  let t1 := blk2 / s.L1.sets
  { s with L1 := { s.L1 with data := s.L1.data.modify (invalidateFirst t1) s1 } }

/-- Write-back `Simulator::writeBackL1(old, set1)`; `old` is read before any change. -/
def Simulator.writeBackL1 (s : Simulator) (old : Line) (set1 : Nat) : Simulator :=
  if !old.valid || !old.dirty then s
  else
    let blk := (old.tag * s.L1.sets + set1) % 2 ^ 64
    let addr := (blk <<< s.blkB) % 2 ^ 64
    let r2 := s.L2.probe addr
    let s :=
      if !r2.hit then
        let ev := s.L2.lineAt r2.set r2.ln
        let s := if ev.valid then s.invalidateL1 ev.tag r2.set else s
        { s with L2 := s.L2.modifyLine r2.set r2.ln (fun _ => ⟨true, true, r2.tag, 0⟩) }
      else
        { s with L2 := s.L2.modifyLine r2.set r2.ln (fun L => { L with dirty := true }) }
    { s with L2 := s.L2.updateLRU r2.set r2.ln }

/-- The test `op=='w'||op=='W'` of `access`. -/
def isWrite (op : Char) : Bool := op == 'w' || op == 'W'

/-- The L1 hit path of `access` (lines 100-105): charge the L1 latency, mark the line dirty
on a write, refresh the recency of the row. -/
def Simulator.hitL1 (s : Simulator) (isW : Bool) (r1 : Res) : Simulator :=
  let s1 := { s with cycles := (s.cycles + s.tL1) % 2 ^ 64 }
  let s2 :=
    if isW then { s1 with L1 := s1.L1.modifyLine r1.set r1.ln (fun L => { L with dirty := true }) }
    else s1
  { s2 with L1 := s2.L1.updateLRU r1.set r1.ln }

/-- The write-around branch of `access` (lines 108-120). The sums `tL1 + tL2` and
`tL1 + tL2 + memC` are formed in 32-bit unsigned arithmetic before they are added to the
64-bit total. -/
def Simulator.writeAround (s : Simulator) (addr : Nat) : Simulator :=
  let s1 := { s with nL2 := (s.nL2 + 1) % 2 ^ 64 }
  let r2 := s1.L2.probe addr
  if r2.hit then
    let s2 := { s1 with cycles := (s1.cycles + (s1.tL1 + s1.tL2) % 2 ^ 32) % 2 ^ 64 }
    let s3 := { s2 with L2 := s2.L2.modifyLine r2.set r2.ln (fun L => { L with dirty := true }) }
    { s3 with L2 := s3.L2.updateLRU r2.set r2.ln }
  else
    let s2 := { s1 with mL2 := (s1.mL2 + 1) % 2 ^ 64 }
    { s2 with cycles := (s2.cycles + (s2.tL1 + s2.tL2 + s2.memC) % 2 ^ 32) % 2 ^ 64 }

/-- Filling the L1 slot `r1.ln` (lines 126-128, and again 137-139): write back the line
the slot holds, overwrite it with the new line, refresh the recency of the row. -/
def Simulator.fillL1 (s : Simulator) (isW : Bool) (r1 : Res) : Simulator :=
  let s1 := s.writeBackL1 (s.L1.lineAt r1.set r1.ln) r1.set
  let s2 := { s1 with L1 := s1.L1.modifyLine r1.set r1.ln (fun _ => ⟨true, isW, r1.tag, 0⟩) }
  { s2 with L1 := s2.L1.updateLRU r1.set r1.ln }

/-- Filling the L2 slot `r2.ln` from memory (lines 133-136): back-invalidate the L1 copy of
the line the slot holds when that line is valid, overwrite it with the new clean line,
refresh the recency of the row. -/
def Simulator.fillL2 (s : Simulator) (r2 : Res) : Simulator :=
  let ev2 := s.L2.lineAt r2.set r2.ln
  let s1 := if ev2.valid then s.invalidateL1 ev2.tag r2.set else s
  let s2 := { s1 with L2 := s1.L2.modifyLine r2.set r2.ln (fun _ => ⟨true, false, r2.tag, 0⟩) }
  { s2 with L2 := s2.L2.updateLRU r2.set r2.ln }

/-- The allocate branch of `access` when L2 hits (lines 124-129); `r1` and `r2` are the
results of the L1 and L2 probes. -/
def Simulator.allocHit (s : Simulator) (isW : Bool) (r1 r2 : Res) : Simulator :=
  let s1 := { s with cycles := (s.cycles + (s.tL1 + s.tL2) % 2 ^ 32) % 2 ^ 64 }
  let s2 := s1.fillL1 isW r1
  { s2 with L2 := s2.L2.updateLRU r2.set r2.ln }

/-- The allocate branch of `access` when L2 misses (lines 130-140). -/
def Simulator.allocMiss (s : Simulator) (isW : Bool) (r1 r2 : Res) : Simulator :=
  let s1 := { s with mL2 := (s.mL2 + 1) % 2 ^ 64 }
  let s2 := { s1 with cycles := (s1.cycles + (s1.tL1 + s1.tL2 + s1.memC) % 2 ^ 32) % 2 ^ 64 }
  let s3 := s2.fillL2 r2
  s3.fillL1 isW r1

/-- The allocate branch of `access` (lines 122-140): count the L2 access, probe L2. -/
def Simulator.allocate (s : Simulator) (isW : Bool) (addr : Nat) (r1 : Res) : Simulator :=
  let s1 := { s with nL2 := (s.nL2 + 1) % 2 ^ 64 }
  let r2 := s1.L2.probe addr
  if r2.hit then s1.allocHit isW r1 r2 else s1.allocMiss isW r1 r2

/-- One access `Simulator::access(op, addr)`: count it, probe L1 and take one of the three
paths of the source. -/
def Simulator.access (s : Simulator) (op : Char) (addr : Nat) : Simulator :=
  let isW := isWrite op
  let s1 := { s with nL1 := (s.nL1 + 1) % 2 ^ 64 }
  let r1 := s1.L1.probe addr
  if r1.hit then s1.hitL1 isW r1
  else
    let s2 := { s1 with mL1 := (s1.mL1 + 1) % 2 ^ 64 }
    if isW && s2.wrAlloc == 0 then s2.writeAround addr
    else s2.allocate isW addr r1

/-- Replaying a trace: the calls `sim.access(op, addr)` of the trace loop, in order. -/
def Simulator.run (s : Simulator) (trace : List (Char × Nat)) : Simulator :=
  trace.foldl (fun s e => s.access e.1 e.2) s

/-- The quotient `double(x)/y` of `report`, as an exact rational; `none` stands for the
result of a division by zero, which in IEEE arithmetic is a NaN or an infinity and not a
number. Rounding of the conversions and of the division is not modelled. -/
def fdiv (x y : Nat) : Option ℚ := if y = 0 then none else some ((x : ℚ) / (y : ℚ))

/-- The three values `report` prints: L1 miss rate, L2 miss rate, average access time. -/
structure Report where
  mr1 : Option ℚ
  mr2 : Option ℚ
  avg : Option ℚ

/-- The statistics of `Simulator::report` (lines 144-146), before formatting. -/
def Simulator.report (s : Simulator) : Report :=
  { mr1 := fdiv s.mL1 s.nL1,
    mr2 := if s.nL2 ≠ 0 then fdiv s.mL2 s.nL2 else some 0,
    avg := fdiv s.cycles s.nL1 }

/-! ## Predicates on states -/

/-- The validity flag and the tag of the line at way `w` of row `idx`. -/
def Cache.vt (c : Cache) (idx w : Nat) : Option (Bool × Nat) :=
  (c.line? idx w).map (fun L => (L.valid, L.tag))

/-- The grid has `sets` rows of `ways` lines each and neither count is zero. -/
def Cache.Shape (c : Cache) : Prop :=
  c.data.map List.length = List.replicate c.sets c.ways ∧ 0 < c.sets ∧ 0 < c.ways

/-- Block `blk` is resident: row `blk % sets` has a valid line whose tag is `blk / sets`. -/
def Cache.holds (c : Cache) (blk : Nat) : Prop :=
  ∃ w, c.vt (blk % c.sets) w = some (true, blk / c.sets)

/-- No row has two valid lines with the same tag. -/
def Cache.NoDup (c : Cache) : Prop :=
  ∀ (i w w' t : Nat), c.vt i w = some (true, t) → c.vt i w' = some (true, t) → w = w'

/-- The block of every valid line is the block of some 64-bit address, for block size
`2^b`. -/
def Cache.Bounded (c : Cache) (b : Nat) : Prop :=
  ∀ (i w t : Nat), c.vt i w = some (true, t) → (t * c.sets + i) * 2 ^ b < 2 ^ 64

/-- Inclusion: the block of every valid L1 line is resident in L2. -/
def Simulator.Incl (s : Simulator) : Prop :=
  ∀ (i w t : Nat), s.L1.vt i w = some (true, t) → s.L2.holds (t * s.L1.sets + i)

/-- The invariant of the simulator that every access maintains. -/
structure Simulator.Inv (s : Simulator) : Prop where
  shape1 : s.L1.Shape
  shape2 : s.L2.Shape
  blk1 : s.L1.blockB = s.blkB
  blk2 : s.L2.blockB = s.blkB
  bound1 : s.L1.Bounded s.blkB
  bound2 : s.L2.Bounded s.blkB
  nodup1 : s.L1.NoDup
  nodup2 : s.L2.NoDup
  incl : s.Incl

/-- Cache `c'` has the geometry of `c` and every valid line of `c'` is, at the same position
and with the same tag, a valid line of `c`. -/
structure Cache.Sub (c' c : Cache) : Prop where
  sets : c'.sets = c.sets
  ways : c'.ways = c.ways
  blockB : c'.blockB = c.blockB
  lens : c'.data.map List.length = c.data.map List.length
  vt : ∀ (j v t : Nat), c'.vt j v = some (true, t) → c.vt j v = some (true, t)

/-- The address `writeBackL1` rebuilds for the line with tag `tag` in L1 row `set1`. -/
def Simulator.wbAddr (s : Simulator) (tag set1 : Nat) : Nat :=
  (((tag * s.L1.sets + set1) % 2 ^ 64) <<< s.blkB) % 2 ^ 64

/-- The result of the L2 probe that `writeBackL1` makes for that line. -/
def Simulator.wbRes (s : Simulator) (tag set1 : Nat) : Res := s.L2.probe (s.wbAddr tag set1)

/-- The inclusion property in terms of the rows: for every valid line of L1, in row `set1`
with tag `tag`, the row `blk % L2.sets` of L2, where `blk = tag * L1.sets + set1`, contains a
valid line whose tag is `blk / L2.sets`. -/
def Simulator.Inclusive (s : Simulator) : Prop :=
  ∀ (set1 : Nat) (L : Line), L ∈ s.L1.row set1 → L.valid = true →
    ∃ L' ∈ s.L2.row ((L.tag * s.L1.sets + set1) % s.L2.sets),
      L'.valid = true ∧ L'.tag = (L.tag * s.L1.sets + set1) / s.L2.sets

/-- No duplicate residency: in every row at most one way position holds a valid line with
a given tag. -/
def Cache.NoDupTags (c : Cache) : Prop :=
  ∀ (set w w' : Nat) (L L' : Line), (c.row set)[w]? = some L → (c.row set)[w']? = some L' →
    L.valid = true → L'.valid = true → L.tag = L'.tag → w = w'

/-- Two states have the same caches and the same block size; they may differ in latencies,
policy flag and counters. -/
def Simulator.CacheEq (s t : Simulator) : Prop :=
  s.L1 = t.L1 ∧ s.L2 = t.L2 ∧ s.blkB = t.blkB

/-- Two states agree on everything but the three latencies and the cycle total. -/
def Simulator.Agree (s t : Simulator) : Prop :=
  s.CacheEq t ∧ s.wrAlloc = t.wrAlloc ∧ s.nL1 = t.nL1 ∧ s.mL1 = t.mL1 ∧ s.nL2 = t.nL2 ∧
    s.mL2 = t.mL2

/-- Block `blk` is resident and dirty: row `blk % sets` has a valid line with the dirty flag
set whose tag is `blk / sets`. -/
def Cache.holdsDirty (c : Cache) (blk : Nat) : Prop :=
  ∃ L ∈ c.row (blk % c.sets), L.valid = true ∧ L.dirty = true ∧ L.tag = blk / c.sets

/-- The L1 row and the L1 tag that `invalidateL1(tag2, set2)` computes (lines 85-87). -/
def Simulator.invalidateTarget (s : Simulator) (tag2 set2 : Nat) : Nat × Nat :=
  let blk2 := (tag2 * s.L2.sets + set2) % 2 ^ 64
  (blk2 % s.L1.sets, blk2 / s.L1.sets)

/-- The state in which the allocate branch of `access` calls `writeBackL1` (lines 126 and
137): the counters and the cycle total are updated and, on an L2 miss, the L2 slot is
already filled (lines 131-136). -/
def Simulator.wbState (s : Simulator) (addr : Nat) : Simulator :=
  let s1 := { s with nL1 := (s.nL1 + 1) % 2 ^ 64, mL1 := (s.mL1 + 1) % 2 ^ 64,
                     nL2 := (s.nL2 + 1) % 2 ^ 64 }
  let r2 := s1.L2.probe addr
  if r2.hit then { s1 with cycles := (s1.cycles + (s1.tL1 + s1.tL2) % 2 ^ 32) % 2 ^ 64 }
  else
    Simulator.fillL2
      { s1 with mL2 := (s1.mL2 + 1) % 2 ^ 64,
                cycles := (s1.cycles + (s1.tL1 + s1.tL2 + s1.memC) % 2 ^ 32) % 2 ^ 64 } r2

/-! ## The command line -/

/-- The test `isspace` of the C library on the characters that can occur in an argument. -/
def isSpace (c : Char) : Bool := c == ' ' || (9 ≤ c.toNat && c.toNat ≤ 13)

/-- The decimal digits at the head of a string, accumulated onto `acc`. -/
def atoiDigits : List Char → Nat → Nat
  | [], acc => acc
  | c :: cs, acc => if c.isDigit then atoiDigits cs (acc * 10 + (c.toNat - 48)) else acc

/-- The value `unsigned v = atoi(arg)`: leading white space is skipped, an optional sign is
read, then the decimal digits up to the first other character; the `int` is converted to
`unsigned`, that is, taken modulo `2^32`. For values outside the range of `int` the C library
leaves the result undefined; here they wrap. -/
def atoi (arg : String) : Nat :=
  match arg.data.dropWhile isSpace with
  | '-' :: r => (2 ^ 32 - atoiDigits r 0 % 2 ^ 32) % 2 ^ 32
  | '+' :: r => atoiDigits r 0 % 2 ^ 32
  | cs => atoiDigits cs 0 % 2 ^ 32

/-- The nine locals `memC, bB, wA, l1S, a1, c1, l2S, a2, c2` of `main`. -/
structure Config where
  memC : Nat
  bB : Nat
  wA : Nat
  l1S : Nat
  a1 : Nat
  c1 : Nat
  l2S : Nat
  a2 : Nat
  c2 : Nat
deriving DecidableEq, Repr

/-- The `if`/`else if` chain in the body of the argument loop (lines 166-175); `none` is the
final `else`, which prints `Bad arg` and returns 1. -/
def Config.set (cfg : Config) (k : String) (v : Nat) : Option Config :=
  if k = "--mem-cyc" then some { cfg with memC := v }
  else if k = "--bsize" then some { cfg with bB := v }
  else if k = "--wr-alloc" then some { cfg with wA := v }
  else if k = "--l1-size" then some { cfg with l1S := v }
  else if k = "--l1-assoc" then some { cfg with a1 := v }
  else if k = "--l1-cyc" then some { cfg with c1 := v }
  else if k = "--l2-size" then some { cfg with l2S := v }
  else if k = "--l2-assoc" then some { cfg with a2 := v }
  else if k = "--l2-cyc" then some { cfg with c2 := v }
  else none

/-- The argument loop `for (int i = 2; i + 1 < argc; i += 2)` on the arguments from position
2 on: a pair `argv[i], argv[i+1]` is read while both exist; a last argument without a
partner is not looked at. -/
def parseArgs : List String → Config → Option Config
  | k :: v :: rest, cfg =>
    match cfg.set k (atoi v) with
    | none => none
    | some c => parseArgs rest c
  | _, cfg => some cfg

/-- How `main` ends: the three error returns, or the return after the trace loop with the
simulator as the loop left it and the number of calls of `access`. -/
inductive Outcome where
  | usage : Outcome
  | badArg : Outcome
  | cannotOpen : Outcome
  | done : Simulator → Nat → Outcome
deriving DecidableEq, Repr

/-- The value `main` returns. -/
def Outcome.exitCode : Outcome → Nat
  | Outcome.done _ _ => 0
  | _ => 1

/-- The number of calls `sim.access(op, addr)` made before `main` returned. -/
def Outcome.processed : Outcome → Nat
  | Outcome.done _ n => n
  | _ => 0

/-- The function `main(argc, argv)` with `argc = argv.length`. The file system is the
argument `file`: for a path, `none` when the stream cannot be opened, otherwise the pairs
`(op, addr)` that the trace loop (lines 181-190) extracts from the lines of the file, in
order. -/
def main (argv : List String) (file : String → Option (List (Char × Nat))) : Outcome :=
  if argv.length < 20 then Outcome.usage
  else
    match parseArgs (argv.drop 2) ⟨0, 0, 0, 0, 0, 0, 0, 0, 0⟩ with
    | none => Outcome.badArg
    | some cfg =>
      match file (argv.getD 1 "") with
      | none => Outcome.cannotOpen
      | some trace =>
        Outcome.done
          ((Simulator.new cfg.memC cfg.bB cfg.wA cfg.l1S cfg.a1 cfg.c1 cfg.l2S cfg.a2
            cfg.c2).run trace) trace.length

/-- The nine configuration keys. -/
def configKeys : List String :=
  ["--mem-cyc", "--bsize", "--wr-alloc", "--l1-size", "--l1-assoc", "--l1-cyc", "--l2-size",
    "--l2-assoc", "--l2-cyc"]

/-- The arguments that stand in key position and are followed by a value, for the arguments
from position 2 on: every second one, as long as a partner exists. -/
def examinedKeys : List String → List String
  | k :: _ :: rest => k :: examinedKeys rest
  | _ => []

/-- In every row, two valid lines at different way positions have different `lru` values. -/
def Cache.LruDistinct (c : Cache) : Prop :=
  ∀ (i w w' : Nat) (L L' : Line), c.line? i w = some L → c.line? i w' = some L' →
    L.valid = true → L'.valid = true → L.lru = L'.lru → w = w'

/-- Every valid line has `lru` at most `k`, and the `lru` values of the valid lines of a row
are distinct. -/
def Cache.LruOK (c : Cache) (k : Nat) : Prop :=
  (∀ (i w : Nat) (L : Line), c.line? i w = some L → L.valid = true → L.lru ≤ k) ∧
    c.LruDistinct

/-- Every valid line of `c'` is, at the same position and with the same `lru`, a valid line
of `c`. -/
def Cache.LruSub (c' c : Cache) : Prop :=
  ∀ (j v : Nat) (L' : Line), c'.line? j v = some L' → L'.valid = true →
    ∃ L, c.line? j v = some L ∧ L.valid = true ∧ L.lru = L'.lru

/-- Caches `c'` and `c` have the same lines except possibly at way `w` of row `i`. -/
def Cache.EqOff (c' c : Cache) (i w : Nat) : Prop :=
  ∀ (j v : Nat), ¬ (j = i ∧ v = w) → c'.line? j v = c.line? j v

/-- The trace `w 0x4, w 0x8` repeated `n` times. -/
def lruRounds : Nat → List (Char × Nat)
  | 0 => []
  | n + 1 => ('w', 4) :: ('w', 8) :: lruRounds n

/-- An L1 of one set and one way, block size `2^2`, holding block 2 dirty. -/
def lruL1 : Cache := ⟨1, 1, 2, [[⟨true, true, 2, 0⟩]]⟩

/-- An L2 of one set and four ways, block size `2^2`, holding blocks 0, 1 and 2 dirty with
`lru` values `z`, 1 and 0, and an invalid line with `lru` value `q`. -/
def lruL2 (z q : Nat) : Cache :=
  ⟨1, 4, 2, [[⟨true, true, 0, z⟩, ⟨true, true, 1, 1⟩, ⟨true, true, 2, 0⟩,
    ⟨false, false, 0, q⟩]]⟩

/-- A simulator with the caches `lruL1` and `lruL2 z q`, write-allocate on, zero latencies and
zero counters. -/
def lruState (z q : Nat) : Simulator := ⟨0, 2, 1, 0, 0, lruL1, lruL2 z q, 0, 0, 0, 0, 0⟩

/-! ## Facts about rows -/

theorem getD_modify_row (f : List Line → List Line) (hf : f [] = []) (data : List (List Line))
    (i j : Nat) :
    (data.modify f i).getD j [] = if i = j then f (data.getD j []) else data.getD j [] := by
  simp only [List.getD_eq_getElem?_getD, List.getElem?_modify]
  cases h : data[j]? with
  | none => by_cases hij : i = j <;> simp [hij, hf]
  | some S => by_cases hij : i = j <;> simp [hij]

theorem map_length_modify (f : List Line → List Line) (hf : ∀ S, (f S).length = S.length)
    (data : List (List Line)) (i : Nat) :
    (data.modify f i).map List.length = data.map List.length := by
  apply List.ext_getElem?
  intro j
  simp only [List.getElem?_map, List.getElem?_modify]
  cases h : data[j]? with
  | none => simp
  | some S => by_cases hij : i = j <;> simp [hij, hf]

theorem findHit_some {t : Nat} {S : List Line} {w : Nat} (h : findHit t S = some w) :
    ∃ L, S[w]? = some L ∧ L.valid = true ∧ L.tag = t ∧
      ∀ j L', j < w → S[j]? = some L' → ¬ (L'.valid = true ∧ L'.tag = t) := by
  induction S generalizing w with
  | nil => simp [findHit] at h
  | cons L S ih =>
    unfold findHit at h
    by_cases hL : (L.valid && L.tag == t) = true
    · rw [if_pos hL] at h
      cases h
      simp only [Bool.and_eq_true, beq_iff_eq] at hL
      exact ⟨L, by simp, hL.1, hL.2, fun j L' hj => absurd hj (Nat.not_lt_zero j)⟩
    · rw [if_neg hL] at h
      cases hS : findHit t S with
      | none => simp [hS] at h
      | some v =>
        simp only [hS, Option.map_some', Option.some.injEq] at h
        subst h
        obtain ⟨L0, h1, h2, h3, h4⟩ := ih hS
        refine ⟨L0, by simpa using h1, h2, h3, ?_⟩
        intro j L' hj hget
        cases j with
        | zero =>
          simp only [List.getElem?_cons_zero, Option.some.injEq] at hget
          subst hget
          simpa using hL
        | succ j =>
          simp only [List.getElem?_cons_succ] at hget
          exact h4 j L' (by omega) hget

theorem findHit_none {t : Nat} {S : List Line} (h : findHit t S = none) :
    ∀ (j : Nat) (L : Line), S[j]? = some L → ¬ (L.valid = true ∧ L.tag = t) := by
  induction S with
  | nil => intro j L hget; simp at hget
  | cons L0 S ih =>
    unfold findHit at h
    by_cases hL : (L0.valid && L0.tag == t) = true
    · rw [if_pos hL] at h; cases h
    · rw [if_neg hL] at h
      have hS : findHit t S = none := by
        cases hS : findHit t S with
        | none => rfl
        | some v => simp [hS] at h
      intro j L hget
      cases j with
      | zero =>
        simp only [List.getElem?_cons_zero, Option.some.injEq] at hget
        subst hget
        simpa using hL
      | succ j =>
        simp only [List.getElem?_cons_succ] at hget
        exact ih hS j L hget

theorem findFree_some {S : List Line} {w : Nat} (h : findFree S = some w) :
    ∃ L, S[w]? = some L ∧ L.valid = false ∧
      ∀ j L', j < w → S[j]? = some L' → L'.valid = true := by
  induction S generalizing w with
  | nil => simp [findFree] at h
  | cons L S ih =>
    unfold findFree at h
    by_cases hL : (!L.valid) = true
    · rw [if_pos hL] at h
      cases h
      exact ⟨L, by simp, by simpa using hL, fun j L' hj => absurd hj (Nat.not_lt_zero j)⟩
    · rw [if_neg hL] at h
      cases hS : findFree S with
      | none => simp [hS] at h
      | some v =>
        simp only [hS, Option.map_some', Option.some.injEq] at h
        subst h
        obtain ⟨L0, h1, h2, h4⟩ := ih hS
        refine ⟨L0, by simpa using h1, h2, ?_⟩
        intro j L' hj hget
        cases j with
        | zero =>
          simp only [List.getElem?_cons_zero, Option.some.injEq] at hget
          subst hget
          simpa using hL
        | succ j =>
          simp only [List.getElem?_cons_succ] at hget
          exact h4 j L' (by omega) hget

theorem findFree_none {S : List Line} (h : findFree S = none) :
    ∀ (j : Nat) (L : Line), S[j]? = some L → L.valid = true := by
  induction S with
  | nil => intro j L hget; simp at hget
  | cons L0 S ih =>
    unfold findFree at h
    by_cases hL : (!L0.valid) = true
    · rw [if_pos hL] at h; cases h
    · rw [if_neg hL] at h
      have hS : findFree S = none := by
        cases hS : findFree S with
        | none => rfl
        | some v => simp [hS] at h
      intro j L hget
      cases j with
      | zero =>
        simp only [List.getElem?_cons_zero, Option.some.injEq] at hget
        subst hget
        simpa using hL
      | succ j =>
        simp only [List.getElem?_cons_succ] at hget
        exact ih hS j L hget

theorem maxElementLoop_spec (S : List Line) (best bestIdx cur : Nat) :
    (maxElementLoop S best bestIdx cur = bestIdx ∧
        ∀ (j : Nat) (L : Line), S[j]? = some L → L.lru ≤ best) ∨
      ∃ (k : Nat) (L : Line), maxElementLoop S best bestIdx cur = cur + k ∧ S[k]? = some L ∧
        best < L.lru ∧ (∀ (j : Nat) (L' : Line), S[j]? = some L' → L'.lru ≤ L.lru) ∧
        ∀ (j : Nat) (L' : Line), j < k → S[j]? = some L' → L'.lru < L.lru := by
  induction S generalizing best bestIdx cur with
  | nil => left; exact ⟨rfl, fun j L h => by simp at h⟩
  | cons L0 S ih =>
    unfold maxElementLoop
    by_cases hlt : best < L0.lru
    · rw [if_pos hlt]
      right
      rcases ih L0.lru cur (cur + 1) with ⟨hr, hall⟩ | ⟨k, L, hr, hk, hb, hall, hbefore⟩
      · refine ⟨0, L0, by simpa using hr, by simp, hlt, ?_, fun j L' hj => absurd hj (Nat.not_lt_zero j)⟩
        intro j L' hget
        cases j with
        | zero => simp only [List.getElem?_cons_zero, Option.some.injEq] at hget; subst hget; exact Nat.le_refl _
        | succ j => exact hall j L' (by simpa using hget)
      · refine ⟨k + 1, L, by omega, by simpa using hk, by omega, ?_, ?_⟩
        · intro j L' hget
          cases j with
          | zero => simp only [List.getElem?_cons_zero, Option.some.injEq] at hget; subst hget; omega
          | succ j => exact hall j L' (by simpa using hget)
        · intro j L' hj hget
          cases j with
          | zero => simp only [List.getElem?_cons_zero, Option.some.injEq] at hget; subst hget; exact hb
          | succ j => exact hbefore j L' (by omega) (by simpa using hget)
    · rw [if_neg hlt]
      rcases ih best bestIdx (cur + 1) with ⟨hr, hall⟩ | ⟨k, L, hr, hk, hb, hall, hbefore⟩
      · left
        refine ⟨hr, ?_⟩
        intro j L' hget
        cases j with
        | zero => simp only [List.getElem?_cons_zero, Option.some.injEq] at hget; subst hget; omega
        | succ j => exact hall j L' (by simpa using hget)
      · right
        refine ⟨k + 1, L, by omega, by simpa using hk, hb, ?_, ?_⟩
        · intro j L' hget
          cases j with
          | zero => simp only [List.getElem?_cons_zero, Option.some.injEq] at hget; subst hget; omega
          | succ j => exact hall j L' (by simpa using hget)
        · intro j L' hj hget
          cases j with
          | zero => simp only [List.getElem?_cons_zero, Option.some.injEq] at hget; subst hget; omega
          | succ j => exact hbefore j L' (by omega) (by simpa using hget)

theorem maxElement_spec {S : List Line} (hS : S ≠ []) :
    ∃ L, S[maxElement S]? = some L ∧
      (∀ (j : Nat) (L' : Line), S[j]? = some L' → L'.lru ≤ L.lru) ∧
      ∀ (j : Nat) (L' : Line), j < maxElement S → S[j]? = some L' → L'.lru < L.lru := by
  cases S with
  | nil => exact absurd rfl hS
  | cons L0 S =>
    have hdef : maxElement (L0 :: S) = maxElementLoop S L0.lru 0 1 := rfl
    rw [hdef]
    rcases maxElementLoop_spec S L0.lru 0 1 with ⟨hr, hall⟩ | ⟨k, L, hr, hk, hb, hall, hbefore⟩
    · rw [hr]
      refine ⟨L0, by simp, ?_, fun j L' hj => absurd hj (Nat.not_lt_zero j)⟩
      intro j L' hget
      cases j with
      | zero => simp only [List.getElem?_cons_zero, Option.some.injEq] at hget; subst hget; exact Nat.le_refl _
      | succ j => exact hall j L' (by simpa using hget)
    · rw [hr]
      refine ⟨L, by simpa [Nat.add_comm 1 k] using hk, ?_, ?_⟩
      · intro j L' hget
        cases j with
        | zero => simp only [List.getElem?_cons_zero, Option.some.injEq] at hget; subst hget; omega
        | succ j => exact hall j L' (by simpa using hget)
      · intro j L' hj hget
        cases j with
        | zero => simp only [List.getElem?_cons_zero, Option.some.injEq] at hget; subst hget; exact hb
        | succ j => exact hbefore j L' (by omega) (by simpa using hget)

theorem length_invalidateFirst (t : Nat) (S : List Line) :
    (invalidateFirst t S).length = S.length := by
  induction S with
  | nil => rfl
  | cons L S ih =>
    unfold invalidateFirst
    split <;> simp [ih]

/-- Back-invalidation of a row clears `valid` exactly at the position `findHit` reports. -/
theorem getElem?_invalidateFirst (t : Nat) (S : List Line) (w : Nat) :
    (invalidateFirst t S)[w]? =
      S[w]?.map (fun L => if findHit t S = some w then { L with valid := false } else L) := by
  induction S generalizing w with
  | nil => simp [invalidateFirst]
  | cons L S ih =>
    unfold invalidateFirst findHit
    by_cases hL : (L.valid && L.tag == t) = true
    · rw [if_pos hL, if_pos hL]
      cases w with
      | zero => simp
      | succ w => simp
    · rw [if_neg hL, if_neg hL]
      cases w with
      | zero =>
        cases hS : findHit t S <;> simp
      | succ w =>
        simp only [List.getElem?_cons_succ, ih]
        cases hS : findHit t S <;> simp

/-! ## Facts about the cache operations -/

@[simp] theorem Cache.sets_modifyLine (c : Cache) (i w : Nat) (f : Line → Line) :
    (c.modifyLine i w f).sets = c.sets := rfl

@[simp] theorem Cache.ways_modifyLine (c : Cache) (i w : Nat) (f : Line → Line) :
    (c.modifyLine i w f).ways = c.ways := rfl

@[simp] theorem Cache.blockB_modifyLine (c : Cache) (i w : Nat) (f : Line → Line) :
    (c.modifyLine i w f).blockB = c.blockB := rfl

@[simp] theorem Cache.sets_updateLRU (c : Cache) (i r : Nat) : (c.updateLRU i r).sets = c.sets := rfl

@[simp] theorem Cache.ways_updateLRU (c : Cache) (i r : Nat) : (c.updateLRU i r).ways = c.ways := rfl

@[simp] theorem Cache.blockB_updateLRU (c : Cache) (i r : Nat) :
    (c.updateLRU i r).blockB = c.blockB := rfl

theorem Cache.line?_modifyLine (c : Cache) (i w : Nat) (f : Line → Line) (j v : Nat) :
    (c.modifyLine i w f).line? j v =
      if i = j ∧ w = v then (c.line? j v).map f else c.line? j v := by
  unfold Cache.line? Cache.row Cache.modifyLine
  simp only
  rw [getD_modify_row _ (by simp)]
  by_cases hij : i = j
  · subst hij
    simp only [if_true, true_and, List.getElem?_modify]
    cases h : (c.data.getD i [])[v]? with
    | none => by_cases hwv : w = v <;> simp [hwv]
    | some L => by_cases hwv : w = v <;> simp [hwv]
  · simp [hij]

theorem Cache.line?_updateLRU (c : Cache) (i r j v : Nat) :
    (c.updateLRU i r).line? j v =
      (c.line? j v).map (fun L =>
        if i = j then (if r = v then { L with lru := 0 } else { L with lru := (L.lru + 1) % 2 ^ 32 })
        else L) := by
  unfold Cache.line? Cache.row Cache.updateLRU
  simp only
  rw [getD_modify_row _ (by simp)]
  by_cases hij : i = j
  · subst hij
    simp only [if_true, List.getElem?_modify, List.getElem?_map]
    cases h : (c.data.getD i [])[v]? with
    | none => simp
    | some L => by_cases hrv : r = v <;> simp [hrv]
  · simp [hij]

theorem Cache.map_length_modifyLine (c : Cache) (i w : Nat) (f : Line → Line) :
    (c.modifyLine i w f).data.map List.length = c.data.map List.length :=
  map_length_modify _ (by simp) _ _

theorem Cache.map_length_updateLRU (c : Cache) (i r : Nat) :
    (c.updateLRU i r).data.map List.length = c.data.map List.length :=
  map_length_modify _ (by simp) _ _

theorem Cache.vt_modifyLine (c : Cache) (i w : Nat) (f : Line → Line) (j v : Nat) :
    (c.modifyLine i w f).vt j v =
      if i = j ∧ w = v then
        (c.line? j v).map (fun L => ((f L).valid, (f L).tag))
      else c.vt j v := by
  unfold Cache.vt
  rw [Cache.line?_modifyLine]
  split
  · cases c.line? j v <;> rfl
  · rfl

theorem Cache.vt_modifyLine_dirty (c : Cache) (i w j v : Nat) :
    (c.modifyLine i w (fun L => { L with dirty := true })).vt j v = c.vt j v := by
  rw [Cache.vt_modifyLine]
  split <;> rfl

theorem Cache.vt_updateLRU (c : Cache) (i r j v : Nat) :
    (c.updateLRU i r).vt j v = c.vt j v := by
  unfold Cache.vt
  rw [Cache.line?_updateLRU]
  cases h : c.line? j v with
  | none => rfl
  | some L =>
    simp only [Option.map_some', Option.some.injEq]
    split_ifs <;> rfl

theorem Cache.Shape.length_data {c : Cache} (h : c.Shape) : c.data.length = c.sets := by
  have := congrArg List.length h.1
  simpa using this

theorem Cache.Shape.length_row {c : Cache} (h : c.Shape) {i : Nat} (hi : i < c.sets) :
    (c.row i).length = c.ways := by
  have hlen := h.length_data
  have h1 : (c.data.map List.length)[i]? = some c.ways := by
    rw [h.1]; simp [List.getElem?_replicate, hi]
  have hi' : i < c.data.length := by omega
  rw [List.getElem?_map, List.getElem?_eq_getElem hi'] at h1
  simp only [Option.map_some', Option.some.injEq] at h1
  unfold Cache.row
  rw [List.getD_eq_getElem?_getD, List.getElem?_eq_getElem hi']
  simpa using h1

theorem Cache.Shape.line?_isSome {c : Cache} (h : c.Shape) {i w : Nat} (hi : i < c.sets)
    (hw : w < c.ways) : ∃ L, c.line? i w = some L := by
  have := h.length_row hi
  unfold Cache.line?
  exact ⟨(c.row i)[w], List.getElem?_eq_getElem (by omega)⟩

theorem Cache.Shape.lt_of_line? {c : Cache} (h : c.Shape) {i w : Nat} {L : Line}
    (hl : c.line? i w = some L) : i < c.sets ∧ w < c.ways := by
  have hlen := h.length_data
  by_cases hi : i < c.sets
  · have := h.length_row hi
    unfold Cache.line? at hl
    have := (List.getElem?_eq_some_iff.mp hl).1
    exact ⟨hi, by omega⟩
  · exfalso
    have hrow : c.row i = [] := by
      unfold Cache.row
      rw [List.getD_eq_getElem?_getD, List.getElem?_eq_none (by omega)]
      rfl
    unfold Cache.line? at hl
    rw [hrow] at hl
    simp at hl

theorem Cache.Shape.lt_of_vt {c : Cache} (h : c.Shape) {i w : Nat} {x : Bool × Nat}
    (hl : c.vt i w = some x) : i < c.sets ∧ w < c.ways := by
  unfold Cache.vt at hl
  cases hL : c.line? i w with
  | none => simp [hL] at hl
  | some L => exact h.lt_of_line? hL

/-! ## Facts about the probe -/

@[simp] theorem Cache.probe_set (c : Cache) (a : Nat) :
    (c.probe a).set = (a >>> c.blockB) % c.sets := by
  unfold Cache.probe
  simp only
  split
  · rfl
  · split <;> rfl

@[simp] theorem Cache.probe_tag (c : Cache) (a : Nat) :
    (c.probe a).tag = (a >>> c.blockB) / c.sets := by
  unfold Cache.probe
  simp only
  split
  · rfl
  · split <;> rfl

theorem Cache.probe_of_findHit_some {c : Cache} {a w : Nat}
    (h : findHit ((a >>> c.blockB) / c.sets) (c.row ((a >>> c.blockB) % c.sets)) = some w) :
    (c.probe a).hit = true ∧ (c.probe a).ln = w := by
  unfold Cache.probe
  simp [h]

theorem Cache.probe_of_findFree_some {c : Cache} {a w : Nat}
    (h : findHit ((a >>> c.blockB) / c.sets) (c.row ((a >>> c.blockB) % c.sets)) = none)
    (h' : findFree (c.row ((a >>> c.blockB) % c.sets)) = some w) :
    (c.probe a).hit = false ∧ (c.probe a).ln = w := by
  unfold Cache.probe
  simp [h, h']

theorem Cache.probe_of_findFree_none {c : Cache} {a : Nat}
    (h : findHit ((a >>> c.blockB) / c.sets) (c.row ((a >>> c.blockB) % c.sets)) = none)
    (h' : findFree (c.row ((a >>> c.blockB) % c.sets)) = none) :
    (c.probe a).hit = false ∧
      (c.probe a).ln = maxElement (c.row ((a >>> c.blockB) % c.sets)) := by
  unfold Cache.probe
  simp [h, h']

theorem Cache.probe_hit_line? {c : Cache} {a : Nat} (h : (c.probe a).hit = true) :
    ∃ L, c.line? (c.probe a).set (c.probe a).ln = some L ∧ L.valid = true ∧
      L.tag = (c.probe a).tag := by
  cases hf : findHit ((a >>> c.blockB) / c.sets) (c.row ((a >>> c.blockB) % c.sets)) with
  | none =>
    cases hg : findFree (c.row ((a >>> c.blockB) % c.sets)) with
    | none => rw [(Cache.probe_of_findFree_none hf hg).1] at h; cases h
    | some w => rw [(Cache.probe_of_findFree_some hf hg).1] at h; cases h
  | some w =>
    obtain ⟨L, h1, h2, h3, -⟩ := findHit_some hf
    refine ⟨L, ?_, h2, by simpa using h3⟩
    rw [(Cache.probe_of_findHit_some hf).2, Cache.probe_set]
    exact h1

theorem Cache.probe_hit_vt {c : Cache} {a : Nat} (h : (c.probe a).hit = true) :
    c.vt (c.probe a).set (c.probe a).ln = some (true, (c.probe a).tag) := by
  obtain ⟨L, h1, h2, h3⟩ := Cache.probe_hit_line? h
  unfold Cache.vt
  rw [h1]
  simp [h2, h3]

theorem Cache.probe_miss_vt {c : Cache} {a : Nat} (h : (c.probe a).hit = false) (w : Nat) :
    c.vt (c.probe a).set w ≠ some (true, (c.probe a).tag) := by
  cases hf : findHit ((a >>> c.blockB) / c.sets) (c.row ((a >>> c.blockB) % c.sets)) with
  | some w0 => rw [(Cache.probe_of_findHit_some hf).1] at h; cases h
  | none =>
    intro hvt
    unfold Cache.vt Cache.line? at hvt
    rw [Cache.probe_set, Cache.probe_tag] at hvt
    cases hL : (c.row ((a >>> c.blockB) % c.sets))[w]? with
    | none => simp [hL] at hvt
    | some L =>
      simp only [hL, Option.map_some', Option.some.injEq, Prod.mk.injEq] at hvt
      exact findHit_none hf w L hL hvt

theorem Cache.probe_hit_of_vt {c : Cache} {a w : Nat}
    (h : c.vt (c.probe a).set w = some (true, (c.probe a).tag)) : (c.probe a).hit = true := by
  cases hh : (c.probe a).hit with
  | true => rfl
  | false => exact absurd h (Cache.probe_miss_vt hh w)

theorem Cache.probe_set_lt {c : Cache} (h : c.Shape) (a : Nat) : (c.probe a).set < c.sets := by
  rw [Cache.probe_set]
  exact Nat.mod_lt _ h.2.1

theorem Cache.probe_ln_lt {c : Cache} (h : c.Shape) (a : Nat) : (c.probe a).ln < c.ways := by
  have hset : (a >>> c.blockB) % c.sets < c.sets := Nat.mod_lt _ h.2.1
  have hlen := h.length_row hset
  cases hf : findHit ((a >>> c.blockB) / c.sets) (c.row ((a >>> c.blockB) % c.sets)) with
  | some w =>
    obtain ⟨L, h1, -⟩ := findHit_some hf
    rw [(Cache.probe_of_findHit_some hf).2]
    have := (List.getElem?_eq_some_iff.mp h1).1
    omega
  | none =>
    cases hg : findFree (c.row ((a >>> c.blockB) % c.sets)) with
    | some w =>
      obtain ⟨L, h1, -⟩ := findFree_some hg
      rw [(Cache.probe_of_findFree_some hf hg).2]
      have := (List.getElem?_eq_some_iff.mp h1).1
      omega
    | none =>
      rw [(Cache.probe_of_findFree_none hf hg).2]
      have hne : c.row ((a >>> c.blockB) % c.sets) ≠ [] := by
        intro h0
        rw [h0] at hlen
        have := h.2.2
        simp at hlen
        omega
      obtain ⟨L, h1, -⟩ := maxElement_spec hne
      have := (List.getElem?_eq_some_iff.mp h1).1
      omega

theorem Cache.probe_line?_isSome {c : Cache} (h : c.Shape) (a : Nat) :
    ∃ L, c.line? (c.probe a).set (c.probe a).ln = some L :=
  h.line?_isSome (Cache.probe_set_lt h a) (Cache.probe_ln_lt h a)

/-! ## Address arithmetic -/

theorem shiftRight_mul_le (a b : Nat) : (a >>> b) * 2 ^ b ≤ a := by
  rw [Nat.shiftRight_eq_div_pow]
  exact Nat.div_mul_le_self a (2 ^ b)

/-- The address rebuilt from a block number probes to that block again. -/
theorem rebuild_shiftRight {blk b : Nat} (h : blk * 2 ^ b < 2 ^ 64) :
    (((blk % 2 ^ 64) <<< b) % 2 ^ 64) >>> b = blk := by
  have hpos : 0 < 2 ^ b := Nat.pow_pos (by decide)
  have hblk : blk < 2 ^ 64 := lt_of_le_of_lt (Nat.le_mul_of_pos_right blk hpos) h
  rw [Nat.mod_eq_of_lt hblk, Nat.shiftLeft_eq, Nat.mod_eq_of_lt h, Nat.shiftRight_eq_div_pow]
  exact Nat.mul_div_cancel blk hpos

theorem block_mod {t n i : Nat} (hi : i < n) : (t * n + i) % n = i := by
  rw [Nat.add_comm, Nat.add_mul_mod_self_right]
  exact Nat.mod_eq_of_lt hi

theorem block_div {t n i : Nat} (hi : i < n) : (t * n + i) / n = t := by
  have hn : 0 < n := by omega
  rw [Nat.add_comm, Nat.add_mul_div_right _ _ hn, Nat.div_eq_of_lt hi, Nat.zero_add]

theorem div_mul_add_mod (x n : Nat) : x / n * n + x % n = x := by
  rw [Nat.mul_comm]
  exact Nat.div_add_mod x n

/-! ## Transport of the predicates -/

theorem Cache.Sub.refl (c : Cache) : Cache.Sub c c :=
  ⟨rfl, rfl, rfl, rfl, fun _ _ _ h => h⟩

theorem Cache.Sub.trans {a b c : Cache} (h1 : Cache.Sub a b) (h2 : Cache.Sub b c) :
    Cache.Sub a c :=
  ⟨h1.sets.trans h2.sets, h1.ways.trans h2.ways, h1.blockB.trans h2.blockB,
    h1.lens.trans h2.lens, fun j v t h => h2.vt j v t (h1.vt j v t h)⟩

theorem Cache.Sub.shape {c' c : Cache} (h : Cache.Sub c' c) (hc : c.Shape) : c'.Shape := by
  refine ⟨?_, ?_, ?_⟩
  · rw [h.lens, h.sets, h.ways]; exact hc.1
  · rw [h.sets]; exact hc.2.1
  · rw [h.ways]; exact hc.2.2

theorem Cache.Sub.bounded {c' c : Cache} (h : Cache.Sub c' c) {b : Nat} (hc : c.Bounded b) :
    c'.Bounded b := by
  intro i w t hvt
  rw [h.sets]
  exact hc i w t (h.vt i w t hvt)

theorem Cache.Sub.nodup {c' c : Cache} (h : Cache.Sub c' c) (hc : c.NoDup) : c'.NoDup :=
  fun i w w' t h1 h2 => hc i w w' t (h.vt i w t h1) (h.vt i w' t h2)

theorem Cache.Sub.holds {c' c : Cache} (h : Cache.Sub c' c) {blk : Nat} (hc : c'.holds blk) :
    c.holds blk := by
  obtain ⟨w, hw⟩ := hc
  rw [h.sets] at hw
  exact ⟨w, h.vt _ _ _ hw⟩

theorem Cache.sub_updateLRU (c : Cache) (i r : Nat) : Cache.Sub (c.updateLRU i r) c :=
  ⟨rfl, rfl, rfl, Cache.map_length_updateLRU c i r, fun j v t h => by
    rwa [Cache.vt_updateLRU] at h⟩

theorem Cache.updateLRU_sub (c : Cache) (i r : Nat) : Cache.Sub c (c.updateLRU i r) :=
  ⟨rfl, rfl, rfl, (Cache.map_length_updateLRU c i r).symm, fun j v t h => by
    rwa [Cache.vt_updateLRU]⟩

theorem Cache.sub_modifyLine_dirty (c : Cache) (i w : Nat) :
    Cache.Sub (c.modifyLine i w (fun L => { L with dirty := true })) c :=
  ⟨rfl, rfl, rfl, Cache.map_length_modifyLine c i w _, fun j v t h => by
    rwa [Cache.vt_modifyLine_dirty] at h⟩

theorem Cache.modifyLine_dirty_sub (c : Cache) (i w : Nat) :
    Cache.Sub c (c.modifyLine i w (fun L => { L with dirty := true })) :=
  ⟨rfl, rfl, rfl, (Cache.map_length_modifyLine c i w _).symm, fun j v t h => by
    rwa [Cache.vt_modifyLine_dirty]⟩

/-- Transport of the invariant to a state whose L1 has lost lines and whose L2 has gained
lines, when the inclusion is known by other means. -/
theorem Simulator.Inv.transport {s s' : Simulator} (h : s.Inv) (hb : s'.blkB = s.blkB)
    (h1 : Cache.Sub s'.L1 s.L1) (h2 : Cache.Sub s'.L2 s.L2) (h2' : Cache.Sub s.L2 s'.L2) :
    s'.Inv := by
  refine ⟨h1.shape h.shape1, h2.shape h.shape2, ?_, ?_, ?_, ?_, h1.nodup h.nodup1,
    h2.nodup h.nodup2, ?_⟩
  · rw [h1.blockB, hb]; exact h.blk1
  · rw [h2.blockB, hb]; exact h.blk2
  · rw [hb]; exact h1.bounded h.bound1
  · rw [hb]; exact h2.bounded h.bound2
  · intro i w t hvt
    rw [h1.sets]
    exact h2'.holds (h.incl i w t (h1.vt i w t hvt))

/-! ## Installing a line -/

theorem Cache.vt_install (c : Cache) (i w : Nat) (d : Bool) (t j v : Nat) :
    (c.modifyLine i w (fun _ => ⟨true, d, t, 0⟩)).vt j v =
      if i = j ∧ w = v then (c.line? j v).map (fun _ => (true, t)) else c.vt j v := by
  rw [Cache.vt_modifyLine]

theorem Cache.vt_install_self {c : Cache} {i w : Nat} (d : Bool) (t : Nat)
    (hin : ∃ L, c.line? i w = some L) :
    (c.modifyLine i w (fun _ => ⟨true, d, t, 0⟩)).vt i w = some (true, t) := by
  obtain ⟨L, hL⟩ := hin
  rw [Cache.vt_install, if_pos ⟨rfl, rfl⟩, hL]
  rfl

theorem Cache.vt_install_true {c : Cache} {i w : Nat} {d : Bool} {t j v t' : Nat}
    (h : (c.modifyLine i w (fun _ => ⟨true, d, t, 0⟩)).vt j v = some (true, t')) :
    (i = j ∧ w = v ∧ t' = t) ∨ (¬ (i = j ∧ w = v) ∧ c.vt j v = some (true, t')) := by
  rw [Cache.vt_install] at h
  by_cases hp : i = j ∧ w = v
  · rw [if_pos hp] at h
    left
    cases hL : c.line? j v with
    | none => simp [hL] at h
    | some L =>
      simp only [hL, Option.map_some', Option.some.injEq, Prod.mk.injEq, true_and] at h
      exact ⟨hp.1, hp.2, h.symm⟩
  · rw [if_neg hp] at h
    exact Or.inr ⟨hp, h⟩

theorem Cache.install_nodup {c : Cache} {i w : Nat} (d : Bool) {t : Nat} (hc : c.NoDup)
    (hmiss : ∀ v, c.vt i v ≠ some (true, t)) :
    (c.modifyLine i w (fun _ => ⟨true, d, t, 0⟩)).NoDup := by
  intro j v v' t' h1 h2
  rcases Cache.vt_install_true h1 with ⟨hj, hv, ht⟩ | ⟨hn1, hv1⟩
  · rcases Cache.vt_install_true h2 with ⟨-, hv', -⟩ | ⟨-, hv2⟩
    · omega
    · subst hj ht
      exact absurd hv2 (hmiss v')
  · rcases Cache.vt_install_true h2 with ⟨hj, -, ht⟩ | ⟨-, hv2⟩
    · subst hj ht
      exact absurd hv1 (hmiss v)
    · exact hc j v v' t' hv1 hv2

theorem Cache.install_bounded {c : Cache} {i w : Nat} (d : Bool) {t b : Nat} (hc : c.Bounded b)
    (hb : (t * c.sets + i) * 2 ^ b < 2 ^ 64) :
    (c.modifyLine i w (fun _ => ⟨true, d, t, 0⟩)).Bounded b := by
  intro j v t' h
  rw [Cache.sets_modifyLine]
  rcases Cache.vt_install_true h with ⟨hj, -, ht⟩ | ⟨-, hv⟩
  · subst hj ht; exact hb
  · exact hc j v t' hv

theorem Cache.install_shape {c : Cache} (i w : Nat) (d : Bool) (t : Nat) (hc : c.Shape) :
    (c.modifyLine i w (fun _ => ⟨true, d, t, 0⟩)).Shape := by
  refine ⟨?_, hc.2.1, hc.2.2⟩
  rw [Cache.map_length_modifyLine]
  exact hc.1

/-! ## Back-invalidation -/

@[simp] theorem Simulator.invalidateL1_L2 (s : Simulator) (t i : Nat) :
    (s.invalidateL1 t i).L2 = s.L2 := rfl

@[simp] theorem Simulator.invalidateL1_blkB (s : Simulator) (t i : Nat) :
    (s.invalidateL1 t i).blkB = s.blkB := rfl

@[simp] theorem Simulator.invalidateL1_sets (s : Simulator) (t i : Nat) :
    (s.invalidateL1 t i).L1.sets = s.L1.sets := rfl

@[simp] theorem Simulator.invalidateL1_ways (s : Simulator) (t i : Nat) :
    (s.invalidateL1 t i).L1.ways = s.L1.ways := rfl

@[simp] theorem Simulator.invalidateL1_blockB (s : Simulator) (t i : Nat) :
    (s.invalidateL1 t i).L1.blockB = s.L1.blockB := rfl

theorem Simulator.line?_invalidateL1 (s : Simulator) (t2 i2 j v : Nat) :
    (s.invalidateL1 t2 i2).L1.line? j v =
      (s.L1.line? j v).map (fun L =>
        if ((t2 * s.L2.sets + i2) % 2 ^ 64) % s.L1.sets = j ∧
            findHit (((t2 * s.L2.sets + i2) % 2 ^ 64) / s.L1.sets) (s.L1.row j) = some v then
          { L with valid := false }
        else L) := by
  unfold Simulator.invalidateL1 Cache.line? Cache.row
  simp only
  generalize (t2 * s.L2.sets + i2) % 2 ^ 64 = blk2
  rw [getD_modify_row _ (by rfl)]
  by_cases hj : blk2 % s.L1.sets = j
  · rw [if_pos hj, getElem?_invalidateFirst]
    simp only [hj, true_and]
  · rw [if_neg hj]
    simp only [hj, false_and, if_false]
    cases (s.L1.data.getD j [])[v]? <;> rfl

theorem Simulator.vt_invalidateL1_true {s : Simulator} {t2 i2 j v t : Nat}
    (h : (s.invalidateL1 t2 i2).L1.vt j v = some (true, t)) : s.L1.vt j v = some (true, t) := by
  unfold Cache.vt at h ⊢
  rw [Simulator.line?_invalidateL1] at h
  generalize (t2 * s.L2.sets + i2) % 2 ^ 64 = blk2 at h
  cases hL : s.L1.line? j v with
  | none => rw [hL] at h; cases h
  | some L =>
    rw [hL] at h
    simp only [Option.map_some', Option.some.injEq, Prod.mk.injEq] at h ⊢
    split_ifs at h with hc
    · simp at h
    · exact h

theorem Simulator.invalidateL1_sub (s : Simulator) (t2 i2 : Nat) :
    Cache.Sub (s.invalidateL1 t2 i2).L1 s.L1 :=
  ⟨rfl, rfl, rfl, map_length_modify _ (length_invalidateFirst _) _ _,
    fun _ _ _ h => Simulator.vt_invalidateL1_true h⟩

theorem Simulator.vt_invalidateL1_removed_aux {s : Simulator} (hnd : s.L1.NoDup)
    (t2 i2 v blk2 : Nat) (hblk : (t2 * s.L2.sets + i2) % 2 ^ 64 = blk2) :
    (s.invalidateL1 t2 i2).L1.vt (blk2 % s.L1.sets) v ≠ some (true, blk2 / s.L1.sets) := by
  intro h
  have hbefore := Simulator.vt_invalidateL1_true h
  unfold Cache.vt at h
  rw [Simulator.line?_invalidateL1, hblk] at h
  unfold Cache.vt at hbefore
  cases hL : s.L1.line? (blk2 % s.L1.sets) v with
  | none => rw [hL] at hbefore; cases hbefore
  | some L =>
    rw [hL] at h hbefore
    simp only [Option.map_some', Option.some.injEq, Prod.mk.injEq, true_and] at h hbefore
    cases hf : findHit (blk2 / s.L1.sets) (s.L1.row (blk2 % s.L1.sets)) with
    | none => exact findHit_none hf v L hL hbefore
    | some w0 =>
      obtain ⟨L0, h1, h2, h3, -⟩ := findHit_some hf
      have hvt0 : s.L1.vt (blk2 % s.L1.sets) w0 = some (true, blk2 / s.L1.sets) := by
        unfold Cache.vt Cache.line?
        rw [h1]; simp [h2, h3]
      have hvt : s.L1.vt (blk2 % s.L1.sets) v = some (true, blk2 / s.L1.sets) := by
        unfold Cache.vt
        rw [hL]; simp [hbefore.1, hbefore.2]
      have hw : v = w0 := hnd _ _ _ _ hvt hvt0
      subst hw
      rw [hf] at h
      simp at h

/-- After back-invalidation of block `blk2`, no valid L1 line carries that block. -/
theorem Simulator.vt_invalidateL1_removed {s : Simulator} (hnd : s.L1.NoDup) (t2 i2 v : Nat) :
    (s.invalidateL1 t2 i2).L1.vt (((t2 * s.L2.sets + i2) % 2 ^ 64) % s.L1.sets) v ≠
      some (true, ((t2 * s.L2.sets + i2) % 2 ^ 64) / s.L1.sets) :=
  Simulator.vt_invalidateL1_removed_aux hnd t2 i2 v _ rfl

/-! ## Write-back -/

theorem Simulator.writeBackL1_clean (s : Simulator) (old : Line) (set1 : Nat)
    (h : old.valid = false ∨ old.dirty = false) : s.writeBackL1 old set1 = s := by
  unfold Simulator.writeBackL1
  rcases h with h | h <;> simp [h]

theorem Simulator.writeBackL1_hit (s : Simulator) (old : Line) (set1 : Nat)
    (hv : old.valid = true) (hd : old.dirty = true)
    (hhit : (s.wbRes old.tag set1).hit = true) :
    s.writeBackL1 old set1 =
      { s with L2 := Cache.updateLRU
                      (s.L2.modifyLine (s.wbRes old.tag set1).set (s.wbRes old.tag set1).ln
                        (fun L => { L with dirty := true }))
                      (s.wbRes old.tag set1).set (s.wbRes old.tag set1).ln } := by
  unfold Simulator.wbRes Simulator.wbAddr at hhit ⊢
  unfold Simulator.writeBackL1
  simp only [hv, hd, hhit, Bool.not_true, Bool.or_self, Bool.false_eq_true, if_false]

theorem Simulator.writeBackL1_scalars (s : Simulator) (old : Line) (set1 : Nat) :
    (s.writeBackL1 old set1).memC = s.memC ∧ (s.writeBackL1 old set1).blkB = s.blkB ∧
    (s.writeBackL1 old set1).wrAlloc = s.wrAlloc ∧ (s.writeBackL1 old set1).tL1 = s.tL1 ∧
    (s.writeBackL1 old set1).tL2 = s.tL2 ∧ (s.writeBackL1 old set1).nL1 = s.nL1 ∧
    (s.writeBackL1 old set1).mL1 = s.mL1 ∧ (s.writeBackL1 old set1).nL2 = s.nL2 ∧
    (s.writeBackL1 old set1).mL2 = s.mL2 ∧ (s.writeBackL1 old set1).cycles = s.cycles := by
  unfold Simulator.writeBackL1
  dsimp only
  split_ifs <;> exact ⟨rfl, rfl, rfl, rfl, rfl, rfl, rfl, rfl, rfl, rfl⟩

theorem Cache.lineAt_valid {c : Cache} {i w : Nat} (h : (c.lineAt i w).valid = true) :
    c.line? i w = some (c.lineAt i w) := by
  unfold Cache.lineAt at h ⊢
  cases hL : c.line? i w with
  | none => rw [hL] at h; cases h
  | some L => rfl

theorem Cache.vt_of_lineAt_valid {c : Cache} {i w : Nat} (h : (c.lineAt i w).valid = true) :
    c.vt i w = some (true, (c.lineAt i w).tag) := by
  unfold Cache.vt
  rw [Cache.lineAt_valid h]
  simp [h]

/-- Under the invariant the probe of `writeBackL1` finds the block of a valid L1 line. -/
theorem Simulator.Inv.wb_probe {s : Simulator} (h : s.Inv) {i w t : Nat}
    (hvt : s.L1.vt i w = some (true, t)) :
    (s.wbRes t i).hit = true ∧
      (s.wbRes t i).set = (t * s.L1.sets + i) % s.L2.sets ∧
      (s.wbRes t i).tag = (t * s.L1.sets + i) / s.L2.sets := by
  have hb := h.bound1 i w t hvt
  have hsh : s.wbAddr t i >>> s.L2.blockB = t * s.L1.sets + i := by
    rw [h.blk2]
    exact rebuild_shiftRight hb
  have hset : (s.wbRes t i).set = (t * s.L1.sets + i) % s.L2.sets := by
    unfold Simulator.wbRes
    rw [Cache.probe_set, hsh]
  have htag : (s.wbRes t i).tag = (t * s.L1.sets + i) / s.L2.sets := by
    unfold Simulator.wbRes
    rw [Cache.probe_tag, hsh]
  refine ⟨?_, hset, htag⟩
  obtain ⟨w', hw'⟩ := h.incl i w t hvt
  have hvt2 : s.L2.vt (s.L2.probe (s.wbAddr t i)).set w' =
      some (true, (s.L2.probe (s.wbAddr t i)).tag) := by
    have e1 : (s.L2.probe (s.wbAddr t i)).set = (t * s.L1.sets + i) % s.L2.sets := hset
    have e2 : (s.L2.probe (s.wbAddr t i)).tag = (t * s.L1.sets + i) / s.L2.sets := htag
    rw [e1, e2]
    exact hw'
  exact Cache.probe_hit_of_vt hvt2

/-- Under the invariant, writing back an L1 line leaves L1 alone and changes neither the valid
flags nor the tags of L2. -/
theorem Simulator.Inv.writeBackL1 {s : Simulator} (h : s.Inv) (i w : Nat) :
    (s.writeBackL1 (s.L1.lineAt i w) i).L1 = s.L1 ∧
      Cache.Sub (s.writeBackL1 (s.L1.lineAt i w) i).L2 s.L2 ∧
      Cache.Sub s.L2 (s.writeBackL1 (s.L1.lineAt i w) i).L2 := by
  by_cases hv : (s.L1.lineAt i w).valid = true
  · by_cases hd : (s.L1.lineAt i w).dirty = true
    · have hp := (h.wb_probe (Cache.vt_of_lineAt_valid hv)).1
      rw [Simulator.writeBackL1_hit s _ i hv hd hp]
      exact ⟨rfl, (Cache.sub_updateLRU _ _ _).trans (Cache.sub_modifyLine_dirty _ _ _),
        (Cache.modifyLine_dirty_sub _ _ _).trans (Cache.updateLRU_sub _ _ _)⟩
    · rw [Simulator.writeBackL1_clean s _ i (Or.inr (by simpa using hd))]
      exact ⟨rfl, Cache.Sub.refl _, Cache.Sub.refl _⟩
  · rw [Simulator.writeBackL1_clean s _ i (Or.inl (by simpa using hv))]
    exact ⟨rfl, Cache.Sub.refl _, Cache.Sub.refl _⟩

theorem Simulator.Inv.writeBackL1_inv {s : Simulator} (h : s.Inv) (i w : Nat) :
    (s.writeBackL1 (s.L1.lineAt i w) i).Inv := by
  obtain ⟨h1, h2, h3⟩ := h.writeBackL1 i w
  have h1' : Cache.Sub (s.writeBackL1 (s.L1.lineAt i w) i).L1 s.L1 := by
    rw [h1]; exact Cache.Sub.refl _
  exact h.transport (s.writeBackL1_scalars _ _).2.1 h1' h2 h3

/-! ## The steps of an allocating access -/

theorem block_bound {a b n : Nat} (ha : a < 2 ^ 64) :
    ((a >>> b) / n * n + (a >>> b) % n) * 2 ^ b < 2 ^ 64 := by
  rw [div_mul_add_mod]
  exact lt_of_le_of_lt (shiftRight_mul_le a b) ha

/-- Installing the block of `a` into L1, when L2 holds it and L1 does not, keeps the
invariant. -/
theorem Simulator.Inv.installL1 {s s' : Simulator} (h : s.Inv) {a : Nat} (ha : a < 2 ^ 64)
    {i t : Nat} (w : Nat) (d : Bool)
    (hi : i = (a >>> s.blkB) % s.L1.sets) (ht : t = (a >>> s.blkB) / s.L1.sets)
    (hholds : s.L2.holds (a >>> s.blkB))
    (hmiss : ∀ v, s.L1.vt i v ≠ some (true, t))
    (hb : s'.blkB = s.blkB)
    (h1 : s'.L1 = (s.L1.modifyLine i w (fun _ => ⟨true, d, t, 0⟩)).updateLRU i w)
    (h2 : Cache.Sub s'.L2 s.L2) (h2' : Cache.Sub s.L2 s'.L2) : s'.Inv := by
  subst hi ht
  have hsub := Cache.sub_updateLRU (s.L1.modifyLine ((a >>> s.blkB) % s.L1.sets) w
      (fun _ => ⟨true, d, (a >>> s.blkB) / s.L1.sets, 0⟩)) ((a >>> s.blkB) % s.L1.sets) w
  rw [← h1] at hsub
  refine ⟨hsub.shape (Cache.install_shape _ _ _ _ h.shape1), h2.shape h.shape2, ?_, ?_, ?_, ?_,
    hsub.nodup (Cache.install_nodup d h.nodup1 hmiss), h2.nodup h.nodup2, ?_⟩
  · rw [h1, hb]; exact h.blk1
  · rw [h2.blockB, hb]; exact h.blk2
  · rw [hb]
    exact hsub.bounded (Cache.install_bounded d h.bound1 (block_bound ha))
  · rw [hb]; exact h2.bounded h.bound2
  · intro j v t' hvt
    have hs : s'.L1.sets = s.L1.sets := by rw [h1]; rfl
    rw [hs]
    apply h2'.holds
    rcases Cache.vt_install_true (hsub.vt j v t' hvt) with ⟨hj, -, ht⟩ | ⟨-, hv⟩
    · subst hj ht
      rw [div_mul_add_mod]
      exact hholds
    · exact h.incl j v t' hv

/-- Filling an L2 slot with the block of `a` after an L2 miss keeps the invariant and makes
the block resident in L2. -/
theorem Simulator.Inv.fillL2 {s : Simulator} (h : s.Inv) {a : Nat} (ha : a < 2 ^ 64)
    (hmiss : (s.L2.probe a).hit = false) :
    (s.fillL2 (s.L2.probe a)).Inv ∧ (s.fillL2 (s.L2.probe a)).L2.holds (a >>> s.blkB) ∧
      Cache.Sub (s.fillL2 (s.L2.probe a)).L1 s.L1 := by
  have hb : (s.fillL2 (s.L2.probe a)).blkB = s.blkB := by
    unfold Simulator.fillL2; dsimp only; split <;> rfl
  have h1 : (s.fillL2 (s.L2.probe a)).L1 =
      (if (s.L2.lineAt (s.L2.probe a).set (s.L2.probe a).ln).valid = true then
        s.invalidateL1 (s.L2.lineAt (s.L2.probe a).set (s.L2.probe a).ln).tag (s.L2.probe a).set
      else s).L1 := rfl
  have h2 : (s.fillL2 (s.L2.probe a)).L2 = (s.L2.modifyLine (s.L2.probe a).set (s.L2.probe a).ln
      (fun _ => ⟨true, false, (s.L2.probe a).tag, 0⟩)).updateLRU
        (s.L2.probe a).set (s.L2.probe a).ln := by
    unfold Simulator.fillL2; dsimp only; split <;> rfl
  generalize s.fillL2 (s.L2.probe a) = s' at hb h1 h2 ⊢
  have hsub1 : Cache.Sub s'.L1 s.L1 := by
    rw [h1]
    split
    · exact Simulator.invalidateL1_sub _ _ _
    · exact Cache.Sub.refl _
  have hsub2 := Cache.sub_updateLRU (s.L2.modifyLine (s.L2.probe a).set (s.L2.probe a).ln
      (fun _ => ⟨true, false, (s.L2.probe a).tag, 0⟩)) (s.L2.probe a).set (s.L2.probe a).ln
  rw [← h2] at hsub2
  have hvt2 : ∀ j v, s'.L2.vt j v = (s.L2.modifyLine (s.L2.probe a).set (s.L2.probe a).ln
      (fun _ => ⟨true, false, (s.L2.probe a).tag, 0⟩)).vt j v := by
    intro j v; rw [h2, Cache.vt_updateLRU]
  have hs2 : s'.L2.sets = s.L2.sets := by rw [h2]; rfl
  have hb2 : ((s.L2.probe a).tag * s.L2.sets + (s.L2.probe a).set) * 2 ^ s.blkB < 2 ^ 64 := by
    rw [Cache.probe_tag, Cache.probe_set, h.blk2]
    exact block_bound ha
  have hholds : s'.L2.holds (a >>> s.blkB) := by
    refine ⟨(s.L2.probe a).ln, ?_⟩
    have := Cache.vt_install_self false (s.L2.probe a).tag (Cache.probe_line?_isSome h.shape2 a)
    have e1 : (s.L2.probe a).set = (a >>> s.blkB) % s.L2.sets := by
      rw [Cache.probe_set, h.blk2]
    have e2 : (s.L2.probe a).tag = (a >>> s.blkB) / s.L2.sets := by
      rw [Cache.probe_tag, h.blk2]
    rw [hvt2, hs2, ← e1, ← e2]
    exact this
  refine ⟨⟨hsub1.shape h.shape1, hsub2.shape (Cache.install_shape _ _ _ _ h.shape2), ?_, ?_, ?_,
    ?_, hsub1.nodup h.nodup1,
    hsub2.nodup (Cache.install_nodup false h.nodup2 (Cache.probe_miss_vt hmiss)), ?_⟩,
    hholds, hsub1⟩
  · rw [hsub1.blockB, hb]; exact h.blk1
  · rw [h2, hb]; exact h.blk2
  · rw [hb]; exact hsub1.bounded h.bound1
  · rw [hb]; exact hsub2.bounded (Cache.install_bounded false h.bound2 hb2)
  · intro j v t hvt
    have hvt0 := hsub1.vt j v t hvt
    have hj : j < s.L1.sets := (h.shape1.lt_of_vt hvt0).1
    have hZb := h.bound1 j v t hvt0
    obtain ⟨w', hw'⟩ := h.incl j v t hvt0
    rw [hsub1.sets]
    refine ⟨w', ?_⟩
    rw [hvt2, hs2, Cache.vt_install]
    by_cases hp : (s.L2.probe a).set = (t * s.L1.sets + j) % s.L2.sets ∧ (s.L2.probe a).ln = w'
    · exfalso
      obtain ⟨hp1, hp2⟩ := hp
      rw [← hp1, ← hp2] at hw'
      unfold Cache.vt at hw'
      cases hL : s.L2.line? (s.L2.probe a).set (s.L2.probe a).ln with
      | none => rw [hL] at hw'; cases hw'
      | some L =>
        rw [hL] at hw'
        simp only [Option.map_some', Option.some.injEq, Prod.mk.injEq] at hw'
        have hat : s.L2.lineAt (s.L2.probe a).set (s.L2.probe a).ln = L := by
          unfold Cache.lineAt; rw [hL]; rfl
        rw [hat, if_pos hw'.1, hw'.2, hp1] at h1
        have hZ : (t * s.L1.sets + j) < 2 ^ 64 :=
          lt_of_le_of_lt (Nat.le_mul_of_pos_right _ (Nat.pow_pos (by decide))) hZb
        have hrm := Simulator.vt_invalidateL1_removed_aux h.nodup1
          ((t * s.L1.sets + j) / s.L2.sets) ((t * s.L1.sets + j) % s.L2.sets) v
          (t * s.L1.sets + j) (by rw [div_mul_add_mod]; exact Nat.mod_eq_of_lt hZ)
        rw [← h1, block_mod hj, block_div hj] at hrm
        exact hrm hvt
    · rw [if_neg hp]
      exact hw'

theorem Simulator.fillL1_scalars (s : Simulator) (isW : Bool) (r1 : Res) :
    (s.fillL1 isW r1).memC = s.memC ∧ (s.fillL1 isW r1).blkB = s.blkB ∧
    (s.fillL1 isW r1).wrAlloc = s.wrAlloc ∧ (s.fillL1 isW r1).tL1 = s.tL1 ∧
    (s.fillL1 isW r1).tL2 = s.tL2 ∧ (s.fillL1 isW r1).nL1 = s.nL1 ∧
    (s.fillL1 isW r1).mL1 = s.mL1 ∧ (s.fillL1 isW r1).nL2 = s.nL2 ∧
    (s.fillL1 isW r1).mL2 = s.mL2 ∧ (s.fillL1 isW r1).cycles = s.cycles :=
  s.writeBackL1_scalars _ _

theorem Simulator.fillL2_scalars (s : Simulator) (r2 : Res) :
    (s.fillL2 r2).memC = s.memC ∧ (s.fillL2 r2).blkB = s.blkB ∧
    (s.fillL2 r2).wrAlloc = s.wrAlloc ∧ (s.fillL2 r2).tL1 = s.tL1 ∧
    (s.fillL2 r2).tL2 = s.tL2 ∧ (s.fillL2 r2).nL1 = s.nL1 ∧
    (s.fillL2 r2).mL1 = s.mL1 ∧ (s.fillL2 r2).nL2 = s.nL2 ∧
    (s.fillL2 r2).mL2 = s.mL2 ∧ (s.fillL2 r2).cycles = s.cycles := by
  unfold Simulator.fillL2
  dsimp only
  split <;> exact ⟨rfl, rfl, rfl, rfl, rfl, rfl, rfl, rfl, rfl, rfl⟩

/-- Filling an L1 slot with the block of `a`, when L2 holds the block and L1 does not, keeps
the invariant and changes neither the valid flags nor the tags of L2. -/
theorem Simulator.Inv.fillL1 {s : Simulator} (h : s.Inv) {a : Nat} (ha : a < 2 ^ 64)
    (isW : Bool) (r1 : Res)
    (hset : r1.set = (a >>> s.blkB) % s.L1.sets) (htag : r1.tag = (a >>> s.blkB) / s.L1.sets)
    (hholds : s.L2.holds (a >>> s.blkB))
    (hmiss : ∀ v, s.L1.vt r1.set v ≠ some (true, r1.tag)) :
    (s.fillL1 isW r1).Inv ∧ Cache.Sub (s.fillL1 isW r1).L2 s.L2 ∧
      Cache.Sub s.L2 (s.fillL1 isW r1).L2 := by
  obtain ⟨e1, e2, e3⟩ := h.writeBackL1 r1.set r1.ln
  have hs1 := h.writeBackL1_inv r1.set r1.ln
  have hb1 := (s.writeBackL1_scalars (s.L1.lineAt r1.set r1.ln) r1.set).2.1
  refine ⟨?_, e2, e3⟩
  refine hs1.installL1 ha r1.ln isW ?_ ?_ ?_ ?_ rfl rfl (Cache.Sub.refl _) (Cache.Sub.refl _)
  · rw [hb1, e1]; exact hset
  · rw [hb1, e1]; exact htag
  · rw [hb1]; exact e3.holds hholds
  · rw [e1]; exact hmiss

/-! ## Every access keeps the invariant -/

theorem Simulator.Inv.of_eq {s s' : Simulator} (h : s.Inv) (h1 : s'.L1 = s.L1)
    (h2 : s'.L2 = s.L2) (hb : s'.blkB = s.blkB) : s'.Inv :=
  h.transport hb (h1 ▸ Cache.Sub.refl _) (h2 ▸ Cache.Sub.refl _) (h2 ▸ Cache.Sub.refl _)

theorem Simulator.Inv.hitL1 {s : Simulator} (h : s.Inv) (isW : Bool) (r1 : Res) :
    (s.hitL1 isW r1).Inv := by
  cases isW
  · exact h.transport rfl (Cache.sub_updateLRU _ _ _) (Cache.Sub.refl _) (Cache.Sub.refl _)
  · exact h.transport rfl
      ((Cache.sub_updateLRU _ _ _).trans (Cache.sub_modifyLine_dirty _ _ _))
      (Cache.Sub.refl _) (Cache.Sub.refl _)

theorem Simulator.Inv.writeAround {s : Simulator} (h : s.Inv) (a : Nat) :
    (s.writeAround a).Inv := by
  unfold Simulator.writeAround
  dsimp only
  split
  · exact h.transport rfl (Cache.Sub.refl _)
      ((Cache.sub_updateLRU _ _ _).trans (Cache.sub_modifyLine_dirty _ _ _))
      ((Cache.modifyLine_dirty_sub _ _ _).trans (Cache.updateLRU_sub _ _ _))
  · exact h.of_eq rfl rfl rfl

theorem Simulator.Inv.probe_holds {s : Simulator} (h : s.Inv) {a : Nat}
    (h2 : (s.L2.probe a).hit = true) : s.L2.holds (a >>> s.blkB) := by
  refine ⟨(s.L2.probe a).ln, ?_⟩
  have := Cache.probe_hit_vt h2
  rw [Cache.probe_set, Cache.probe_tag, h.blk2] at this
  exact this

theorem Simulator.Inv.allocHit {s : Simulator} (h : s.Inv) (isW : Bool) {a : Nat}
    (ha : a < 2 ^ 64) (h1 : (s.L1.probe a).hit = false) (h2 : (s.L2.probe a).hit = true) :
    (s.allocHit isW (s.L1.probe a) (s.L2.probe a)).Inv := by
  have hs1 : Simulator.Inv
      { s with cycles := (s.cycles + (s.tL1 + s.tL2) % 2 ^ 32) % 2 ^ 64 } :=
    h.of_eq rfl rfl rfl
  obtain ⟨hs2, e2, e3⟩ := hs1.fillL1 ha isW (s.L1.probe a)
    (by rw [Cache.probe_set, h.blk1]) (by rw [Cache.probe_tag, h.blk1])
    (h.probe_holds h2) (Cache.probe_miss_vt h1)
  exact hs2.transport rfl (Cache.Sub.refl _)
    (Cache.sub_updateLRU _ _ _) (Cache.updateLRU_sub _ _ _)

theorem Simulator.Inv.allocMiss {s : Simulator} (h : s.Inv) (isW : Bool) {a : Nat}
    (ha : a < 2 ^ 64) (h1 : (s.L1.probe a).hit = false) (h2 : (s.L2.probe a).hit = false) :
    (s.allocMiss isW (s.L1.probe a) (s.L2.probe a)).Inv := by
  have hs2 : Simulator.Inv
      { s with mL2 := (s.mL2 + 1) % 2 ^ 64,
               cycles := (s.cycles + (s.tL1 + s.tL2 + s.memC) % 2 ^ 32) % 2 ^ 64 } :=
    h.of_eq rfl rfl rfl
  obtain ⟨hs3, hholds3, hsub3⟩ := hs2.fillL2 ha h2
  have hb3 := (Simulator.fillL2_scalars
      { s with mL2 := (s.mL2 + 1) % 2 ^ 64,
               cycles := (s.cycles + (s.tL1 + s.tL2 + s.memC) % 2 ^ 32) % 2 ^ 64 }
      (s.L2.probe a)).2.1
  refine (hs3.fillL1 ha isW (s.L1.probe a) ?_ ?_ ?_ ?_).1
  · rw [hb3, hsub3.sets]
    show (s.L1.probe a).set = (a >>> s.blkB) % s.L1.sets
    rw [Cache.probe_set, h.blk1]
  · rw [hb3, hsub3.sets]
    show (s.L1.probe a).tag = (a >>> s.blkB) / s.L1.sets
    rw [Cache.probe_tag, h.blk1]
  · rw [hb3]; exact hholds3
  · intro v hv
    exact Cache.probe_miss_vt h1 v (hsub3.vt _ _ _ hv)

theorem Simulator.Inv.allocate {s : Simulator} (h : s.Inv) (isW : Bool) {a : Nat}
    (ha : a < 2 ^ 64) (h1 : (s.L1.probe a).hit = false) :
    (s.allocate isW a (s.L1.probe a)).Inv := by
  have hs1 : Simulator.Inv { s with nL2 := (s.nL2 + 1) % 2 ^ 64 } := h.of_eq rfl rfl rfl
  unfold Simulator.allocate
  dsimp only
  split
  · next h2 => exact hs1.allocHit isW ha h1 h2
  · next h2 => exact hs1.allocMiss isW ha h1 (by simpa using h2)

theorem Simulator.Inv.access {s : Simulator} (h : s.Inv) (op : Char) {a : Nat}
    (ha : a < 2 ^ 64) : (s.access op a).Inv := by
  have hs1 : Simulator.Inv { s with nL1 := (s.nL1 + 1) % 2 ^ 64 } := h.of_eq rfl rfl rfl
  have hs2 : Simulator.Inv { s with nL1 := (s.nL1 + 1) % 2 ^ 64, mL1 := (s.mL1 + 1) % 2 ^ 64 } :=
    h.of_eq rfl rfl rfl
  unfold Simulator.access
  dsimp only
  split
  · exact hs1.hitL1 _ _
  · next h1 =>
    split
    · exact hs2.writeAround a
    · exact hs2.allocate _ ha (by simpa using h1)

theorem Simulator.Inv.run {s : Simulator} (h : s.Inv) (trace : List (Char × Nat))
    (haddr : ∀ e ∈ trace, e.2 < 2 ^ 64) : (s.run trace).Inv := by
  induction trace generalizing s with
  | nil => exact h
  | cons e rest ih =>
    have he : e.2 < 2 ^ 64 := haddr e (List.mem_cons_self _ _)
    exact ih (h.access e.1 he) (fun e' he' => haddr e' (List.mem_cons_of_mem _ he'))

/-! ## The freshly constructed simulator -/

theorem Cache.line?_new {sz as bl i w : Nat} {L : Line}
    (h : (Cache.new sz as bl).line? i w = some L) : L = Line.fresh := by
  unfold Cache.line? Cache.row Cache.new at h
  simp only [List.getD_eq_getElem?_getD, List.getElem?_replicate] at h
  split at h
  · simp only [Option.getD_some, List.getElem?_replicate] at h
    split at h
    · exact (Option.some.inj h).symm
    · cases h
  · simp at h

theorem Cache.vt_new (sz as bl i w t : Nat) : (Cache.new sz as bl).vt i w ≠ some (true, t) := by
  intro h
  unfold Cache.vt at h
  cases hL : (Cache.new sz as bl).line? i w with
  | none => rw [hL] at h; cases h
  | some L =>
    rw [hL, Cache.line?_new hL] at h
    simp [Line.fresh] at h

theorem Cache.shape_new {sz as bl : Nat} (h : 1 ≤ (Cache.new sz as bl).sets) :
    (Cache.new sz as bl).Shape := by
  refine ⟨?_, h, ?_⟩
  · simp [Cache.new]
  · have hw : (Cache.new sz as bl).sets =
        shl32 ((sz + 2 ^ 32 - bl) % 2 ^ 32) / (Cache.new sz as bl).ways := rfl
    by_contra h0
    have h0' : (Cache.new sz as bl).ways = 0 := by omega
    rw [h0', Nat.div_zero] at hw
    omega

theorem Simulator.inv_new (m b w s1 a1 c1 s2 a2 c2 : Nat)
    (h1 : 1 ≤ (Simulator.new m b w s1 a1 c1 s2 a2 c2).L1.sets)
    (h2 : 1 ≤ (Simulator.new m b w s1 a1 c1 s2 a2 c2).L2.sets) :
    (Simulator.new m b w s1 a1 c1 s2 a2 c2).Inv :=
  ⟨Cache.shape_new h1, Cache.shape_new h2, rfl, rfl,
    fun i w t h => absurd h (Cache.vt_new _ _ _ i w t),
    fun i w t h => absurd h (Cache.vt_new _ _ _ i w t),
    fun i w _ t h _ => absurd h (Cache.vt_new _ _ _ i w t),
    fun i w _ t h _ => absurd h (Cache.vt_new _ _ _ i w t),
    fun i w t h => absurd h (Cache.vt_new _ _ _ i w t)⟩

/-! ## From positions to membership -/

theorem Cache.vt_eq_some_iff {c : Cache} {i w : Nat} {b : Bool} {t : Nat} :
    c.vt i w = some (b, t) ↔ ∃ L, (c.row i)[w]? = some L ∧ L.valid = b ∧ L.tag = t := by
  unfold Cache.vt Cache.line?
  cases (c.row i)[w]? with
  | none => simp
  | some L => simp

theorem Cache.holds_iff {c : Cache} {blk : Nat} :
    c.holds blk ↔
      ∃ L ∈ c.row (blk % c.sets), L.valid = true ∧ L.tag = blk / c.sets := by
  unfold Cache.holds
  constructor
  · rintro ⟨w, hw⟩
    obtain ⟨L, hL, hv, ht⟩ := Cache.vt_eq_some_iff.mp hw
    exact ⟨L, List.getElem?_mem hL, hv, ht⟩
  · rintro ⟨L, hL, hv, ht⟩
    obtain ⟨w, hw⟩ := List.getElem?_of_mem hL
    exact ⟨w, Cache.vt_eq_some_iff.mpr ⟨L, hw, hv, ht⟩⟩

theorem Simulator.Inv.inclusive {s : Simulator} (h : s.Inv) : s.Inclusive := by
  intro set1 L hL hv
  obtain ⟨w, hw⟩ := List.getElem?_of_mem hL
  exact Cache.holds_iff.mp (h.incl set1 w L.tag (Cache.vt_eq_some_iff.mpr ⟨L, hw, hv, rfl⟩))

theorem Cache.NoDup.noDupTags {c : Cache} (h : c.NoDup) : c.NoDupTags := by
  intro set w w' L L' hL hL' hv hv' ht
  exact h set w w' L.tag (Cache.vt_eq_some_iff.mpr ⟨L, hL, hv, rfl⟩)
    (Cache.vt_eq_some_iff.mpr ⟨L', hL', hv', ht.symm⟩)

/-! ## The three paths of an access, and the counters -/

theorem Simulator.access_hit (s : Simulator) (op : Char) (a : Nat)
    (h : (s.L1.probe a).hit = true) :
    s.access op a =
      Simulator.hitL1 { s with nL1 := (s.nL1 + 1) % 2 ^ 64 } (isWrite op) (s.L1.probe a) := by
  unfold Simulator.access
  dsimp only
  rw [if_pos h]

theorem Simulator.access_around (s : Simulator) (op : Char) (a : Nat)
    (h : (s.L1.probe a).hit = false) (hw : (isWrite op && s.wrAlloc == 0) = true) :
    s.access op a =
      Simulator.writeAround
        { s with nL1 := (s.nL1 + 1) % 2 ^ 64, mL1 := (s.mL1 + 1) % 2 ^ 64 } a := by
  unfold Simulator.access
  dsimp only
  rw [if_neg (by simp [h]), if_pos hw]

theorem Simulator.access_allocate (s : Simulator) (op : Char) (a : Nat)
    (h : (s.L1.probe a).hit = false) (hw : (isWrite op && s.wrAlloc == 0) = false) :
    s.access op a =
      Simulator.allocate
        { s with nL1 := (s.nL1 + 1) % 2 ^ 64, mL1 := (s.mL1 + 1) % 2 ^ 64 }
        (isWrite op) a (s.L1.probe a) := by
  unfold Simulator.access
  dsimp only
  rw [if_neg (by simp [h]), if_neg (by simp [hw])]

theorem Simulator.allocate_hit (s : Simulator) (isW : Bool) (a : Nat) (r1 : Res)
    (h : (s.L2.probe a).hit = true) :
    s.allocate isW a r1 =
      Simulator.allocHit { s with nL2 := (s.nL2 + 1) % 2 ^ 64 } isW r1 (s.L2.probe a) := by
  unfold Simulator.allocate
  dsimp only
  rw [if_pos h]

theorem Simulator.allocate_miss (s : Simulator) (isW : Bool) (a : Nat) (r1 : Res)
    (h : (s.L2.probe a).hit = false) :
    s.allocate isW a r1 =
      Simulator.allocMiss { s with nL2 := (s.nL2 + 1) % 2 ^ 64 } isW r1 (s.L2.probe a) := by
  unfold Simulator.allocate
  dsimp only
  rw [if_neg (by simp [h])]

/-- What one access does to the configuration and to the five counters. -/
theorem Simulator.access_scalars (s : Simulator) (op : Char) (a : Nat) :
    (s.access op a).memC = s.memC ∧ (s.access op a).blkB = s.blkB ∧
    (s.access op a).wrAlloc = s.wrAlloc ∧ (s.access op a).tL1 = s.tL1 ∧
    (s.access op a).tL2 = s.tL2 ∧
    (s.access op a).nL1 = (s.nL1 + 1) % 2 ^ 64 ∧
    (s.access op a).mL1 = (if (s.L1.probe a).hit then s.mL1 else (s.mL1 + 1) % 2 ^ 64) ∧
    (s.access op a).nL2 = (if (s.L1.probe a).hit then s.nL2 else (s.nL2 + 1) % 2 ^ 64) ∧
    (s.access op a).mL2 =
      (if (s.L1.probe a).hit || (s.L2.probe a).hit then s.mL2 else (s.mL2 + 1) % 2 ^ 64) ∧
    (s.access op a).cycles =
      (s.cycles +
        (if (s.L1.probe a).hit then s.tL1
         else if (s.L2.probe a).hit then (s.tL1 + s.tL2) % 2 ^ 32
         else (s.tL1 + s.tL2 + s.memC) % 2 ^ 32)) % 2 ^ 64 := by
  cases h1 : (s.L1.probe a).hit with
  | true =>
    rw [Simulator.access_hit s op a h1]
    cases isWrite op <;> exact ⟨rfl, rfl, rfl, rfl, rfl, rfl, rfl, rfl, rfl, rfl⟩
  | false =>
    cases hw : (isWrite op && s.wrAlloc == 0) with
    | true =>
      rw [Simulator.access_around s op a h1 hw]
      unfold Simulator.writeAround
      dsimp only
      cases h2 : (s.L2.probe a).hit <;> exact ⟨rfl, rfl, rfl, rfl, rfl, rfl, rfl, rfl, rfl, rfl⟩
    | false =>
      rw [Simulator.access_allocate s op a h1 hw]
      cases h2 : (s.L2.probe a).hit with
      | true =>
        rw [Simulator.allocate_hit
          { s with nL1 := (s.nL1 + 1) % 2 ^ 64, mL1 := (s.mL1 + 1) % 2 ^ 64 } _ _ _ h2]
        exact Simulator.fillL1_scalars
          { s with nL1 := (s.nL1 + 1) % 2 ^ 64, mL1 := (s.mL1 + 1) % 2 ^ 64,
                   nL2 := (s.nL2 + 1) % 2 ^ 64,
                   cycles := (s.cycles + (s.tL1 + s.tL2) % 2 ^ 32) % 2 ^ 64 }
          (isWrite op) (s.L1.probe a)
      | false =>
        rw [Simulator.allocate_miss
          { s with nL1 := (s.nL1 + 1) % 2 ^ 64, mL1 := (s.mL1 + 1) % 2 ^ 64 } _ _ _ h2]
        have h3 := Simulator.fillL1_scalars (Simulator.fillL2
          { s with nL1 := (s.nL1 + 1) % 2 ^ 64, mL1 := (s.mL1 + 1) % 2 ^ 64,
                   nL2 := (s.nL2 + 1) % 2 ^ 64, mL2 := (s.mL2 + 1) % 2 ^ 64,
                   cycles := (s.cycles + (s.tL1 + s.tL2 + s.memC) % 2 ^ 32) % 2 ^ 64 }
          (s.L2.probe a)) (isWrite op) (s.L1.probe a)
        have h4 := Simulator.fillL2_scalars
          { s with nL1 := (s.nL1 + 1) % 2 ^ 64, mL1 := (s.mL1 + 1) % 2 ^ 64,
                   nL2 := (s.nL2 + 1) % 2 ^ 64, mL2 := (s.mL2 + 1) % 2 ^ 64,
                   cycles := (s.cycles + (s.tL1 + s.tL2 + s.memC) % 2 ^ 32) % 2 ^ 64 }
          (s.L2.probe a)
        obtain ⟨a1, a2, a3, a4, a5, a6, a7, a8, a9, a10⟩ := h3
        obtain ⟨b1, b2, b3, b4, b5, b6, b7, b8, b9, b10⟩ := h4
        exact ⟨a1.trans b1, a2.trans b2, a3.trans b3, a4.trans b4, a5.trans b5, a6.trans b6,
          a7.trans b7, a8.trans b8, a9.trans b9, a10.trans b10⟩

/-! ## The caches do not depend on the latencies -/

theorem Simulator.CacheEq.invalidateL1_congr {s t : Simulator} (h : s.CacheEq t) (x y : Nat) :
    (s.invalidateL1 x y).CacheEq (t.invalidateL1 x y) := by
  obtain ⟨m, b, w, c1, c2, L1, L2, n1, m1, n2, m2, cy⟩ := s
  obtain ⟨m', b', w', c1', c2', L1', L2', n1', m1', n2', m2', cy'⟩ := t
  obtain ⟨h1, h2, hb⟩ := h
  dsimp only at h1 h2 hb
  subst h1 h2 hb
  exact ⟨rfl, rfl, rfl⟩

theorem Simulator.CacheEq.writeBackL1_congr {s t : Simulator} (h : s.CacheEq t) (old : Line)
    (i : Nat) : (s.writeBackL1 old i).CacheEq (t.writeBackL1 old i) := by
  obtain ⟨m, b, w, c1, c2, L1, L2, n1, m1, n2, m2, cy⟩ := s
  obtain ⟨m', b', w', c1', c2', L1', L2', n1', m1', n2', m2', cy'⟩ := t
  obtain ⟨h1, h2, hb⟩ := h
  dsimp only at h1 h2 hb
  subst h1 h2 hb
  unfold Simulator.writeBackL1
  dsimp only
  split_ifs <;> exact ⟨rfl, rfl, rfl⟩

theorem Simulator.CacheEq.fillL1_congr {s t : Simulator} (h : s.CacheEq t) (isW : Bool) (r1 : Res) :
    (s.fillL1 isW r1).CacheEq (t.fillL1 isW r1) := by
  have h' := h.writeBackL1_congr (s.L1.lineAt r1.set r1.ln) r1.set
  obtain ⟨h1, h2, hb⟩ := h
  unfold Simulator.fillL1
  dsimp only
  rw [← h1]
  obtain ⟨e1, e2, eb⟩ := h'
  refine ⟨?_, e2, eb⟩
  show Cache.updateLRU (Cache.modifyLine _ _ _ _) _ _ = Cache.updateLRU (Cache.modifyLine _ _ _ _) _ _
  rw [e1]

theorem Simulator.CacheEq.fillL2_congr {s t : Simulator} (h : s.CacheEq t) (r2 : Res) :
    (s.fillL2 r2).CacheEq (t.fillL2 r2) := by
  obtain ⟨m, b, w, c1, c2, L1, L2, n1, m1, n2, m2, cy⟩ := s
  obtain ⟨m', b', w', c1', c2', L1', L2', n1', m1', n2', m2', cy'⟩ := t
  obtain ⟨h1, h2, hb⟩ := h
  dsimp only at h1 h2 hb
  subst h1 h2 hb
  unfold Simulator.fillL2
  dsimp only
  split_ifs <;> exact ⟨rfl, rfl, rfl⟩

theorem Simulator.CacheEq.hitL1_congr {s t : Simulator} (h : s.CacheEq t) (isW : Bool) (r1 : Res) :
    (s.hitL1 isW r1).CacheEq (t.hitL1 isW r1) := by
  obtain ⟨m, b, w, c1, c2, L1, L2, n1, m1, n2, m2, cy⟩ := s
  obtain ⟨m', b', w', c1', c2', L1', L2', n1', m1', n2', m2', cy'⟩ := t
  obtain ⟨h1, h2, hb⟩ := h
  dsimp only at h1 h2 hb
  subst h1 h2 hb
  cases isW <;> exact ⟨rfl, rfl, rfl⟩

theorem Simulator.CacheEq.writeAround_congr {s t : Simulator} (h : s.CacheEq t) (a : Nat) :
    (s.writeAround a).CacheEq (t.writeAround a) := by
  obtain ⟨m, b, w, c1, c2, L1, L2, n1, m1, n2, m2, cy⟩ := s
  obtain ⟨m', b', w', c1', c2', L1', L2', n1', m1', n2', m2', cy'⟩ := t
  obtain ⟨h1, h2, hb⟩ := h
  dsimp only at h1 h2 hb
  subst h1 h2 hb
  unfold Simulator.writeAround
  dsimp only
  split_ifs <;> exact ⟨rfl, rfl, rfl⟩

theorem Simulator.CacheEq.access_congr {s t : Simulator} (h : s.CacheEq t)
    (hw : s.wrAlloc = t.wrAlloc) (op : Char) (a : Nat) :
    (s.access op a).CacheEq (t.access op a) := by
  have p1 : s.L1.probe a = t.L1.probe a := by rw [h.1]
  have p2 : s.L2.probe a = t.L2.probe a := by rw [h.2.1]
  cases h1 : (s.L1.probe a).hit with
  | true =>
    rw [Simulator.access_hit s op a h1, Simulator.access_hit t op a (p1 ▸ h1), ← p1]
    have hc : Simulator.CacheEq { s with nL1 := (s.nL1 + 1) % 2 ^ 64 }
        { t with nL1 := (t.nL1 + 1) % 2 ^ 64 } := h
    exact hc.hitL1_congr _ _
  | false =>
    cases hwa : (isWrite op && s.wrAlloc == 0) with
    | true =>
      rw [Simulator.access_around s op a h1 hwa,
        Simulator.access_around t op a (p1 ▸ h1) (hw ▸ hwa)]
      have hc : Simulator.CacheEq
          { s with nL1 := (s.nL1 + 1) % 2 ^ 64, mL1 := (s.mL1 + 1) % 2 ^ 64 }
          { t with nL1 := (t.nL1 + 1) % 2 ^ 64, mL1 := (t.mL1 + 1) % 2 ^ 64 } := h
      exact hc.writeAround_congr a
    | false =>
      rw [Simulator.access_allocate s op a h1 hwa,
        Simulator.access_allocate t op a (p1 ▸ h1) (hw ▸ hwa), ← p1]
      cases h2 : (s.L2.probe a).hit with
      | true =>
        rw [Simulator.allocate_hit
            { s with nL1 := (s.nL1 + 1) % 2 ^ 64, mL1 := (s.mL1 + 1) % 2 ^ 64 } _ _ _ h2,
          Simulator.allocate_hit
            { t with nL1 := (t.nL1 + 1) % 2 ^ 64, mL1 := (t.mL1 + 1) % 2 ^ 64 } _ _ _ (p2 ▸ h2)]
        have hc : Simulator.CacheEq
            { s with nL1 := (s.nL1 + 1) % 2 ^ 64, mL1 := (s.mL1 + 1) % 2 ^ 64,
                     nL2 := (s.nL2 + 1) % 2 ^ 64,
                     cycles := (s.cycles + (s.tL1 + s.tL2) % 2 ^ 32) % 2 ^ 64 }
            { t with nL1 := (t.nL1 + 1) % 2 ^ 64, mL1 := (t.mL1 + 1) % 2 ^ 64,
                     nL2 := (t.nL2 + 1) % 2 ^ 64,
                     cycles := (t.cycles + (t.tL1 + t.tL2) % 2 ^ 32) % 2 ^ 64 } := h
        obtain ⟨e1, e2, eb⟩ := hc.fillL1_congr (isWrite op) (s.L1.probe a)
        refine ⟨e1, ?_, eb⟩
        show Cache.updateLRU _ _ _ = Cache.updateLRU _ _ _
        rw [e2]
        show _ = Cache.updateLRU _ (t.L2.probe a).set (t.L2.probe a).ln
        rw [← p2]
      | false =>
        rw [Simulator.allocate_miss
            { s with nL1 := (s.nL1 + 1) % 2 ^ 64, mL1 := (s.mL1 + 1) % 2 ^ 64 } _ _ _ h2,
          Simulator.allocate_miss
            { t with nL1 := (t.nL1 + 1) % 2 ^ 64, mL1 := (t.mL1 + 1) % 2 ^ 64 } _ _ _ (p2 ▸ h2)]
        have hc : Simulator.CacheEq
            { s with nL1 := (s.nL1 + 1) % 2 ^ 64, mL1 := (s.mL1 + 1) % 2 ^ 64,
                     nL2 := (s.nL2 + 1) % 2 ^ 64, mL2 := (s.mL2 + 1) % 2 ^ 64,
                     cycles := (s.cycles + (s.tL1 + s.tL2 + s.memC) % 2 ^ 32) % 2 ^ 64 }
            { t with nL1 := (t.nL1 + 1) % 2 ^ 64, mL1 := (t.mL1 + 1) % 2 ^ 64,
                     nL2 := (t.nL2 + 1) % 2 ^ 64, mL2 := (t.mL2 + 1) % 2 ^ 64,
                     cycles := (t.cycles + (t.tL1 + t.tL2 + t.memC) % 2 ^ 32) % 2 ^ 64 } := h
        have := (hc.fillL2_congr (s.L2.probe a)).fillL1_congr (isWrite op) (s.L1.probe a)
        rw [p2] at this ⊢
        exact this

/-! ## Counters along a trace -/

theorem Simulator.run_cons (s : Simulator) (e : Char × Nat) (rest : List (Char × Nat)) :
    s.run (e :: rest) = (s.access e.1 e.2).run rest := rfl

theorem Simulator.run_nL2_eq_mL1 (s : Simulator) (trace : List (Char × Nat))
    (h : s.nL2 = s.mL1) : (s.run trace).nL2 = (s.run trace).mL1 := by
  induction trace generalizing s with
  | nil => exact h
  | cons e rest ih =>
    rw [Simulator.run_cons]
    apply ih
    obtain ⟨-, -, -, -, -, -, h7, h8, -, -⟩ := s.access_scalars e.1 e.2
    rw [h7, h8, h]

theorem Simulator.run_nL1 (s : Simulator) (trace : List (Char × Nat)) :
    (s.run trace).nL1 % 2 ^ 64 = (s.nL1 + trace.length) % 2 ^ 64 := by
  induction trace generalizing s with
  | nil => rfl
  | cons e rest ih =>
    rw [Simulator.run_cons, ih, (s.access_scalars e.1 e.2).2.2.2.2.2.1, List.length_cons]
    omega

theorem Simulator.run_nL1_lt (s : Simulator) (trace : List (Char × Nat))
    (h : s.nL1 < 2 ^ 64) : (s.run trace).nL1 < 2 ^ 64 := by
  induction trace generalizing s with
  | nil => exact h
  | cons e rest ih =>
    rw [Simulator.run_cons]
    apply ih
    rw [(s.access_scalars e.1 e.2).2.2.2.2.2.1]
    exact Nat.mod_lt _ (Nat.pow_pos (by decide))

theorem Simulator.run_new_nL1 (m b w s1 a1 c1 s2 a2 c2 : Nat) (trace : List (Char × Nat)) :
    ((Simulator.new m b w s1 a1 c1 s2 a2 c2).run trace).nL1 = trace.length % 2 ^ 64 := by
  have h1 := Simulator.run_nL1 (Simulator.new m b w s1 a1 c1 s2 a2 c2) trace
  have h2 := Simulator.run_nL1_lt (Simulator.new m b w s1 a1 c1 s2 a2 c2) trace
    (Nat.pow_pos (by decide))
  rw [Nat.mod_eq_of_lt h2] at h1
  rw [h1]
  show (0 + trace.length) % 2 ^ 64 = _
  rw [Nat.zero_add]

/-! ## Two runs that differ in the latencies only -/

theorem Simulator.Agree.access_agree {s t : Simulator} (h : s.Agree t) (op : Char) (a : Nat) :
    (s.access op a).Agree (t.access op a) := by
  obtain ⟨hc, hw, e1, e2, e3, e4⟩ := h
  obtain ⟨-, -, s3, -, -, s6, s7, s8, s9, -⟩ := s.access_scalars op a
  obtain ⟨-, -, t3, -, -, t6, t7, t8, t9, -⟩ := t.access_scalars op a
  refine ⟨hc.access_congr hw op a, ?_, ?_, ?_, ?_, ?_⟩
  · rw [s3, t3, hw]
  · rw [s6, t6, e1]
  · rw [s7, t7, e2, hc.1]
  · rw [s8, t8, e3, hc.1]
  · rw [s9, t9, e4, hc.1, hc.2.1]

/-- With the caches and counters in agreement, larger latencies that do not wrap the 32-bit
sum, and a cycle total that does not wrap its 64 bits, give a cycle total at least as large. -/
theorem Simulator.run_cycles_mono (trace : List (Char × Nat)) (s t : Simulator)
    (hag : s.Agree t) (h1 : s.tL1 ≤ t.tL1) (h2 : s.tL2 ≤ t.tL2) (hm : s.memC ≤ t.memC)
    (hM : t.tL1 + t.tL2 + t.memC < 2 ^ 32) (hc : s.cycles ≤ t.cycles)
    (hk : t.cycles + trace.length * (t.tL1 + t.tL2 + t.memC) < 2 ^ 64) :
    (s.run trace).Agree (t.run trace) ∧ (s.run trace).cycles ≤ (t.run trace).cycles := by
  induction trace generalizing s t with
  | nil => exact ⟨hag, hc⟩
  | cons e rest ih =>
    rw [Simulator.run_cons, Simulator.run_cons]
    obtain ⟨s1, -, -, s4, s5, -, -, -, -, s10⟩ := s.access_scalars e.1 e.2
    obtain ⟨t1, -, -, t4, t5, -, -, -, -, t10⟩ := t.access_scalars e.1 e.2
    have hlen : (rest.length + 1) * (t.tL1 + t.tL2 + t.memC) =
        rest.length * (t.tL1 + t.tL2 + t.memC) + (t.tL1 + t.tL2 + t.memC) := Nat.succ_mul _ _
    rw [List.length_cons, hlen] at hk
    rw [← hag.1.1, ← hag.1.2.1] at t10
    apply ih _ _ (hag.access_agree e.1 e.2)
    · rw [s4, t4]; exact h1
    · rw [s5, t5]; exact h2
    · rw [s1, t1]; exact hm
    · rw [t4, t5, t1]; exact hM
    · rw [s10, t10]
      cases (s.L1.probe e.2).hit <;> cases (s.L2.probe e.2).hit <;>
        simp only [if_true, if_false, Bool.false_eq_true] <;> omega
    · rw [t10, t4, t5, t1]
      cases (s.L1.probe e.2).hit <;> cases (s.L2.probe e.2).hit <;>
        simp only [if_true, if_false, Bool.false_eq_true] <;> omega

/-! ## The report -/

theorem Simulator.report_mr1 (s : Simulator) : s.report.mr1 = fdiv s.mL1 s.nL1 := rfl

theorem Simulator.report_mr2 (s : Simulator) :
    s.report.mr2 = if s.nL2 ≠ 0 then fdiv s.mL2 s.nL2 else some 0 := rfl

theorem Simulator.report_avg (s : Simulator) : s.report.avg = fdiv s.cycles s.nL1 := rfl

/-! ## A hit stays a hit -/

theorem Cache.Sub.probe_hit {c c' : Cache} (h : Cache.Sub c c') {a : Nat}
    (hhit : (c.probe a).hit = true) : (c'.probe a).hit = true := by
  have hvt := h.vt _ _ _ (Cache.probe_hit_vt hhit)
  rw [Cache.probe_set, Cache.probe_tag, h.sets, h.blockB] at hvt
  have e1 : (c'.probe a).set = (a >>> c'.blockB) % c'.sets := Cache.probe_set c' a
  have e2 : (c'.probe a).tag = (a >>> c'.blockB) / c'.sets := Cache.probe_tag c' a
  rw [← e1, ← e2] at hvt
  exact Cache.probe_hit_of_vt hvt

theorem Simulator.sub_hitL1 (s : Simulator) (isW : Bool) (r1 : Res) :
    Cache.Sub s.L1 (s.hitL1 isW r1).L1 := by
  cases isW
  · exact Cache.updateLRU_sub _ _ _
  · exact (Cache.modifyLine_dirty_sub _ _ _).trans (Cache.updateLRU_sub _ _ _)

/-! ## The dirty flag of a written-back line -/

theorem Cache.holdsDirty_updateLRU {c : Cache} {blk : Nat} (h : c.holdsDirty blk) (i r : Nat) :
    (c.updateLRU i r).holdsDirty blk := by
  obtain ⟨L, hL, hv, hd, ht⟩ := h
  obtain ⟨w, hw⟩ := List.getElem?_of_mem hL
  have hline : c.line? (blk % c.sets) w = some L := hw
  have hnew := Cache.line?_updateLRU c i r (blk % c.sets) w
  rw [hline] at hnew
  refine ⟨_, List.getElem?_mem hnew, ?_, ?_, ?_⟩
  · dsimp only; split_ifs <;> exact hv
  · dsimp only; split_ifs <;> exact hd
  · dsimp only; split_ifs <;> exact ht

/-- Under the invariant, after the write-back of a valid dirty L1 line L2 holds the block of
that line with the dirty flag set. -/
theorem Simulator.Inv.writeBackL1_dirty {s : Simulator} (h : s.Inv) (i w : Nat)
    (hv : (s.L1.lineAt i w).valid = true) (hd : (s.L1.lineAt i w).dirty = true) :
    (s.writeBackL1 (s.L1.lineAt i w) i).L2.holdsDirty ((s.L1.lineAt i w).tag * s.L1.sets + i) := by
  obtain ⟨hp, hset, htag⟩ := h.wb_probe (Cache.vt_of_lineAt_valid hv)
  rw [Simulator.writeBackL1_hit s _ i hv hd hp]
  apply Cache.holdsDirty_updateLRU
  obtain ⟨L, hL, hLv, hLt⟩ := Cache.probe_hit_line? hp
  have hL' : s.L2.line? (s.wbRes (s.L1.lineAt i w).tag i).set
      (s.wbRes (s.L1.lineAt i w).tag i).ln = some L := hL
  have hnew : (s.L2.modifyLine (s.wbRes (s.L1.lineAt i w).tag i).set
      (s.wbRes (s.L1.lineAt i w).tag i).ln (fun L => { L with dirty := true })).line?
      (s.wbRes (s.L1.lineAt i w).tag i).set (s.wbRes (s.L1.lineAt i w).tag i).ln =
      some { L with dirty := true } := by
    rw [Cache.line?_modifyLine, if_pos ⟨rfl, rfl⟩, hL']
    rfl
  refine ⟨{ L with dirty := true }, ?_, hLv, rfl, ?_⟩
  · show _ ∈ Cache.row _ (((s.L1.lineAt i w).tag * s.L1.sets + i) % s.L2.sets)
    rw [← hset]
    exact List.getElem?_mem hnew
  · show L.tag = ((s.L1.lineAt i w).tag * s.L1.sets + i) / s.L2.sets
    rw [hLt]
    exact htag

theorem Simulator.Inv.fillL1_dirty {s : Simulator} (h : s.Inv) (isW : Bool) (r1 : Res)
    (hv : (s.L1.lineAt r1.set r1.ln).valid = true)
    (hd : (s.L1.lineAt r1.set r1.ln).dirty = true) :
    (s.fillL1 isW r1).L2.holdsDirty ((s.L1.lineAt r1.set r1.ln).tag * s.L1.sets + r1.set) :=
  h.writeBackL1_dirty r1.set r1.ln hv hd

/-- Filling an L2 slot leaves a valid L1 line as it is, unless the slot held the block of
that line. -/
theorem Simulator.Inv.fillL2_keeps {s : Simulator} (h : s.Inv) (r2 : Res) (i w : Nat)
    (hv : (s.L1.lineAt i w).valid = true)
    (hkeep : ¬ ((s.L2.lineAt r2.set r2.ln).valid = true ∧
      (s.L2.lineAt r2.set r2.ln).tag * s.L2.sets + r2.set =
        (s.L1.lineAt i w).tag * s.L1.sets + i)) :
    (s.fillL2 r2).L1.lineAt i w = s.L1.lineAt i w := by
  have h1 : (s.fillL2 r2).L1 =
      (if (s.L2.lineAt r2.set r2.ln).valid = true then
        s.invalidateL1 (s.L2.lineAt r2.set r2.ln).tag r2.set
      else s).L1 := rfl
  rw [h1]
  by_cases hev : (s.L2.lineAt r2.set r2.ln).valid = true
  · rw [if_pos hev]
    have hold := Cache.lineAt_valid hv
    have hY : (s.L2.lineAt r2.set r2.ln).tag * s.L2.sets + r2.set < 2 ^ 64 :=
      lt_of_le_of_lt (Nat.le_mul_of_pos_right _ (Nat.pow_pos (by decide)))
        (h.bound2 r2.set r2.ln _ (Cache.vt_of_lineAt_valid hev))
    have hline := Simulator.line?_invalidateL1 s (s.L2.lineAt r2.set r2.ln).tag r2.set i w
    rw [Nat.mod_eq_of_lt hY, hold] at hline
    have hcond : ¬ ((((s.L2.lineAt r2.set r2.ln).tag * s.L2.sets + r2.set) % s.L1.sets = i) ∧
        findHit (((s.L2.lineAt r2.set r2.ln).tag * s.L2.sets + r2.set) / s.L1.sets)
          (s.L1.row i) = some w) := by
      rintro ⟨hi, hf⟩
      obtain ⟨L0, hL0, -, ht0, -⟩ := findHit_some hf
      have hsame : some L0 = some (s.L1.lineAt i w) := by
        rw [← hL0]; exact hold
      have hL0' : L0 = s.L1.lineAt i w := Option.some.inj hsame
      apply hkeep
      refine ⟨hev, ?_⟩
      rw [← hL0', ht0, ← hi]
      exact (div_mul_add_mod _ _).symm
    simp only [Option.map_some', if_neg hcond] at hline
    calc (s.invalidateL1 (s.L2.lineAt r2.set r2.ln).tag r2.set).L1.lineAt i w
        = ((s.invalidateL1 (s.L2.lineAt r2.set r2.ln).tag r2.set).L1.line? i w).getD
            Line.fresh := rfl
      _ = (some (s.L1.lineAt i w)).getD Line.fresh := by rw [hline]
      _ = s.L1.lineAt i w := rfl
  · rw [if_neg hev]

/-- Under the invariant, an allocating access that reuses the slot of a valid dirty L1 line
leaves the block of that line dirty in L2, when L2 hits or the L2 slot it fills did not hold
that block. -/
theorem Simulator.Inv.access_dirty {s : Simulator} (h : s.Inv) (op : Char) {a : Nat}
    (ha : a < 2 ^ 64) (hmiss : (s.L1.probe a).hit = false)
    (halloc : (isWrite op && s.wrAlloc == 0) = false)
    (hv : (s.L1.lineAt (s.L1.probe a).set (s.L1.probe a).ln).valid = true)
    (hd : (s.L1.lineAt (s.L1.probe a).set (s.L1.probe a).ln).dirty = true)
    (hkeep : (s.L2.probe a).hit = true ∨
      ¬ ((s.L2.lineAt (s.L2.probe a).set (s.L2.probe a).ln).valid = true ∧
        (s.L2.lineAt (s.L2.probe a).set (s.L2.probe a).ln).tag * s.L2.sets +
            (s.L2.probe a).set =
          (s.L1.lineAt (s.L1.probe a).set (s.L1.probe a).ln).tag * s.L1.sets +
            (s.L1.probe a).set)) :
    (s.access op a).L2.holdsDirty
      ((s.L1.lineAt (s.L1.probe a).set (s.L1.probe a).ln).tag * s.L1.sets +
        (s.L1.probe a).set) := by
  rw [Simulator.access_allocate s op a hmiss halloc]
  cases h2 : (s.L2.probe a).hit with
  | true =>
    rw [Simulator.allocate_hit
      { s with nL1 := (s.nL1 + 1) % 2 ^ 64, mL1 := (s.mL1 + 1) % 2 ^ 64 } _ _ _ h2]
    have hs1 : Simulator.Inv
        { s with nL1 := (s.nL1 + 1) % 2 ^ 64, mL1 := (s.mL1 + 1) % 2 ^ 64,
                 nL2 := (s.nL2 + 1) % 2 ^ 64,
                 cycles := (s.cycles + (s.tL1 + s.tL2) % 2 ^ 32) % 2 ^ 64 } :=
      h.of_eq rfl rfl rfl
    exact Cache.holdsDirty_updateLRU (hs1.fillL1_dirty (isWrite op) (s.L1.probe a) hv hd) _ _
  | false =>
    rw [Simulator.allocate_miss
      { s with nL1 := (s.nL1 + 1) % 2 ^ 64, mL1 := (s.mL1 + 1) % 2 ^ 64 } _ _ _ h2]
    have hs2 : Simulator.Inv
        { s with nL1 := (s.nL1 + 1) % 2 ^ 64, mL1 := (s.mL1 + 1) % 2 ^ 64,
                 nL2 := (s.nL2 + 1) % 2 ^ 64, mL2 := (s.mL2 + 1) % 2 ^ 64,
                 cycles := (s.cycles + (s.tL1 + s.tL2 + s.memC) % 2 ^ 32) % 2 ^ 64 } :=
      h.of_eq rfl rfl rfl
    have hk : ¬ ((s.L2.lineAt (s.L2.probe a).set (s.L2.probe a).ln).valid = true ∧
        (s.L2.lineAt (s.L2.probe a).set (s.L2.probe a).ln).tag * s.L2.sets +
            (s.L2.probe a).set =
          (s.L1.lineAt (s.L1.probe a).set (s.L1.probe a).ln).tag * s.L1.sets +
            (s.L1.probe a).set) := by
      rcases hkeep with hk | hk
      · rw [h2] at hk; cases hk
      · exact hk
    obtain ⟨hs3, -, hsub3⟩ := hs2.fillL2 ha h2
    have hkeeps := hs2.fillL2_keeps (s.L2.probe a) (s.L1.probe a).set (s.L1.probe a).ln hv hk
    have hres := hs3.fillL1_dirty (isWrite op) (s.L1.probe a)
      (by rw [hkeeps]; exact hv) (by rw [hkeeps]; exact hd)
    rw [hkeeps, hsub3.sets] at hres
    exact hres

/-! ## Results -/

/-- C1, inclusion invariant: for a configuration whose two levels have at least one set, and
a trace of 64-bit addresses replayed on the freshly constructed simulator, after every prefix
`trace.take n` the block `tag * L1.sets + set` of each valid L1 line is held by a valid line of
row `block % L2.sets` of L2 with tag `block / L2.sets`. -/
theorem inclusion_invariant (m b w s1 a1 c1 s2 a2 c2 : Nat) (trace : List (Char × Nat))
    (n : Nat)
    (h1 : 1 ≤ (Simulator.new m b w s1 a1 c1 s2 a2 c2).L1.sets)
    (h2 : 1 ≤ (Simulator.new m b w s1 a1 c1 s2 a2 c2).L2.sets)
    (haddr : ∀ e ∈ trace, e.2 < 2 ^ 64) :
    ((Simulator.new m b w s1 a1 c1 s2 a2 c2).run (trace.take n)).Inclusive :=
  ((Simulator.inv_new m b w s1 a1 c1 s2 a2 c2 h1 h2).run (trace.take n)
    (fun e he => haddr e (List.mem_of_mem_take he))).inclusive

theorem inclusion_invariant_witness :
    (1 ≤ (Simulator.new 100 2 1 3 0 1 4 1 10).L1.sets ∧
      1 ≤ (Simulator.new 100 2 1 3 0 1 4 1 10).L2.sets ∧
      ∀ e ∈ [('w', 0), ('r', 16), ('r', 32), ('w', 8), ('r', 0)], e.2 < 2 ^ 64) ∧
    ((Simulator.new 100 2 1 3 0 1 4 1 10).run
      (List.take 4 [('w', 0), ('r', 16), ('r', 32), ('w', 8), ('r', 0)])).Inclusive :=
  ⟨⟨by decide, by decide, by decide⟩,
    inclusion_invariant 100 2 1 3 0 1 4 1 10 [('w', 0), ('r', 16), ('r', 32), ('w', 8), ('r', 0)] 4
      (by decide) (by decide) (by decide)⟩

/-- C8, no duplicate residency: for a configuration whose two levels have at least one set,
and a trace of 64-bit addresses replayed on the freshly constructed simulator, no row of L1
and no row of L2 has two valid lines with the same tag. -/
theorem no_duplicate_residency (m b w s1 a1 c1 s2 a2 c2 : Nat) (trace : List (Char × Nat))
    (h1 : 1 ≤ (Simulator.new m b w s1 a1 c1 s2 a2 c2).L1.sets)
    (h2 : 1 ≤ (Simulator.new m b w s1 a1 c1 s2 a2 c2).L2.sets)
    (haddr : ∀ e ∈ trace, e.2 < 2 ^ 64) :
    ((Simulator.new m b w s1 a1 c1 s2 a2 c2).run trace).L1.NoDupTags ∧
      ((Simulator.new m b w s1 a1 c1 s2 a2 c2).run trace).L2.NoDupTags :=
  ⟨((Simulator.inv_new m b w s1 a1 c1 s2 a2 c2 h1 h2).run trace haddr).nodup1.noDupTags,
    ((Simulator.inv_new m b w s1 a1 c1 s2 a2 c2 h1 h2).run trace haddr).nodup2.noDupTags⟩

theorem no_duplicate_residency_witness :
    (1 ≤ (Simulator.new 100 2 1 3 0 1 4 1 10).L1.sets ∧
      1 ≤ (Simulator.new 100 2 1 3 0 1 4 1 10).L2.sets ∧
      ∀ e ∈ [('w', 0), ('r', 16), ('r', 0), ('w', 32), ('r', 16)], e.2 < 2 ^ 64) ∧
    ((Simulator.new 100 2 1 3 0 1 4 1 10).run
        [('w', 0), ('r', 16), ('r', 0), ('w', 32), ('r', 16)]).L1.NoDupTags ∧
      ((Simulator.new 100 2 1 3 0 1 4 1 10).run
        [('w', 0), ('r', 16), ('r', 0), ('w', 32), ('r', 16)]).L2.NoDupTags :=
  ⟨⟨by decide, by decide, by decide⟩,
    no_duplicate_residency 100 2 1 3 0 1 4 1 10
      [('w', 0), ('r', 16), ('r', 0), ('w', 32), ('r', 16)] (by decide) (by decide) (by decide)⟩

/-- C2, counter invariant: for every configuration and every trace replayed on the freshly
constructed simulator, after every prefix `trace.take n` the L2-access counter equals the
L1-miss counter. -/
theorem l2_accesses_eq_l1_misses (m b w s1 a1 c1 s2 a2 c2 : Nat) (trace : List (Char × Nat))
    (n : Nat) :
    ((Simulator.new m b w s1 a1 c1 s2 a2 c2).run (trace.take n)).nL2 =
      ((Simulator.new m b w s1 a1 c1 s2 a2 c2).run (trace.take n)).mL1 :=
  Simulator.run_nL2_eq_mL1 _ _ rfl

/-- C10, access count: for every configuration and every trace of fewer than `2^64` accesses
replayed on the freshly constructed simulator, the L1-access counter equals the number of
accesses, whatever the operations and addresses are. -/
theorem l1_accesses_eq_length (m b w s1 a1 c1 s2 a2 c2 : Nat) (trace : List (Char × Nat))
    (hlen : trace.length < 2 ^ 64) :
    ((Simulator.new m b w s1 a1 c1 s2 a2 c2).run trace).nL1 = trace.length := by
  rw [Simulator.run_new_nL1, Nat.mod_eq_of_lt hlen]

theorem l1_accesses_eq_length_witness :
    [('r', 0), ('w', 4), ('x', 4), ('W', 64)].length < 2 ^ 64 ∧
    ((Simulator.new 100 2 1 4 0 1 5 1 10).run [('r', 0), ('w', 4), ('x', 4), ('W', 64)]).nL1 =
      [('r', 0), ('w', 4), ('x', 4), ('W', 64)].length :=
  ⟨by decide, l1_accesses_eq_length 100 2 1 4 0 1 5 1 10 [('r', 0), ('w', 4), ('x', 4), ('W', 64)]
    (by decide)⟩

/-- C5, Scenario A: with memory latency 100, block exponent 2, write-allocate on, L1 of size
exponent 4, associativity exponent 0 and latency 1, L2 of size exponent 5, associativity
exponent 1 and latency 10, the trace `r 0x0, r 0x0, r 0x4, r 0x0` gives 4 L1 accesses, 2 L1
misses, 2 L2 accesses, 2 L2 misses and 224 cycles, and `report` derives the L1 miss rate 1/2,
the L2 miss rate 1 and the average access time 56. -/
theorem scenario_A :
    ((Simulator.new 100 2 1 4 0 1 5 1 10).run [('r', 0), ('r', 0), ('r', 4), ('r', 0)]).nL1 = 4 ∧
    ((Simulator.new 100 2 1 4 0 1 5 1 10).run [('r', 0), ('r', 0), ('r', 4), ('r', 0)]).mL1 = 2 ∧
    ((Simulator.new 100 2 1 4 0 1 5 1 10).run [('r', 0), ('r', 0), ('r', 4), ('r', 0)]).nL2 = 2 ∧
    ((Simulator.new 100 2 1 4 0 1 5 1 10).run [('r', 0), ('r', 0), ('r', 4), ('r', 0)]).mL2 = 2 ∧
    ((Simulator.new 100 2 1 4 0 1 5 1 10).run
      [('r', 0), ('r', 0), ('r', 4), ('r', 0)]).cycles = 224 ∧
    ((Simulator.new 100 2 1 4 0 1 5 1 10).run
      [('r', 0), ('r', 0), ('r', 4), ('r', 0)]).report.mr1 = some (1 / 2) ∧
    ((Simulator.new 100 2 1 4 0 1 5 1 10).run
      [('r', 0), ('r', 0), ('r', 4), ('r', 0)]).report.mr2 = some 1 ∧
    ((Simulator.new 100 2 1 4 0 1 5 1 10).run
      [('r', 0), ('r', 0), ('r', 4), ('r', 0)]).report.avg = some 56 := by
  have e1 : ((Simulator.new 100 2 1 4 0 1 5 1 10).run
      [('r', 0), ('r', 0), ('r', 4), ('r', 0)]).nL1 = 4 := by decide
  have e2 : ((Simulator.new 100 2 1 4 0 1 5 1 10).run
      [('r', 0), ('r', 0), ('r', 4), ('r', 0)]).mL1 = 2 := by decide
  have e3 : ((Simulator.new 100 2 1 4 0 1 5 1 10).run
      [('r', 0), ('r', 0), ('r', 4), ('r', 0)]).nL2 = 2 := by decide
  have e4 : ((Simulator.new 100 2 1 4 0 1 5 1 10).run
      [('r', 0), ('r', 0), ('r', 4), ('r', 0)]).mL2 = 2 := by decide
  have e5 : ((Simulator.new 100 2 1 4 0 1 5 1 10).run
      [('r', 0), ('r', 0), ('r', 4), ('r', 0)]).cycles = 224 := by decide
  refine ⟨e1, e2, e3, e4, e5, ?_, ?_, ?_⟩
  · rw [Simulator.report_mr1, e1, e2]
    norm_num [fdiv]
  · rw [Simulator.report_mr2, e3, e4]
    norm_num [fdiv]
  · rw [Simulator.report_avg, e1, e5]
    norm_num [fdiv]

/-- C9, result of `Cache::probe`: for a cache whose grid has `sets ≥ 1` rows of `ways ≥ 1`
lines and every address `a`, the probe returns `set = (a >> blockB) mod sets` and
`tag = (a >> blockB) div sets`; it reports a hit exactly when the row contains a valid line
with that tag, and then returns such a line; on a miss it returns the lowest-way invalid line
when the row has an invalid line, and otherwise a line of largest `lru`, the one at the lowest
way position among the lines of largest `lru`. The probe is a function of the cache that
returns a way position, so it changes no line. -/
theorem probe_result (c : Cache) (a : Nat) (hc : c.Shape) :
    (c.probe a).set = (a >>> c.blockB) % c.sets ∧
    (c.probe a).tag = (a >>> c.blockB) / c.sets ∧
    ((c.probe a).hit = true ↔
      ∃ L ∈ c.row (c.probe a).set, L.valid = true ∧ L.tag = (c.probe a).tag) ∧
    ((c.probe a).hit = true →
      ∃ L, (c.row (c.probe a).set)[(c.probe a).ln]? = some L ∧ L.valid = true ∧
        L.tag = (c.probe a).tag) ∧
    ((c.probe a).hit = false → (∃ L ∈ c.row (c.probe a).set, L.valid = false) →
      ∃ L, (c.row (c.probe a).set)[(c.probe a).ln]? = some L ∧ L.valid = false ∧
        ∀ (j : Nat) (L' : Line), j < (c.probe a).ln →
          (c.row (c.probe a).set)[j]? = some L' → L'.valid = true) ∧
    ((c.probe a).hit = false → (∀ L ∈ c.row (c.probe a).set, L.valid = true) →
      ∃ L, (c.row (c.probe a).set)[(c.probe a).ln]? = some L ∧
        (∀ (j : Nat) (L' : Line), (c.row (c.probe a).set)[j]? = some L' → L'.lru ≤ L.lru) ∧
        ∀ (j : Nat) (L' : Line), j < (c.probe a).ln →
          (c.row (c.probe a).set)[j]? = some L' → L'.lru < L.lru) := by
  have hfind : (c.probe a).hit = false →
      findHit ((a >>> c.blockB) / c.sets) (c.row ((a >>> c.blockB) % c.sets)) = none := by
    intro hmiss
    cases hf : findHit ((a >>> c.blockB) / c.sets) (c.row ((a >>> c.blockB) % c.sets)) with
    | none => rfl
    | some w => rw [(Cache.probe_of_findHit_some hf).1] at hmiss; cases hmiss
  refine ⟨Cache.probe_set c a, Cache.probe_tag c a, ⟨?_, ?_⟩, ?_, ?_, ?_⟩
  · intro h
    obtain ⟨L, h1, h2, h3⟩ := Cache.probe_hit_line? h
    exact ⟨L, List.getElem?_mem h1, h2, h3⟩
  · rintro ⟨L, hL, hv, ht⟩
    obtain ⟨w, hw⟩ := List.getElem?_of_mem hL
    exact Cache.probe_hit_of_vt (Cache.vt_eq_some_iff.mpr ⟨L, hw, hv, ht⟩)
  · intro h
    exact Cache.probe_hit_line? h
  · intro hmiss ⟨L, hL, hv⟩
    have hf := hfind hmiss
    rw [Cache.probe_set] at hL ⊢
    cases hg : findFree (c.row ((a >>> c.blockB) % c.sets)) with
    | none =>
      obtain ⟨w, hw⟩ := List.getElem?_of_mem hL
      have := findFree_none hg w L hw
      rw [hv] at this
      cases this
    | some w =>
      rw [(Cache.probe_of_findFree_some hf hg).2]
      exact findFree_some hg
  · intro hmiss hall
    have hf := hfind hmiss
    rw [Cache.probe_set] at hall ⊢
    cases hg : findFree (c.row ((a >>> c.blockB) % c.sets)) with
    | some w =>
      obtain ⟨L, h1, h2, -⟩ := findFree_some hg
      have := hall L (List.getElem?_mem h1)
      rw [h2] at this
      cases this
    | none =>
      rw [(Cache.probe_of_findFree_none hf hg).2]
      have hlen := hc.length_row (Nat.mod_lt (a >>> c.blockB) hc.2.1)
      have hne : c.row ((a >>> c.blockB) % c.sets) ≠ [] := by
        intro h0
        rw [h0] at hlen
        have := hc.2.2
        simp at hlen
        omega
      exact maxElement_spec hne

theorem probe_result_witness :
    (Cache.new 5 1 2).Shape ∧
    (((Cache.new 5 1 2).probe 36).set = (36 >>> (Cache.new 5 1 2).blockB) % (Cache.new 5 1 2).sets ∧
      ((Cache.new 5 1 2).probe 36).tag =
        (36 >>> (Cache.new 5 1 2).blockB) / (Cache.new 5 1 2).sets) :=
  ⟨⟨by decide, by decide, by decide⟩,
    ⟨(probe_result (Cache.new 5 1 2) 36 ⟨by decide, by decide, by decide⟩).1,
      (probe_result (Cache.new 5 1 2) 36 ⟨by decide, by decide, by decide⟩).2.1⟩⟩

/-- C7, idempotence of hits: in a state whose two levels have at least one set, when the
access `(op1, a)` hits in L1, the access `(op2, a)` that follows it hits in L1 as well and
leaves the L1-miss counter, the L2-miss counter and the L2-access counter unchanged. -/
theorem hit_idempotent (s : Simulator) (op1 op2 : Char) (a : Nat)
    (_h1 : 1 ≤ s.L1.sets) (_h2 : 1 ≤ s.L2.sets) (hhit : (s.L1.probe a).hit = true) :
    ((s.access op1 a).L1.probe a).hit = true ∧
    ((s.access op1 a).access op2 a).mL1 = (s.access op1 a).mL1 ∧
    ((s.access op1 a).access op2 a).mL2 = (s.access op1 a).mL2 ∧
    ((s.access op1 a).access op2 a).nL2 = (s.access op1 a).nL2 := by
  have hhit' : ((s.access op1 a).L1.probe a).hit = true := by
    rw [Simulator.access_hit s op1 a hhit]
    exact (Simulator.sub_hitL1 { s with nL1 := (s.nL1 + 1) % 2 ^ 64 } (isWrite op1)
      (s.L1.probe a)).probe_hit hhit
  obtain ⟨-, -, -, -, -, -, h7, h8, h9, -⟩ := (s.access op1 a).access_scalars op2 a
  rw [hhit'] at h7 h8 h9
  exact ⟨hhit', h7, h9, h8⟩

theorem hit_idempotent_witness :
    (1 ≤ ((Simulator.new 100 2 1 4 0 1 5 1 10).run [('r', 0)]).L1.sets ∧
      1 ≤ ((Simulator.new 100 2 1 4 0 1 5 1 10).run [('r', 0)]).L2.sets ∧
      (((Simulator.new 100 2 1 4 0 1 5 1 10).run [('r', 0)]).L1.probe 0).hit = true) ∧
    (((((Simulator.new 100 2 1 4 0 1 5 1 10).run [('r', 0)]).access 'w' 0).L1.probe 0).hit = true ∧
    ((((Simulator.new 100 2 1 4 0 1 5 1 10).run [('r', 0)]).access 'w' 0).access 'r' 0).mL1 =
      (((Simulator.new 100 2 1 4 0 1 5 1 10).run [('r', 0)]).access 'w' 0).mL1 ∧
    ((((Simulator.new 100 2 1 4 0 1 5 1 10).run [('r', 0)]).access 'w' 0).access 'r' 0).mL2 =
      (((Simulator.new 100 2 1 4 0 1 5 1 10).run [('r', 0)]).access 'w' 0).mL2 ∧
    ((((Simulator.new 100 2 1 4 0 1 5 1 10).run [('r', 0)]).access 'w' 0).access 'r' 0).nL2 =
      (((Simulator.new 100 2 1 4 0 1 5 1 10).run [('r', 0)]).access 'w' 0).nL2) :=
  ⟨⟨by decide, by decide, by decide⟩,
    hit_idempotent ((Simulator.new 100 2 1 4 0 1 5 1 10).run [('r', 0)]) 'w' 'r' 0
      (by decide) (by decide) (by decide)⟩

/-- C6 as stated fails: with the three latencies at `2^31 - 1` and write-allocate off, the
write `w 0x0` on the fresh simulator misses in L1 and in L2, and the cycle total becomes
`2147483645`, the 32-bit sum of the three latencies, not `0 + (tL1 + tL2 + memC)`. -/
theorem write_around_cycles_wrap :
    (Simulator.new 2147483647 2 0 4 0 2147483647 5 1 2147483647).wrAlloc = 0 ∧
    isWrite 'w' = true ∧
    ((Simulator.new 2147483647 2 0 4 0 2147483647 5 1 2147483647).L1.probe 0).hit = false ∧
    ((Simulator.new 2147483647 2 0 4 0 2147483647 5 1 2147483647).L2.probe 0).hit = false ∧
    ((Simulator.new 2147483647 2 0 4 0 2147483647 5 1 2147483647).access 'w' 0).cycles =
      2147483645 ∧
    (Simulator.new 2147483647 2 0 4 0 2147483647 5 1 2147483647).cycles +
      ((Simulator.new 2147483647 2 0 4 0 2147483647 5 1 2147483647).tL1 +
        (Simulator.new 2147483647 2 0 4 0 2147483647 5 1 2147483647).tL2 +
        (Simulator.new 2147483647 2 0 4 0 2147483647 5 1 2147483647).memC) = 6442450941 := by
  decide

/-- C6 amended, write-around leaves the caches alone: in a state with `wrAlloc = 0`, a write
that misses in L1 leaves L1 unchanged; when it also misses in L2 it leaves L2 unchanged, adds
one, modulo `2^64`, to each of `nL1`, `mL1`, `nL2`, `mL2`, and adds to `cycles`, modulo `2^64`,
the sum `tL1 + tL2 + memC` taken modulo `2^32`. Scenario B: on the fresh simulator of
Scenario A with `wrAlloc = 0`, `w 0x0` changes only the counters, to 1, 1, 1, 1 and 111
cycles, both caches stay as constructed, and `r 0x0` then misses in L1 and in L2. -/
theorem write_around (s : Simulator) (op : Char) (a : Nat) (h0 : s.wrAlloc = 0)
    (hw : isWrite op = true) (h1 : (s.L1.probe a).hit = false) :
    ((s.access op a).L1 = s.L1 ∧
      ((s.L2.probe a).hit = false →
        (s.access op a).L2 = s.L2 ∧
        (s.access op a).nL1 = (s.nL1 + 1) % 2 ^ 64 ∧
        (s.access op a).mL1 = (s.mL1 + 1) % 2 ^ 64 ∧
        (s.access op a).nL2 = (s.nL2 + 1) % 2 ^ 64 ∧
        (s.access op a).mL2 = (s.mL2 + 1) % 2 ^ 64 ∧
        (s.access op a).cycles = (s.cycles + (s.tL1 + s.tL2 + s.memC) % 2 ^ 32) % 2 ^ 64)) ∧
    ((Simulator.new 100 2 0 4 0 1 5 1 10).access 'w' 0 =
        { Simulator.new 100 2 0 4 0 1 5 1 10 with
          nL1 := 1, mL1 := 1, nL2 := 1, mL2 := 1, cycles := 111 } ∧
      (((Simulator.new 100 2 0 4 0 1 5 1 10).access 'w' 0).L1.probe 0).hit = false ∧
      (((Simulator.new 100 2 0 4 0 1 5 1 10).access 'w' 0).L2.probe 0).hit = false) := by
  have hwa : (isWrite op && s.wrAlloc == 0) = true := by simp [hw, h0]
  have hacc := Simulator.access_around s op a h1 hwa
  refine ⟨⟨?_, ?_⟩, by decide, by decide, by decide⟩
  · rw [hacc]
    unfold Simulator.writeAround
    dsimp only
    split <;> rfl
  · intro h2
    obtain ⟨-, -, -, -, -, h6, h7, h8, h9, h10⟩ := s.access_scalars op a
    rw [h1, h2] at h9 h10
    rw [h1] at h7 h8
    refine ⟨?_, h6, h7, h8, h9, h10⟩
    rw [hacc]
    unfold Simulator.writeAround
    dsimp only
    rw [if_neg (by simp [h2])]

theorem write_around_witness :
    ((Simulator.new 100 2 0 4 0 1 5 1 10).wrAlloc = 0 ∧ isWrite 'W' = true ∧
      ((Simulator.new 100 2 0 4 0 1 5 1 10).L1.probe 64).hit = false) ∧
    ((Simulator.new 100 2 0 4 0 1 5 1 10).access 'W' 64).L1 =
      (Simulator.new 100 2 0 4 0 1 5 1 10).L1 :=
  ⟨⟨by decide, by decide, by decide⟩,
    (write_around (Simulator.new 100 2 0 4 0 1 5 1 10) 'W' 64 (by decide) (by decide)
      (by decide)).1.1⟩

/-- C4 as stated fails: with L1 and L2 latencies `2^31 - 1`, raising the memory latency from
1 to 2 makes the 32-bit sum `tL1 + tL2 + memC` wrap to 0, so the single access `r 0x0` costs
`4294967295` cycles under the first setting and `0` under the second. -/
theorem cycles_not_monotone :
    ((Simulator.new 1 2 1 4 0 2147483647 5 1 2147483647).run [('r', 0)]).cycles = 4294967295 ∧
    ((Simulator.new 2 2 1 4 0 2147483647 5 1 2147483647).run [('r', 0)]).cycles = 0 ∧
    ¬ ((Simulator.new 1 2 1 4 0 2147483647 5 1 2147483647).run [('r', 0)]).cycles ≤
      ((Simulator.new 2 2 1 4 0 2147483647 5 1 2147483647).run [('r', 0)]).cycles := by
  decide

/-- C4 amended, monotonicity in the latencies: for a non-empty trace of at most `2^32`
accesses, a fixed geometry and write-allocate flag, and two latency settings with
`memC ≤ memC'`, `tL1 ≤ tL1'`, `tL2 ≤ tL2'` (in particular two settings that agree on two
values and have the third larger or equal) and `tL1' + tL2' + memC' < 2^32`, the cycle total
under the second setting is at least the one under the first, the L1-access counts are the
same, and the average access time `cycles / nL1` is defined and not smaller under the second
setting. -/
theorem cycles_monotone (b w s1 a1 s2 a2 m c1 c2 m' c1' c2' : Nat)
    (trace : List (Char × Nat)) (hne : trace ≠ []) (hlen : trace.length ≤ 2 ^ 32)
    (hm : m ≤ m') (h1 : c1 ≤ c1') (h2 : c2 ≤ c2') (hM : c1' + c2' + m' < 2 ^ 32) :
    ((Simulator.new m b w s1 a1 c1 s2 a2 c2).run trace).cycles ≤
      ((Simulator.new m' b w s1 a1 c1' s2 a2 c2').run trace).cycles ∧
    ((Simulator.new m b w s1 a1 c1 s2 a2 c2).run trace).nL1 =
      ((Simulator.new m' b w s1 a1 c1' s2 a2 c2').run trace).nL1 ∧
    ∃ q q' : ℚ, ((Simulator.new m b w s1 a1 c1 s2 a2 c2).run trace).report.avg = some q ∧
      ((Simulator.new m' b w s1 a1 c1' s2 a2 c2').run trace).report.avg = some q' ∧ q ≤ q' := by
  have hk : (Simulator.new m' b w s1 a1 c1' s2 a2 c2').cycles +
      trace.length * ((Simulator.new m' b w s1 a1 c1' s2 a2 c2').tL1 +
        (Simulator.new m' b w s1 a1 c1' s2 a2 c2').tL2 +
        (Simulator.new m' b w s1 a1 c1' s2 a2 c2').memC) < 2 ^ 64 := by
    show 0 + trace.length * (c1' + c2' + m') < 2 ^ 64
    have := Nat.mul_le_mul hlen (Nat.le_of_lt_succ (Nat.lt_succ_of_lt hM))
    have h64 : (2 : Nat) ^ 32 * 2 ^ 32 = 2 ^ 64 := by norm_num
    have hpos : 0 < trace.length := List.length_pos.mpr hne
    have h3 : trace.length * (c1' + c2' + m') < trace.length * 2 ^ 32 :=
      Nat.mul_lt_mul_of_pos_left hM hpos
    have h4 : trace.length * 2 ^ 32 ≤ 2 ^ 32 * 2 ^ 32 := Nat.mul_le_mul_right _ hlen
    omega
  obtain ⟨hag, hcyc⟩ := Simulator.run_cycles_mono trace
    (Simulator.new m b w s1 a1 c1 s2 a2 c2) (Simulator.new m' b w s1 a1 c1' s2 a2 c2')
    ⟨⟨rfl, rfl, rfl⟩, rfl, rfl, rfl, rfl, rfl⟩ h1 h2 hm hM (Nat.le_refl _) hk
  refine ⟨hcyc, hag.2.2.1, ?_⟩
  have hn : ((Simulator.new m b w s1 a1 c1 s2 a2 c2).run trace).nL1 = trace.length := by
    rw [Simulator.run_new_nL1]
    apply Nat.mod_eq_of_lt
    have : (2 : Nat) ^ 32 < 2 ^ 64 := by norm_num
    omega
  have hn' : ((Simulator.new m' b w s1 a1 c1' s2 a2 c2').run trace).nL1 = trace.length := by
    rw [← hag.2.2.1]; exact hn
  have hpos : trace.length ≠ 0 := fun h0 => hne (List.length_eq_zero.mp h0)
  refine ⟨(((Simulator.new m b w s1 a1 c1 s2 a2 c2).run trace).cycles : ℚ) / (trace.length : ℚ),
    (((Simulator.new m' b w s1 a1 c1' s2 a2 c2').run trace).cycles : ℚ) / (trace.length : ℚ),
    ?_, ?_, ?_⟩
  · rw [Simulator.report_avg, hn]
    unfold fdiv
    rw [if_neg hpos]
  · rw [Simulator.report_avg, hn']
    unfold fdiv
    rw [if_neg hpos]
  · apply div_le_div_of_nonneg_right
    · exact_mod_cast hcyc
    · exact Nat.cast_nonneg _

theorem cycles_monotone_witness :
    ([('r', 0), ('w', 4), ('r', 0)] ≠ [] ∧ [('r', 0), ('w', 4), ('r', 0)].length ≤ 2 ^ 32 ∧
      100 ≤ 150 ∧ 1 ≤ 1 ∧ 10 ≤ 10 ∧ 1 + 10 + 150 < 2 ^ 32) ∧
    ((Simulator.new 100 2 1 4 0 1 5 1 10).run [('r', 0), ('w', 4), ('r', 0)]).cycles ≤
      ((Simulator.new 150 2 1 4 0 1 5 1 10).run [('r', 0), ('w', 4), ('r', 0)]).cycles :=
  ⟨⟨by decide, by decide, by decide, by decide, by decide, by decide⟩,
    (cycles_monotone 2 1 4 0 5 1 100 1 10 150 1 10 [('r', 0), ('w', 4), ('r', 0)]
      (by decide) (by decide) (by decide) (by decide) (by decide) (by decide)).1⟩

/-- C3 as stated fails: with L1 of 2 sets by 2 ways and L2 of 4 sets by 2 ways, after `w 0x0`
and `r 0x10` the read `r 0x20` misses in L1 and installs its block into way 0 of L1 row 0,
which held the valid dirty line of block 0; the L2 victim is block 0 as well, its L1 copy is
back-invalidated before the write-back looks at it, and afterwards L2 holds no valid line for
block 0 at all. -/
theorem dirty_line_dropped :
    (((Simulator.new 100 2 1 4 1 1 5 1 10).run [('w', 0), ('r', 16)]).L1.probe 32).hit = false ∧
    ((Simulator.new 100 2 1 4 1 1 5 1 10).run [('w', 0), ('r', 16)]).L1.lineAt 0 0 =
      ⟨true, true, 0, 1⟩ ∧
    (((Simulator.new 100 2 1 4 1 1 5 1 10).run [('w', 0), ('r', 16)]).L1.probe 32).set = 0 ∧
    (((Simulator.new 100 2 1 4 1 1 5 1 10).run [('w', 0), ('r', 16)]).L1.probe 32).ln = 0 ∧
    (((Simulator.new 100 2 1 4 1 1 5 1 10).run [('w', 0), ('r', 16)]).access 'r' 32).L1.lineAt 0 0 =
      ⟨true, false, 4, 0⟩ ∧
    ¬ ∃ L ∈ (((Simulator.new 100 2 1 4 1 1 5 1 10).run [('w', 0), ('r', 16)]).access 'r' 32).L2.row
        ((0 * 2 + 0) % 4), L.valid = true ∧ L.tag = (0 * 2 + 0) / 4 := by
  decide

/-- C3 amended, write-back on L1 eviction: in a state reached from the fresh simulator of a
configuration whose two levels have at least one set, when an access to a 64-bit address
misses in L1, takes the allocate branch and installs its block into an L1 slot that holds a
valid dirty line, and either the access hits in L2 or the L2 slot it fills does not hold the
block of that L1 line, then after the access L2 holds a valid line for that block
(`tag * L1.sets + set`) whose dirty flag is true. -/
theorem dirty_eviction_written_back (m b w s1 a1 c1 s2 a2 c2 : Nat)
    (trace : List (Char × Nat)) (s : Simulator) (op : Char) (a : Nat)
    (hs : s = (Simulator.new m b w s1 a1 c1 s2 a2 c2).run trace)
    (h1 : 1 ≤ (Simulator.new m b w s1 a1 c1 s2 a2 c2).L1.sets)
    (h2 : 1 ≤ (Simulator.new m b w s1 a1 c1 s2 a2 c2).L2.sets)
    (haddr : ∀ e ∈ trace, e.2 < 2 ^ 64) (ha : a < 2 ^ 64)
    (hmiss : (s.L1.probe a).hit = false)
    (halloc : (isWrite op && s.wrAlloc == 0) = false)
    (hv : (s.L1.lineAt (s.L1.probe a).set (s.L1.probe a).ln).valid = true)
    (hd : (s.L1.lineAt (s.L1.probe a).set (s.L1.probe a).ln).dirty = true)
    (hkeep : (s.L2.probe a).hit = true ∨
      ¬ ((s.L2.lineAt (s.L2.probe a).set (s.L2.probe a).ln).valid = true ∧
        (s.L2.lineAt (s.L2.probe a).set (s.L2.probe a).ln).tag * s.L2.sets +
            (s.L2.probe a).set =
          (s.L1.lineAt (s.L1.probe a).set (s.L1.probe a).ln).tag * s.L1.sets +
            (s.L1.probe a).set)) :
    (s.access op a).L2.holdsDirty
      ((s.L1.lineAt (s.L1.probe a).set (s.L1.probe a).ln).tag * s.L1.sets +
        (s.L1.probe a).set) := by
  have hinv : s.Inv := by
    rw [hs]
    exact (Simulator.inv_new m b w s1 a1 c1 s2 a2 c2 h1 h2).run trace haddr
  exact hinv.access_dirty op ha hmiss halloc hv hd hkeep

theorem dirty_eviction_written_back_witness :
    ((∀ e ∈ [('w', 0)], e.2 < 2 ^ 64) ∧ 16 < 2 ^ 64 ∧
      (((Simulator.new 100 2 1 4 0 1 5 1 10).run [('w', 0)]).L1.probe 16).hit = false ∧
      ((Simulator.new 100 2 1 4 0 1 5 1 10).run [('w', 0)]).L1.lineAt 0 0 = ⟨true, true, 0, 0⟩ ∧
      (((Simulator.new 100 2 1 4 0 1 5 1 10).run [('w', 0)]).L2.probe 16).hit = false ∧
      (((Simulator.new 100 2 1 4 0 1 5 1 10).run [('w', 0)]).L2.lineAt 0 1).valid = false) ∧
    (((Simulator.new 100 2 1 4 0 1 5 1 10).run [('w', 0)]).access 'r' 16).L2.holdsDirty 0 :=
  ⟨⟨by decide, by decide, by decide, by decide, by decide, by decide⟩,
    dirty_eviction_written_back 100 2 1 4 0 1 5 1 10 [('w', 0)]
      ((Simulator.new 100 2 1 4 0 1 5 1 10).run [('w', 0)]) 'r' 16 rfl
      (by decide) (by decide) (by decide) (by decide) (by decide) (by decide) (by decide)
      (by decide) (Or.inr (by decide))⟩

/-! ## Further results: recency update and the L1 hit path -/

/-- C16, `Cache::updateLRU(idx, recent)` for `recent` a line of row `idx`: afterwards that
line has `lru = 0`, every other line of row `idx` has its previous `lru` plus 1 modulo `2^32`,
every position of the grid that held a line still holds a line with the same `valid`, `dirty`
and `tag`, the lines of every other row are unchanged, and no position gains or loses a
line. -/
theorem updateLRU_effect (c : Cache) (idx recent : Nat) (L0 : Line)
    (hrec : c.line? idx recent = some L0) :
    (c.updateLRU idx recent).line? idx recent = some { L0 with lru := 0 } ∧
    (∀ (w : Nat) (L : Line), w ≠ recent → c.line? idx w = some L →
      (c.updateLRU idx recent).line? idx w = some { L with lru := (L.lru + 1) % 2 ^ 32 }) ∧
    (∀ (j w : Nat) (L : Line), c.line? j w = some L →
      ∃ L', (c.updateLRU idx recent).line? j w = some L' ∧ L'.valid = L.valid ∧
        L'.dirty = L.dirty ∧ L'.tag = L.tag) ∧
    (∀ (j w : Nat), j ≠ idx → (c.updateLRU idx recent).line? j w = c.line? j w) ∧
    (∀ (j w : Nat), c.line? j w = none → (c.updateLRU idx recent).line? j w = none) ∧
    (c.updateLRU idx recent).sets = c.sets ∧ (c.updateLRU idx recent).ways = c.ways ∧
    (c.updateLRU idx recent).blockB = c.blockB := by
  refine ⟨?_, ?_, ?_, ?_, ?_, rfl, rfl, rfl⟩
  · rw [Cache.line?_updateLRU, hrec]
    simp
  · intro w L hw hL
    rw [Cache.line?_updateLRU, hL]
    have hw' : ¬ recent = w := fun h => hw h.symm
    simp [hw']
  · intro j w L hL
    rw [Cache.line?_updateLRU, hL]
    refine ⟨_, rfl, ?_, ?_, ?_⟩ <;> (dsimp only; split_ifs <;> rfl)
  · intro j w hj
    rw [Cache.line?_updateLRU]
    have hj' : ¬ idx = j := fun h => hj h.symm
    cases c.line? j w <;> simp [hj']
  · intro j w hL
    rw [Cache.line?_updateLRU, hL]
    rfl

theorem updateLRU_effect_witness :
    (Cache.new 5 1 2).line? 1 0 = some Line.fresh ∧
    ((Cache.new 5 1 2).updateLRU 1 0).line? 1 0 = some { Line.fresh with lru := 0 } ∧
    ((Cache.new 5 1 2).updateLRU 1 0).line? 1 1 = some ⟨false, false, 0, 1⟩ :=
  ⟨by decide, (updateLRU_effect (Cache.new 5 1 2) 1 0 Line.fresh (by decide)).1,
    (updateLRU_effect (Cache.new 5 1 2) 1 0 Line.fresh (by decide)).2.1 1 Line.fresh
      (by decide) (by decide)⟩

theorem Simulator.hitL1_line? (s : Simulator) (isW : Bool) (r1 : Res) (j v : Nat) :
    (s.hitL1 isW r1).L1.line? j v =
      (s.L1.line? j v).map (fun L =>
        if r1.set = j then
          if r1.ln = v then { L with dirty := L.dirty || isW, lru := 0 }
          else { L with lru := (L.lru + 1) % 2 ^ 32 }
        else L) := by
  cases isW
  · show (Cache.updateLRU s.L1 r1.set r1.ln).line? j v = _
    rw [Cache.line?_updateLRU]
    cases s.L1.line? j v with
    | none => rfl
    | some L =>
      simp only [Option.map_some', Option.some.injEq]
      split_ifs <;> simp
  · show (Cache.updateLRU (Cache.modifyLine s.L1 r1.set r1.ln _) r1.set r1.ln).line? j v = _
    rw [Cache.line?_updateLRU, Cache.line?_modifyLine]
    cases s.L1.line? j v with
    | none => split_ifs <;> rfl
    | some L =>
      by_cases h1 : r1.set = j <;> by_cases h2 : r1.ln = v <;> simp [h1, h2]

/-- C12, effect of an L1 hit: when the access `(op, a)` hits in L1, whatever `wrAlloc` is, it
adds 1 to `nL1` and `tL1` to `cycles` (64-bit counters, so modulo `2^64`: exactly `+1` and
`+tL1` when these do not exceed the 64 bits), it leaves L2, the counters `mL1`, `nL2`, `mL2`
and the configuration unchanged, it leaves every L1 line outside the row of `a` unchanged,
and in the row of `a` it keeps the `valid` flag and the `tag` of every line and the `dirty`
flag of every line except that a write sets the `dirty` flag of the hit line. -/
theorem l1_hit_effect (s : Simulator) (op : Char) (a : Nat)
    (hhit : (s.L1.probe a).hit = true) :
    (s.access op a).nL1 = (s.nL1 + 1) % 2 ^ 64 ∧
    (s.nL1 + 1 < 2 ^ 64 → (s.access op a).nL1 = s.nL1 + 1) ∧
    (s.access op a).cycles = (s.cycles + s.tL1) % 2 ^ 64 ∧
    (s.cycles + s.tL1 < 2 ^ 64 → (s.access op a).cycles = s.cycles + s.tL1) ∧
    (s.access op a).L2 = s.L2 ∧
    (s.access op a).mL1 = s.mL1 ∧ (s.access op a).nL2 = s.nL2 ∧
    (s.access op a).mL2 = s.mL2 ∧
    (s.access op a).memC = s.memC ∧ (s.access op a).blkB = s.blkB ∧
    (s.access op a).wrAlloc = s.wrAlloc ∧ (s.access op a).tL1 = s.tL1 ∧
    (s.access op a).tL2 = s.tL2 ∧
    (s.access op a).L1.sets = s.L1.sets ∧ (s.access op a).L1.ways = s.L1.ways ∧
    (s.access op a).L1.blockB = s.L1.blockB ∧
    (∀ (j v : Nat), j ≠ (s.L1.probe a).set → (s.access op a).L1.line? j v = s.L1.line? j v) ∧
    (∀ (j v : Nat), s.L1.line? j v = none → (s.access op a).L1.line? j v = none) ∧
    (∀ (v : Nat) (L : Line), s.L1.line? (s.L1.probe a).set v = some L →
      ∃ L', (s.access op a).L1.line? (s.L1.probe a).set v = some L' ∧
        L'.valid = L.valid ∧ L'.tag = L.tag ∧
        L'.dirty = (if isWrite op = true ∧ v = (s.L1.probe a).ln then true else L.dirty)) := by
  obtain ⟨c1, c2, c3, c4, c5, c6, c7, c8, c9, c10⟩ := s.access_scalars op a
  rw [hhit] at c7 c8 c9 c10
  simp only [if_true, Bool.true_or] at c7 c8 c9 c10
  have hL1 : ∀ j v, (s.access op a).L1.line? j v =
      (s.L1.line? j v).map (fun L =>
        if (s.L1.probe a).set = j then
          if (s.L1.probe a).ln = v then { L with dirty := L.dirty || isWrite op, lru := 0 }
          else { L with lru := (L.lru + 1) % 2 ^ 32 }
        else L) := by
    intro j v
    rw [Simulator.access_hit s op a hhit]
    exact Simulator.hitL1_line? _ _ _ j v
  have hgeo : (s.access op a).L1.sets = s.L1.sets ∧ (s.access op a).L1.ways = s.L1.ways ∧
      (s.access op a).L1.blockB = s.L1.blockB ∧ (s.access op a).L2 = s.L2 := by
    rw [Simulator.access_hit s op a hhit]
    cases isWrite op <;> exact ⟨rfl, rfl, rfl, rfl⟩
  refine ⟨c6, fun h => by rw [c6, Nat.mod_eq_of_lt h], c10,
    fun h => by rw [c10, Nat.mod_eq_of_lt h], hgeo.2.2.2, c7, c8, c9, c1, c2, c3, c4, c5,
    hgeo.1, hgeo.2.1, hgeo.2.2.1, ?_, ?_, ?_⟩
  · intro j v hj
    rw [hL1]
    have hj' : ¬ (s.L1.probe a).set = j := fun h => hj h.symm
    cases s.L1.line? j v with
    | none => rfl
    | some L => simp only [Option.map_some', if_neg hj']
  · intro j v hnone
    rw [hL1, hnone]
    rfl
  · intro v L hL
    rw [hL1, hL]
    refine ⟨_, rfl, ?_, ?_, ?_⟩
    · dsimp only; split_ifs <;> rfl
    · dsimp only; split_ifs <;> rfl
    · by_cases hv : (s.L1.probe a).ln = v
      · cases hw : isWrite op <;> simp [hv]
      · have hv' : ¬ v = (s.L1.probe a).ln := fun h => hv h.symm
        simp [hv, hv']

theorem l1_hit_effect_witness :
    (((Simulator.new 100 2 0 4 0 1 5 1 10).run [('r', 0)]).L1.probe 0).hit = true ∧
    (((Simulator.new 100 2 0 4 0 1 5 1 10).run [('r', 0)]).access 'w' 0).L2 =
      ((Simulator.new 100 2 0 4 0 1 5 1 10).run [('r', 0)]).L2 :=
  ⟨by decide,
    (l1_hit_effect ((Simulator.new 100 2 0 4 0 1 5 1 10).run [('r', 0)]) 'w' 0
      (by decide)).2.2.2.2.1⟩

/-! ## Further results: geometry -/

theorem shl32_of_lt {n : Nat} (h : n < 32) : shl32 n = 2 ^ n := by
  unfold shl32
  rw [Nat.one_shiftLeft]
  apply Nat.mod_eq_of_lt
  exact Nat.pow_lt_pow_right (by decide) h

/-- C13, geometry derivation: for exponents with `blockExp ≤ sizeExp`,
`sizeExp - blockExp < 32` and `assocExp < 32` the constructed cache has `ways = 2^assocExp`,
`sets = 2^(sizeExp - blockExp) / ways`, and a grid of `sets` rows of `ways` lines each, every
line with `valid = false`, `dirty = false`, `tag = 0`, `lru = 0`; when moreover
`assocExp ≤ sizeExp - blockExp`, `sets ≥ 1` and `sets * ways = 2^(sizeExp - blockExp)`. -/
theorem geometry_derivation (sizeExp assocExp blockExp : Nat) (h1 : blockExp ≤ sizeExp)
    (h2 : sizeExp - blockExp < 32) (h3 : assocExp < 32) :
    (Cache.new sizeExp assocExp blockExp).ways = 2 ^ assocExp ∧
    (Cache.new sizeExp assocExp blockExp).sets =
      2 ^ (sizeExp - blockExp) / (Cache.new sizeExp assocExp blockExp).ways ∧
    (Cache.new sizeExp assocExp blockExp).blockB = blockExp ∧
    (Cache.new sizeExp assocExp blockExp).data.length =
      (Cache.new sizeExp assocExp blockExp).sets ∧
    (∀ S ∈ (Cache.new sizeExp assocExp blockExp).data,
      S.length = (Cache.new sizeExp assocExp blockExp).ways ∧
      ∀ L ∈ S, L = ⟨false, false, 0, 0⟩) ∧
    (assocExp ≤ sizeExp - blockExp →
      1 ≤ (Cache.new sizeExp assocExp blockExp).sets ∧
      (Cache.new sizeExp assocExp blockExp).sets * (Cache.new sizeExp assocExp blockExp).ways =
        2 ^ (sizeExp - blockExp)) := by
  have hsub : (sizeExp + 2 ^ 32 - blockExp) % 2 ^ 32 = sizeExp - blockExp := by omega
  have hways : (Cache.new sizeExp assocExp blockExp).ways = 2 ^ assocExp := shl32_of_lt h3
  have hsets : (Cache.new sizeExp assocExp blockExp).sets =
      2 ^ (sizeExp - blockExp) / (Cache.new sizeExp assocExp blockExp).ways := by
    show shl32 ((sizeExp + 2 ^ 32 - blockExp) % 2 ^ 32) / shl32 assocExp = _
    rw [hsub, shl32_of_lt h2]
    rfl
  refine ⟨hways, hsets, rfl, ?_, ?_, ?_⟩
  · show (List.replicate _ _).length = _
    rw [List.length_replicate]
    rfl
  · intro S hS
    have hS' : S = List.replicate (Cache.new sizeExp assocExp blockExp).ways Line.fresh :=
      List.eq_of_mem_replicate hS
    refine ⟨by rw [hS', List.length_replicate], ?_⟩
    intro L hL
    rw [hS'] at hL
    exact List.eq_of_mem_replicate hL
  · intro h4
    rw [hsets, hways]
    have hdvd : 2 ^ assocExp ∣ 2 ^ (sizeExp - blockExp) := pow_dvd_pow 2 h4
    refine ⟨?_, Nat.div_mul_cancel hdvd⟩
    exact Nat.div_pos (Nat.le_of_dvd (Nat.pow_pos (by decide)) hdvd) (Nat.pow_pos (by decide))

theorem geometry_derivation_witness :
    (2 ≤ 5 ∧ 5 - 2 < 32 ∧ 1 < 32) ∧
    (Cache.new 5 1 2).ways = 2 ^ 1 ∧
    (Cache.new 5 1 2).sets = 2 ^ (5 - 2) / (Cache.new 5 1 2).ways :=
  ⟨⟨by decide, by decide, by decide⟩,
    (geometry_derivation 5 1 2 (by decide) (by decide) (by decide)).1,
    (geometry_derivation 5 1 2 (by decide) (by decide) (by decide)).2.1⟩

/-- C17, address reconstruction round trip: for a cache with `sets ≥ 1` and a 64-bit address
`a` with probe result `(set, tag)`, `tag * sets + set = a >> blockB`, and the probe of the
rebuilt address `(tag * sets + set) << blockB` (in 64-bit arithmetic) gives the same `set` and
`tag`. For a simulator whose L1 shares the block size, `invalidateL1(tag2, set2)` invalidates
in the L1 row with the L1 tag of `invalidateTarget`, and for `(tag2, set2)` the L2 coordinates
of the block of a 64-bit address `a'` these are the `set` and `tag` of `L1.probe(a')`. -/
theorem address_round_trip (c : Cache) (s : Simulator) (a a' tag2 set2 : Nat)
    (_hc : 1 ≤ c.sets) (ha : a < 2 ^ 64)
    (_h1 : 1 ≤ s.L1.sets) (_h2 : 1 ≤ s.L2.sets) (hb : s.L1.blockB = s.blkB)
    (ha' : a' < 2 ^ 64) (hblk : tag2 * s.L2.sets + set2 = a' >>> s.blkB) :
    (c.probe a).tag * c.sets + (c.probe a).set = a >>> c.blockB ∧
    (c.probe (((((c.probe a).tag * c.sets + (c.probe a).set) % 2 ^ 64) <<< c.blockB)
      % 2 ^ 64)).set = (c.probe a).set ∧
    (c.probe (((((c.probe a).tag * c.sets + (c.probe a).set) % 2 ^ 64) <<< c.blockB)
      % 2 ^ 64)).tag = (c.probe a).tag ∧
    (s.invalidateL1 tag2 set2).L1.data =
      s.L1.data.modify (invalidateFirst (s.invalidateTarget tag2 set2).2)
        (s.invalidateTarget tag2 set2).1 ∧
    (s.invalidateTarget tag2 set2).1 = (s.L1.probe a').set ∧
    (s.invalidateTarget tag2 set2).2 = (s.L1.probe a').tag := by
  have hrt : (c.probe a).tag * c.sets + (c.probe a).set = a >>> c.blockB := by
    rw [Cache.probe_tag, Cache.probe_set]
    exact div_mul_add_mod _ _
  have hbound : (a >>> c.blockB) * 2 ^ c.blockB < 2 ^ 64 :=
    lt_of_le_of_lt (shiftRight_mul_le a c.blockB) ha
  have hback : (((((c.probe a).tag * c.sets + (c.probe a).set) % 2 ^ 64) <<< c.blockB)
      % 2 ^ 64) >>> c.blockB = a >>> c.blockB := by
    rw [hrt]
    exact rebuild_shiftRight hbound
  have hlt : a' >>> s.blkB < 2 ^ 64 :=
    lt_of_le_of_lt (Nat.le_mul_of_pos_right _ (Nat.pow_pos (by decide)))
      (lt_of_le_of_lt (shiftRight_mul_le a' s.blkB) ha')
  have htarget : s.invalidateTarget tag2 set2 =
      ((a' >>> s.blkB) % s.L1.sets, (a' >>> s.blkB) / s.L1.sets) := by
    unfold Simulator.invalidateTarget
    dsimp only
    rw [hblk, Nat.mod_eq_of_lt hlt]
  refine ⟨hrt, ?_, ?_, rfl, ?_, ?_⟩
  · rw [Cache.probe_set, hback, Cache.probe_set]
  · rw [Cache.probe_tag, hback, Cache.probe_tag]
  · rw [htarget, Cache.probe_set, hb]
  · rw [htarget, Cache.probe_tag, hb]

theorem address_round_trip_witness :
    (1 ≤ (Cache.new 5 1 2).sets ∧ 100 < 2 ^ 64 ∧
      1 ≤ (Simulator.new 100 2 1 4 0 1 5 1 10).L1.sets ∧
      1 ≤ (Simulator.new 100 2 1 4 0 1 5 1 10).L2.sets ∧
      (Simulator.new 100 2 1 4 0 1 5 1 10).L1.blockB = (Simulator.new 100 2 1 4 0 1 5 1 10).blkB ∧
      103 < 2 ^ 64 ∧ 6 * (Simulator.new 100 2 1 4 0 1 5 1 10).L2.sets + 1 =
        103 >>> (Simulator.new 100 2 1 4 0 1 5 1 10).blkB) ∧
    ((Cache.new 5 1 2).probe 100).tag * (Cache.new 5 1 2).sets + ((Cache.new 5 1 2).probe 100).set =
      100 >>> (Cache.new 5 1 2).blockB ∧
    ((Simulator.new 100 2 1 4 0 1 5 1 10).invalidateTarget 6 1).1 =
      ((Simulator.new 100 2 1 4 0 1 5 1 10).L1.probe 103).set :=
  ⟨⟨by decide, by decide, by decide, by decide, by decide, by decide, by decide⟩,
    (address_round_trip (Cache.new 5 1 2) (Simulator.new 100 2 1 4 0 1 5 1 10) 100 103 6 1
      (by decide) (by decide) (by decide) (by decide) (by decide) (by decide) (by decide)).1,
    (address_round_trip (Cache.new 5 1 2) (Simulator.new 100 2 1 4 0 1 5 1 10) 100 103 6 1
      (by decide) (by decide) (by decide) (by decide) (by decide) (by decide)
      (by decide)).2.2.2.2.1⟩

/-! ## Further results: the report on an empty trace -/

/-- C14, empty trace: on the freshly constructed simulator, with no access processed, all
counters are 0 and `report` divides `mL1` and `cycles` by `nL1 = 0`, so the L1 miss rate and
the average access time are not numbers; only the L2 miss rate, which the source guards with
`nL2 ? ... : 0.0`, is 0. -/
theorem report_empty_trace (m b w s1 a1 c1 s2 a2 c2 : Nat) :
    ((Simulator.new m b w s1 a1 c1 s2 a2 c2).run []).nL1 = 0 ∧
    ((Simulator.new m b w s1 a1 c1 s2 a2 c2).run []).report.mr1 = none ∧
    ((Simulator.new m b w s1 a1 c1 s2 a2 c2).run []).report.mr2 = some 0 ∧
    ((Simulator.new m b w s1 a1 c1 s2 a2 c2).run []).report.avg = none :=
  ⟨rfl, rfl, rfl, rfl⟩

/-! ## Further results: the state after an allocating access -/

/-- Under the invariant, filling an L1 slot leaves there the new line, valid, with the dirty
flag of the access and `lru = 0`. -/
theorem Simulator.Inv.fillL1_line {s : Simulator} (h : s.Inv) (isW : Bool) (r1 : Res)
    (hset : r1.set < s.L1.sets) (hln : r1.ln < s.L1.ways) :
    (s.fillL1 isW r1).L1.line? r1.set r1.ln = some ⟨true, isW, r1.tag, 0⟩ := by
  obtain ⟨e1, -, -⟩ := h.writeBackL1 r1.set r1.ln
  obtain ⟨L, hL⟩ := h.shape1.line?_isSome hset hln
  show (Cache.updateLRU (Cache.modifyLine (s.writeBackL1 _ _).L1 _ _ _) _ _).line? _ _ = _
  rw [e1, Cache.line?_updateLRU, Cache.line?_modifyLine, if_pos ⟨rfl, rfl⟩, hL]
  simp

/-- Under the invariant, the write-back of an L1 line keeps every L2 line in place with its
`valid` flag and `tag`, and its `dirty` flag too unless the line holds the block written
back. -/
theorem Simulator.Inv.writeBackL1_line {s : Simulator} (h : s.Inv) (i w j v : Nat) (L : Line)
    (hL : s.L2.line? j v = some L) :
    ∃ L', (s.writeBackL1 (s.L1.lineAt i w) i).L2.line? j v = some L' ∧ L'.valid = L.valid ∧
      L'.tag = L.tag ∧
      (¬ ((s.L1.lineAt i w).valid = true ∧
          L.tag * s.L2.sets + j = (s.L1.lineAt i w).tag * s.L1.sets + i) →
        L'.dirty = L.dirty) := by
  by_cases hv : (s.L1.lineAt i w).valid = true
  · by_cases hd : (s.L1.lineAt i w).dirty = true
    · obtain ⟨hp, hset, htag⟩ := h.wb_probe (Cache.vt_of_lineAt_valid hv)
      rw [Simulator.writeBackL1_hit s _ i hv hd hp]
      show ∃ L', (Cache.updateLRU (Cache.modifyLine s.L2 _ _ _) _ _).line? j v = some L' ∧ _
      rw [Cache.line?_updateLRU, Cache.line?_modifyLine, hL]
      by_cases hpos : (s.wbRes (s.L1.lineAt i w).tag i).set = j ∧
          (s.wbRes (s.L1.lineAt i w).tag i).ln = v
      · rw [if_pos hpos]
        refine ⟨_, rfl, ?_, ?_, ?_⟩
        · simp only [Option.map_some']; split_ifs <;> rfl
        · simp only [Option.map_some']; split_ifs <;> rfl
        · intro hne
          exfalso
          apply hne
          obtain ⟨Lp, hLp, hLpv, hLpt⟩ := Cache.probe_hit_line? hp
          have hLp' : s.L2.line? (s.wbRes (s.L1.lineAt i w).tag i).set
              (s.wbRes (s.L1.lineAt i w).tag i).ln = some Lp := hLp
          rw [hpos.1, hpos.2, hL] at hLp'
          have hLeq : L = Lp := Option.some.inj hLp'
          have hLpt' : Lp.tag = (s.wbRes (s.L1.lineAt i w).tag i).tag := hLpt
          rw [hLeq]
          refine ⟨hv, ?_⟩
          rw [hLpt', htag, ← hpos.1, hset]
          exact div_mul_add_mod _ _
      · rw [if_neg hpos]
        refine ⟨_, rfl, ?_, ?_, fun _ => ?_⟩
        · dsimp only; split_ifs <;> rfl
        · dsimp only; split_ifs <;> rfl
        · dsimp only; split_ifs <;> rfl
    · rw [Simulator.writeBackL1_clean s _ i (Or.inr (by simpa using hd))]
      exact ⟨L, hL, rfl, rfl, fun _ => rfl⟩
  · rw [Simulator.writeBackL1_clean s _ i (Or.inl (by simpa using hv))]
    exact ⟨L, hL, rfl, rfl, fun _ => rfl⟩

theorem Simulator.fillL2_L2 (s : Simulator) (r2 : Res) :
    (s.fillL2 r2).L2 =
      (s.L2.modifyLine r2.set r2.ln (fun _ => ⟨true, false, r2.tag, 0⟩)).updateLRU
        r2.set r2.ln := by
  unfold Simulator.fillL2
  dsimp only
  split <;> rfl

theorem Simulator.fillL2_line {s : Simulator} (h : s.L2.Shape) (r2 : Res)
    (hset : r2.set < s.L2.sets) (hln : r2.ln < s.L2.ways) :
    (s.fillL2 r2).L2.line? r2.set r2.ln = some ⟨true, false, r2.tag, 0⟩ := by
  obtain ⟨L, hL⟩ := h.line?_isSome hset hln
  rw [Simulator.fillL2_L2, Cache.line?_updateLRU, Cache.line?_modifyLine, if_pos ⟨rfl, rfl⟩, hL]
  simp

theorem Cache.vt_of_line? {c : Cache} {i w : Nat} {L : Line} (h : c.line? i w = some L) :
    c.vt i w = some (L.valid, L.tag) := by
  unfold Cache.vt
  rw [h]
  rfl

theorem Simulator.Inv.fillL1_L1 {s : Simulator} (h : s.Inv) (isW : Bool) (r1 : Res) :
    (s.fillL1 isW r1).L1 =
      (s.L1.modifyLine r1.set r1.ln (fun _ => ⟨true, isW, r1.tag, 0⟩)).updateLRU
        r1.set r1.ln := by
  obtain ⟨e1, -, -⟩ := h.writeBackL1 r1.set r1.ln
  show Cache.updateLRU (Cache.modifyLine (s.writeBackL1 _ _).L1 _ _ _) _ _ = _
  rw [e1]

theorem Simulator.Inv.tag_eq_of_block_eq {s : Simulator} (h : s.Inv) (a t : Nat)
    (heq : (s.L2.probe a).tag * s.L2.sets + (s.L2.probe a).set =
      t * s.L1.sets + (s.L1.probe a).set) : t = (s.L1.probe a).tag := by
  have hB2 : (s.L2.probe a).tag * s.L2.sets + (s.L2.probe a).set = a >>> s.blkB := by
    rw [Cache.probe_tag, Cache.probe_set, h.blk2]
    exact div_mul_add_mod _ _
  have hB1 : (s.L1.probe a).tag * s.L1.sets + (s.L1.probe a).set = a >>> s.blkB := by
    rw [Cache.probe_tag, Cache.probe_set, h.blk1]
    exact div_mul_add_mod _ _
  have hmul : t * s.L1.sets = (s.L1.probe a).tag * s.L1.sets := by
    have := heq.symm.trans (hB2.trans hB1.symm)
    omega
  exact Nat.eq_of_mul_eq_mul_right h.shape1.2.1 hmul

/-- Under the invariant, what an allocating access leaves in the two caches. -/
theorem Simulator.Inv.allocate_post {s : Simulator} (h : s.Inv) (op : Char) {a : Nat}
    (ha : a < 2 ^ 64) (hmiss : (s.L1.probe a).hit = false)
    (halloc : (isWrite op && s.wrAlloc == 0) = false) :
    (s.access op a).L1.sets = s.L1.sets ∧ (s.access op a).L2.sets = s.L2.sets ∧
    (s.access op a).L1.line? (s.L1.probe a).set (s.L1.probe a).ln =
      some ⟨true, isWrite op, (s.L1.probe a).tag, 0⟩ ∧
    (s.access op a).L2.holds (a >>> s.blkB) ∧
    ((s.L2.probe a).hit = false →
      ∃ L', (s.access op a).L2.line? (s.L2.probe a).set (s.L2.probe a).ln = some L' ∧
        L'.valid = true ∧ L'.tag = (s.L2.probe a).tag ∧ L'.dirty = false) := by
  have hset1 : (s.L1.probe a).set < s.L1.sets := Cache.probe_set_lt h.shape1 a
  have hln1 : (s.L1.probe a).ln < s.L1.ways := Cache.probe_ln_lt h.shape1 a
  have hseteq : (s.L1.probe a).set = (a >>> s.blkB) % s.L1.sets := by
    rw [Cache.probe_set, h.blk1]
  have htageq : (s.L1.probe a).tag = (a >>> s.blkB) / s.L1.sets := by
    rw [Cache.probe_tag, h.blk1]
  rw [Simulator.access_allocate s op a hmiss halloc]
  cases h2 : (s.L2.probe a).hit with
  | true =>
    rw [Simulator.allocate_hit
      { s with nL1 := (s.nL1 + 1) % 2 ^ 64, mL1 := (s.mL1 + 1) % 2 ^ 64 } _ _ _ h2]
    have hsB : Simulator.Inv
        { s with nL1 := (s.nL1 + 1) % 2 ^ 64, mL1 := (s.mL1 + 1) % 2 ^ 64,
                 nL2 := (s.nL2 + 1) % 2 ^ 64,
                 cycles := (s.cycles + (s.tL1 + s.tL2) % 2 ^ 32) % 2 ^ 64 } :=
      h.of_eq rfl rfl rfl
    obtain ⟨-, -, e3⟩ := hsB.fillL1 ha (isWrite op) (s.L1.probe a) hseteq htageq
      (h.probe_holds h2) (Cache.probe_miss_vt hmiss)
    have hsub := e3.trans (Cache.updateLRU_sub _ (s.L2.probe a).set (s.L2.probe a).ln)
    refine ⟨?_, hsub.sets.symm, hsB.fillL1_line (isWrite op) (s.L1.probe a) hset1 hln1,
      hsub.holds (h.probe_holds h2), fun hf => by cases hf⟩
    show (Simulator.fillL1 _ _ _).L1.sets = _
    rw [hsB.fillL1_L1]
    rfl
  | false =>
    rw [Simulator.allocate_miss
      { s with nL1 := (s.nL1 + 1) % 2 ^ 64, mL1 := (s.mL1 + 1) % 2 ^ 64 } _ _ _ h2]
    have hsC : Simulator.Inv
        { s with nL1 := (s.nL1 + 1) % 2 ^ 64, mL1 := (s.mL1 + 1) % 2 ^ 64,
                 nL2 := (s.nL2 + 1) % 2 ^ 64, mL2 := (s.mL2 + 1) % 2 ^ 64,
                 cycles := (s.cycles + (s.tL1 + s.tL2 + s.memC) % 2 ^ 32) % 2 ^ 64 } :=
      h.of_eq rfl rfl rfl
    obtain ⟨hs3, hholds3, hsub3⟩ := hsC.fillL2 ha h2
    have hb3 := (Simulator.fillL2_scalars
      { s with nL1 := (s.nL1 + 1) % 2 ^ 64, mL1 := (s.mL1 + 1) % 2 ^ 64,
               nL2 := (s.nL2 + 1) % 2 ^ 64, mL2 := (s.mL2 + 1) % 2 ^ 64,
               cycles := (s.cycles + (s.tL1 + s.tL2 + s.memC) % 2 ^ 32) % 2 ^ 64 }
      (s.L2.probe a)).2.1
    have hsets3 : (Simulator.fillL2
      { s with nL1 := (s.nL1 + 1) % 2 ^ 64, mL1 := (s.mL1 + 1) % 2 ^ 64,
               nL2 := (s.nL2 + 1) % 2 ^ 64, mL2 := (s.mL2 + 1) % 2 ^ 64,
               cycles := (s.cycles + (s.tL1 + s.tL2 + s.memC) % 2 ^ 32) % 2 ^ 64 }
      (s.L2.probe a)).L2.sets = s.L2.sets := by
      rw [Simulator.fillL2_L2]; rfl
    obtain ⟨-, e2, e3⟩ := hs3.fillL1 ha (isWrite op) (s.L1.probe a)
      (by rw [hb3, hsub3.sets]; exact hseteq) (by rw [hb3, hsub3.sets]; exact htageq)
      (by rw [hb3]; exact hholds3)
      (fun v hv => Cache.probe_miss_vt hmiss v (hsub3.vt _ _ _ hv))
    refine ⟨?_, e2.sets.trans hsets3, ?_, e3.holds hholds3, fun _ => ?_⟩
    · show (Simulator.fillL1 _ _ _).L1.sets = _
      rw [hs3.fillL1_L1]
      exact hsub3.sets
    · exact hs3.fillL1_line (isWrite op) (s.L1.probe a) (by rw [hsub3.sets]; exact hset1)
        (by rw [hsub3.ways]; exact hln1)
    · have hline := Simulator.fillL2_line hsC.shape2 (s.L2.probe a)
        (Cache.probe_set_lt h.shape2 a) (Cache.probe_ln_lt h.shape2 a)
      obtain ⟨L', hL', hv', ht', hd'⟩ := hs3.writeBackL1_line (s.L1.probe a).set
        (s.L1.probe a).ln (s.L2.probe a).set (s.L2.probe a).ln _ hline
      refine ⟨L', hL', hv', ht', hd' ?_⟩
      rintro ⟨hov, heq⟩
      have hvt := hsub3.vt _ _ _ (Cache.vt_of_lineAt_valid hov)
      rw [hsets3, hsub3.sets] at heq
      rw [h.tag_eq_of_block_eq a _ heq] at hvt
      exact Cache.probe_miss_vt hmiss _ hvt

/-- C11 as stated fails: with the three latencies at `2^31 - 1` and write-allocate on, the
read `r 0x0` on the fresh simulator misses in L1 and in L2 and is allocated, and the cycle
total becomes `2147483645`, the 32-bit sum of the three latencies, not
`0 + (tL1 + tL2 + memC)`. -/
theorem allocate_cycles_wrap :
    isWrite 'r' = false ∧
    ((Simulator.new 2147483647 2 1 4 0 2147483647 5 1 2147483647).L1.probe 0).hit = false ∧
    ((Simulator.new 2147483647 2 1 4 0 2147483647 5 1 2147483647).L2.probe 0).hit = false ∧
    ((Simulator.new 2147483647 2 1 4 0 2147483647 5 1 2147483647).access 'r' 0).cycles =
      2147483645 ∧
    (Simulator.new 2147483647 2 1 4 0 2147483647 5 1 2147483647).cycles +
      ((Simulator.new 2147483647 2 1 4 0 2147483647 5 1 2147483647).tL1 +
        (Simulator.new 2147483647 2 1 4 0 2147483647 5 1 2147483647).tL2 +
        (Simulator.new 2147483647 2 1 4 0 2147483647 5 1 2147483647).memC) = 6442450941 := by
  decide

/-- C11 amended, allocate postcondition: in a state reached from a fresh simulator with at
least one set per level by 64-bit accesses, an access to a 64-bit address `a` that misses in
L1 and is a read, or a write with `wrAlloc != 0`, keeps the set counts and leaves in the L1
row of `a` the line `valid, dirty = isWrite, tag of a, lru = 0` (at the slot the L1 probe
chose); the L2 row of `a` has a valid line with the tag of `a`, and when the access missed in
L2 every such line has `dirty = false`. `cycles` grows, modulo `2^64`, by `tL1 + tL2` modulo
`2^32` on an L2 hit and by `tL1 + tL2 + memC` modulo `2^32` on an L2 miss; when
`tL1 + tL2 + memC < 2^32` and the total stays below `2^64` these are the plain sums. -/
theorem allocate_postcondition (m b w s1 a1 c1 s2 a2 c2 : Nat)
    (trace : List (Char × Nat)) (s : Simulator) (op : Char) (a : Nat)
    (hs : s = (Simulator.new m b w s1 a1 c1 s2 a2 c2).run trace)
    (h1 : 1 ≤ (Simulator.new m b w s1 a1 c1 s2 a2 c2).L1.sets)
    (h2 : 1 ≤ (Simulator.new m b w s1 a1 c1 s2 a2 c2).L2.sets)
    (haddr : ∀ e ∈ trace, e.2 < 2 ^ 64) (ha : a < 2 ^ 64)
    (hmiss : (s.L1.probe a).hit = false)
    (halloc : (isWrite op && s.wrAlloc == 0) = false) :
    ((s.access op a).L1.sets = s.L1.sets ∧ (s.access op a).L2.sets = s.L2.sets) ∧
    (s.access op a).L1.line? ((a >>> s.blkB) % s.L1.sets) (s.L1.probe a).ln =
      some ⟨true, isWrite op, (a >>> s.blkB) / s.L1.sets, 0⟩ ∧
    (∃ (v : Nat) (L : Line),
      (s.access op a).L2.line? ((a >>> s.blkB) % s.L2.sets) v = some L ∧
        L.valid = true ∧ L.tag = (a >>> s.blkB) / s.L2.sets) ∧
    ((s.L2.probe a).hit = false →
      ∀ (v : Nat) (L : Line),
        (s.access op a).L2.line? ((a >>> s.blkB) % s.L2.sets) v = some L →
          L.valid = true → L.tag = (a >>> s.blkB) / s.L2.sets → L.dirty = false) ∧
    (s.access op a).cycles =
      (s.cycles + (if (s.L2.probe a).hit then (s.tL1 + s.tL2) % 2 ^ 32
        else (s.tL1 + s.tL2 + s.memC) % 2 ^ 32)) % 2 ^ 64 ∧
    (s.tL1 + s.tL2 + s.memC < 2 ^ 32 → s.cycles + (s.tL1 + s.tL2 + s.memC) < 2 ^ 64 →
      (s.access op a).cycles =
        s.cycles + (if (s.L2.probe a).hit then s.tL1 + s.tL2 else s.tL1 + s.tL2 + s.memC)) := by
  have hinv : s.Inv := by
    rw [hs]
    exact (Simulator.inv_new m b w s1 a1 c1 s2 a2 c2 h1 h2).run trace haddr
  have hinv' : (s.access op a).Inv := hinv.access op ha
  obtain ⟨e1, e2, hl1, hh2, hd2⟩ := hinv.allocate_post op ha hmiss halloc
  have hcyc := (s.access_scalars op a).2.2.2.2.2.2.2.2.2
  rw [hmiss] at hcyc
  have hset1 : (s.L1.probe a).set = (a >>> s.blkB) % s.L1.sets := by
    rw [Cache.probe_set, hinv.blk1]
  have htag1 : (s.L1.probe a).tag = (a >>> s.blkB) / s.L1.sets := by
    rw [Cache.probe_tag, hinv.blk1]
  have hset2 : (s.L2.probe a).set = (a >>> s.blkB) % s.L2.sets := by
    rw [Cache.probe_set, hinv.blk2]
  have htag2 : (s.L2.probe a).tag = (a >>> s.blkB) / s.L2.sets := by
    rw [Cache.probe_tag, hinv.blk2]
  rw [hset1, htag1] at hl1
  refine ⟨⟨e1, e2⟩, hl1, ?_, ?_, hcyc, ?_⟩
  · obtain ⟨v, hv⟩ := hh2
    rw [e2] at hv
    obtain ⟨L, hL, hval, htag⟩ := Cache.vt_eq_some_iff.mp hv
    exact ⟨v, L, hL, hval, htag⟩
  · intro hm v L hL hval htag
    obtain ⟨L', hL', hv', ht', hd'⟩ := hd2 hm
    rw [hset2] at hL'
    have hvt : (s.access op a).L2.vt ((a >>> s.blkB) % s.L2.sets) v =
        some (true, (a >>> s.blkB) / s.L2.sets) := by
      rw [Cache.vt_of_line? hL, hval, htag]
    have hvt' : (s.access op a).L2.vt ((a >>> s.blkB) % s.L2.sets) (s.L2.probe a).ln =
        some (true, (a >>> s.blkB) / s.L2.sets) := by
      rw [Cache.vt_of_line? hL', hv', ht', htag2]
    have hvv := hinv'.nodup2 _ _ _ _ hvt hvt'
    rw [hvv, hL'] at hL
    cases hL
    exact hd'
  · intro hM hC
    rw [hcyc]
    cases (s.L2.probe a).hit with
    | true =>
      simp only [if_true, Bool.false_eq_true, if_false]
      rw [Nat.mod_eq_of_lt (by omega), Nat.mod_eq_of_lt (by omega)]
    | false =>
      simp only [Bool.false_eq_true, if_false]
      rw [Nat.mod_eq_of_lt hM, Nat.mod_eq_of_lt hC]

theorem allocate_postcondition_witness :
    ((∀ e ∈ [('w', 0)], e.2 < 2 ^ 64) ∧ 16 < 2 ^ 64 ∧
      (((Simulator.new 100 2 1 4 0 1 5 1 10).run [('w', 0)]).L1.probe 16).hit = false ∧
      (isWrite 'r' && ((Simulator.new 100 2 1 4 0 1 5 1 10).run [('w', 0)]).wrAlloc == 0) =
        false) ∧
    (((Simulator.new 100 2 1 4 0 1 5 1 10).run [('w', 0)]).access 'r' 16).cycles =
      (((Simulator.new 100 2 1 4 0 1 5 1 10).run [('w', 0)]).cycles +
        (if (((Simulator.new 100 2 1 4 0 1 5 1 10).run [('w', 0)]).L2.probe 16).hit then
          (((Simulator.new 100 2 1 4 0 1 5 1 10).run [('w', 0)]).tL1 +
            ((Simulator.new 100 2 1 4 0 1 5 1 10).run [('w', 0)]).tL2) % 2 ^ 32
        else (((Simulator.new 100 2 1 4 0 1 5 1 10).run [('w', 0)]).tL1 +
          ((Simulator.new 100 2 1 4 0 1 5 1 10).run [('w', 0)]).tL2 +
          ((Simulator.new 100 2 1 4 0 1 5 1 10).run [('w', 0)]).memC) % 2 ^ 32)) % 2 ^ 64 :=
  ⟨⟨by decide, by decide, by decide, by decide⟩,
    (allocate_postcondition 100 2 1 4 0 1 5 1 10 [('w', 0)]
      ((Simulator.new 100 2 1 4 0 1 5 1 10).run [('w', 0)]) 'r' 16 rfl
      (by decide) (by decide) (by decide) (by decide) (by decide) (by decide)).2.2.2.2.1⟩

/-! ## Further results: the closed form of the cycle total -/

theorem Simulator.run_append (s : Simulator) (t1 t2 : List (Char × Nat)) :
    s.run (t1 ++ t2) = (s.run t1).run t2 :=
  List.foldl_append _ _ _ _

theorem Simulator.run_closed_form (s : Simulator) (trace : List (Char × Nat))
    (hn1 : s.nL1 = 0) (hn2 : s.nL2 = 0) (hm2 : s.mL2 = 0) (hc : s.cycles = 0)
    (hM : s.tL1 + s.tL2 + s.memC < 2 ^ 32) (hlen : trace.length < 2 ^ 64) :
    ((s.run trace).tL1 = s.tL1 ∧ (s.run trace).tL2 = s.tL2 ∧ (s.run trace).memC = s.memC) ∧
    (s.run trace).nL1 = trace.length ∧ (s.run trace).mL2 ≤ (s.run trace).nL2 ∧
    (s.run trace).nL2 ≤ (s.run trace).nL1 ∧
    ((s.run trace).nL1 * s.tL1 + (s.run trace).nL2 * s.tL2 + (s.run trace).mL2 * s.memC
        < 2 ^ 64 →
      (s.run trace).cycles =
        (s.run trace).nL1 * s.tL1 + (s.run trace).nL2 * s.tL2 +
          (s.run trace).mL2 * s.memC) := by
  induction trace using List.reverseRecOn with
  | nil =>
    show (s.tL1 = s.tL1 ∧ s.tL2 = s.tL2 ∧ s.memC = s.memC) ∧ s.nL1 = 0 ∧ s.mL2 ≤ s.nL2 ∧
      s.nL2 ≤ s.nL1 ∧ (s.nL1 * s.tL1 + s.nL2 * s.tL2 + s.mL2 * s.memC < 2 ^ 64 →
        s.cycles = s.nL1 * s.tL1 + s.nL2 * s.tL2 + s.mL2 * s.memC)
    rw [hn1, hn2, hm2, hc]
    simp
  | append_singleton l e ih =>
    rw [List.length_append, List.length_singleton] at hlen
    obtain ⟨⟨k1, k2, k3⟩, k4, k5, k6, k7⟩ := ih (by omega)
    have hrun : s.run (l ++ [e]) = (s.run l).access e.1 e.2 := by
      rw [Simulator.run_append]; rfl
    obtain ⟨a1, -, -, a4, a5, a6, -, a8, a9, a10⟩ := (s.run l).access_scalars e.1 e.2
    rw [hrun, List.length_append, List.length_singleton, a1, a4, a5, a6, a8, a9, a10,
      k1, k2, k3, k4]
    rw [k4] at k6 k7
    generalize (s.run l).nL2 = n2 at *
    generalize (s.run l).mL2 = m2 at *
    generalize (s.run l).cycles = cyc at *
    generalize s.tL1 = t1 at *
    generalize s.tL2 = t2 at *
    generalize s.memC = mc at *
    have e1 : (l.length + 1) % 2 ^ 64 = l.length + 1 := Nat.mod_eq_of_lt hlen
    have e2 : (n2 + 1) % 2 ^ 64 = n2 + 1 := Nat.mod_eq_of_lt (by omega)
    have e3 : (m2 + 1) % 2 ^ 64 = m2 + 1 := Nat.mod_eq_of_lt (by omega)
    have e4 : (t1 + t2) % 2 ^ 32 = t1 + t2 := Nat.mod_eq_of_lt (by omega)
    have e5 : (t1 + t2 + mc) % 2 ^ 32 = t1 + t2 + mc := Nat.mod_eq_of_lt hM
    rw [e1, e4, e5]
    refine ⟨⟨rfl, rfl, rfl⟩, rfl, ?_⟩
    cases (((s.run l).L1.probe e.2).hit) <;> cases (((s.run l).L2.probe e.2).hit) <;>
      simp only [Bool.false_eq_true, if_false, if_true, Bool.or_false, Bool.or_true,
        Bool.or_self, e2, e3, Nat.add_mul, Nat.one_mul] <;>
      refine ⟨by omega, by omega, fun hlt => ?_⟩ <;>
      rw [k7 (by omega)] <;>
      exact Nat.mod_eq_of_lt (by omega) |>.trans (by omega)

theorem Simulator.run_counters_mono (s : Simulator) (trace : List (Char × Nat))
    (h1 : s.mL2 ≤ s.nL2) (h2 : s.nL2 ≤ s.nL1) (hlen : s.nL1 + trace.length < 2 ^ 64) :
    s.nL1 ≤ (s.run trace).nL1 ∧ s.nL2 ≤ (s.run trace).nL2 ∧ s.mL2 ≤ (s.run trace).mL2 := by
  induction trace generalizing s with
  | nil => exact ⟨Nat.le_refl _, Nat.le_refl _, Nat.le_refl _⟩
  | cons e rest ih =>
    rw [List.length_cons] at hlen
    obtain ⟨-, -, -, -, -, a6, -, a8, a9, -⟩ := s.access_scalars e.1 e.2
    have e1 : (s.nL1 + 1) % 2 ^ 64 = s.nL1 + 1 := Nat.mod_eq_of_lt (by omega)
    have e2 : (s.nL2 + 1) % 2 ^ 64 = s.nL2 + 1 := Nat.mod_eq_of_lt (by omega)
    have e3 : (s.mL2 + 1) % 2 ^ 64 = s.mL2 + 1 := Nat.mod_eq_of_lt (by omega)
    rw [e1] at a6
    rw [e2] at a8
    rw [e3] at a9
    have hstep : s.nL1 ≤ (s.access e.1 e.2).nL1 ∧ s.nL2 ≤ (s.access e.1 e.2).nL2 ∧
        s.mL2 ≤ (s.access e.1 e.2).mL2 ∧ (s.access e.1 e.2).mL2 ≤ (s.access e.1 e.2).nL2 ∧
        (s.access e.1 e.2).nL2 ≤ (s.access e.1 e.2).nL1 := by
      rw [a6, a8, a9]
      cases (s.L1.probe e.2).hit <;> cases (s.L2.probe e.2).hit <;>
        simp only [Bool.false_eq_true, if_false, if_true, Bool.or_false, Bool.or_true,
          Bool.or_self] <;> omega
    obtain ⟨g1, g2, g3, g4, g5⟩ := hstep
    obtain ⟨i1, i2, i3⟩ := ih (s.access e.1 e.2) g4 g5 (by rw [a6]; omega)
    rw [Simulator.run_cons]
    exact ⟨Nat.le_trans g1 i1, Nat.le_trans g2 i2, Nat.le_trans g3 i3⟩

/-- C18, closed form of the cycle total: on a freshly constructed simulator whose latencies
satisfy `tL1 + tL2 + memC < 2^32`, for a trace of fewer than `2^64` accesses whose total
`nL1 * tL1 + nL2 * tL2 + mL2 * memC` stays below `2^64`, after every prefix of the trace
`cycles = nL1 * tL1 + nL2 * tL2 + mL2 * memC` and `mL2 <= nL2 <= nL1`. -/
theorem cycles_closed_form (m b w s1 a1 c1 s2 a2 c2 : Nat) (trace : List (Char × Nat))
    (n : Nat) (hM : c1 + c2 + m < 2 ^ 32) (hlen : trace.length < 2 ^ 64)
    (hfit : ((Simulator.new m b w s1 a1 c1 s2 a2 c2).run trace).nL1 * c1 +
        ((Simulator.new m b w s1 a1 c1 s2 a2 c2).run trace).nL2 * c2 +
        ((Simulator.new m b w s1 a1 c1 s2 a2 c2).run trace).mL2 * m < 2 ^ 64) :
    ((Simulator.new m b w s1 a1 c1 s2 a2 c2).run (trace.take n)).cycles =
      ((Simulator.new m b w s1 a1 c1 s2 a2 c2).run (trace.take n)).nL1 *
          ((Simulator.new m b w s1 a1 c1 s2 a2 c2).run (trace.take n)).tL1 +
        ((Simulator.new m b w s1 a1 c1 s2 a2 c2).run (trace.take n)).nL2 *
          ((Simulator.new m b w s1 a1 c1 s2 a2 c2).run (trace.take n)).tL2 +
        ((Simulator.new m b w s1 a1 c1 s2 a2 c2).run (trace.take n)).mL2 *
          ((Simulator.new m b w s1 a1 c1 s2 a2 c2).run (trace.take n)).memC ∧
    ((Simulator.new m b w s1 a1 c1 s2 a2 c2).run (trace.take n)).mL2 ≤
      ((Simulator.new m b w s1 a1 c1 s2 a2 c2).run (trace.take n)).nL2 ∧
    ((Simulator.new m b w s1 a1 c1 s2 a2 c2).run (trace.take n)).nL2 ≤
      ((Simulator.new m b w s1 a1 c1 s2 a2 c2).run (trace.take n)).nL1 := by
  have htake : (trace.take n).length < 2 ^ 64 := by
    rw [List.length_take]
    omega
  have hM0 : (Simulator.new m b w s1 a1 c1 s2 a2 c2).tL1 +
      (Simulator.new m b w s1 a1 c1 s2 a2 c2).tL2 +
      (Simulator.new m b w s1 a1 c1 s2 a2 c2).memC < 2 ^ 32 := hM
  obtain ⟨⟨k1, k2, k3⟩, k4, k5, k6, k7⟩ :=
    Simulator.run_closed_form (Simulator.new m b w s1 a1 c1 s2 a2 c2) (trace.take n)
      rfl rfl rfl rfl hM0 htake
  have hsplit : (Simulator.new m b w s1 a1 c1 s2 a2 c2).run trace =
      ((Simulator.new m b w s1 a1 c1 s2 a2 c2).run (trace.take n)).run (trace.drop n) := by
    rw [← Simulator.run_append, List.take_append_drop]
  have hlen2 : ((Simulator.new m b w s1 a1 c1 s2 a2 c2).run (trace.take n)).nL1 +
      (trace.drop n).length < 2 ^ 64 := by
    rw [k4, ← List.length_append, List.take_append_drop]
    exact hlen
  obtain ⟨g1, g2, g3⟩ := Simulator.run_counters_mono _ (trace.drop n) k5 k6 hlen2
  rw [← hsplit] at g1 g2 g3
  have p1 := Nat.mul_le_mul_right c1 g1
  have p2 := Nat.mul_le_mul_right c2 g2
  have p3 := Nat.mul_le_mul_right m g3
  rw [k1, k2, k3]
  exact ⟨k7 (by
    show _ * c1 + _ * c2 + _ * m < 2 ^ 64
    omega), k5, k6⟩

theorem cycles_closed_form_witness :
    (1 + 10 + 100 < 2 ^ 32 ∧ [('r', 0), ('r', 0), ('r', 4), ('r', 0)].length < 2 ^ 64 ∧
      ((Simulator.new 100 2 1 4 0 1 5 1 10).run
          [('r', 0), ('r', 0), ('r', 4), ('r', 0)]).nL1 * 1 +
        ((Simulator.new 100 2 1 4 0 1 5 1 10).run
          [('r', 0), ('r', 0), ('r', 4), ('r', 0)]).nL2 * 10 +
        ((Simulator.new 100 2 1 4 0 1 5 1 10).run
          [('r', 0), ('r', 0), ('r', 4), ('r', 0)]).mL2 * 100 < 2 ^ 64) ∧
    ((Simulator.new 100 2 1 4 0 1 5 1 10).run
        ([('r', 0), ('r', 0), ('r', 4), ('r', 0)].take 3)).mL2 ≤
      ((Simulator.new 100 2 1 4 0 1 5 1 10).run
        ([('r', 0), ('r', 0), ('r', 4), ('r', 0)].take 3)).nL2 :=
  ⟨⟨by decide, by decide, by decide⟩,
    (cycles_closed_form 100 2 1 4 0 1 5 1 10 [('r', 0), ('r', 0), ('r', 4), ('r', 0)] 3
      (by decide) (by decide) (by decide)).2.1⟩

/-! ## Further results: the write-back probe -/

theorem Simulator.access_eq_fillL1_wbState (s : Simulator) (op : Char) (a : Nat)
    (hmiss : (s.L1.probe a).hit = false)
    (halloc : (isWrite op && s.wrAlloc == 0) = false) :
    s.access op a =
      (if (s.L2.probe a).hit then
        { (s.wbState a).fillL1 (isWrite op) (s.L1.probe a) with
          L2 := ((s.wbState a).fillL1 (isWrite op) (s.L1.probe a)).L2.updateLRU
            (s.L2.probe a).set (s.L2.probe a).ln }
      else (s.wbState a).fillL1 (isWrite op) (s.L1.probe a)) := by
  rw [Simulator.access_allocate s op a hmiss halloc]
  cases h2 : (s.L2.probe a).hit with
  | true =>
    rw [Simulator.allocate_hit
      { s with nL1 := (s.nL1 + 1) % 2 ^ 64, mL1 := (s.mL1 + 1) % 2 ^ 64 } _ _ _ h2]
    have hw : s.wbState a =
        { s with nL1 := (s.nL1 + 1) % 2 ^ 64, mL1 := (s.mL1 + 1) % 2 ^ 64,
                 nL2 := (s.nL2 + 1) % 2 ^ 64,
                 cycles := (s.cycles + (s.tL1 + s.tL2) % 2 ^ 32) % 2 ^ 64 } := by
      unfold Simulator.wbState
      dsimp only
      rw [if_pos h2]
    rw [hw]
    rfl
  | false =>
    rw [Simulator.allocate_miss
      { s with nL1 := (s.nL1 + 1) % 2 ^ 64, mL1 := (s.mL1 + 1) % 2 ^ 64 } _ _ _ h2]
    have hw : s.wbState a =
        Simulator.fillL2
          { s with nL1 := (s.nL1 + 1) % 2 ^ 64, mL1 := (s.mL1 + 1) % 2 ^ 64,
                   nL2 := (s.nL2 + 1) % 2 ^ 64, mL2 := (s.mL2 + 1) % 2 ^ 64,
                   cycles := (s.cycles + (s.tL1 + s.tL2 + s.memC) % 2 ^ 32) % 2 ^ 64 }
          (s.L2.probe a) := by
      unfold Simulator.wbState
      dsimp only
      rw [if_neg (by simp [h2])]
    rw [hw]
    rfl

theorem Simulator.Inv.wbState {s : Simulator} (h : s.Inv) {a : Nat} (ha : a < 2 ^ 64) :
    (s.wbState a).Inv := by
  unfold Simulator.wbState
  dsimp only
  cases h2 : (s.L2.probe a).hit with
  | true =>
    rw [if_pos rfl]
    exact h.of_eq rfl rfl rfl
  | false =>
    rw [if_neg (by simp)]
    have hsC : Simulator.Inv
        { s with nL1 := (s.nL1 + 1) % 2 ^ 64, mL1 := (s.mL1 + 1) % 2 ^ 64,
                 nL2 := (s.nL2 + 1) % 2 ^ 64, mL2 := (s.mL2 + 1) % 2 ^ 64,
                 cycles := (s.cycles + (s.tL1 + s.tL2 + s.memC) % 2 ^ 32) % 2 ^ 64 } :=
      h.of_eq rfl rfl rfl
    exact (hsC.fillL2 ha h2).1

/-- C19, the write-back probe always hits: in a state reached from a fresh simulator with
at least one set per level by 64-bit accesses, an allocating access to a 64-bit address is
`fillL1` run on the state `wbState` (followed, on an L2 hit, by the recency update of the L2
row), and `fillL1` calls `writeBackL1` on the line of the chosen L1 slot; when that line is
valid and dirty, the L2 probe made by `writeBackL1` hits, so `writeBackL1` only sets the
dirty flag of the line found and refreshes the recency of its row: the miss branch is not
taken. -/
theorem write_back_probe_hits (m b w s1 a1 c1 s2 a2 c2 : Nat)
    (trace : List (Char × Nat)) (s : Simulator) (op : Char) (a : Nat)
    (hs : s = (Simulator.new m b w s1 a1 c1 s2 a2 c2).run trace)
    (h1 : 1 ≤ (Simulator.new m b w s1 a1 c1 s2 a2 c2).L1.sets)
    (h2 : 1 ≤ (Simulator.new m b w s1 a1 c1 s2 a2 c2).L2.sets)
    (haddr : ∀ e ∈ trace, e.2 < 2 ^ 64) (ha : a < 2 ^ 64)
    (hmiss : (s.L1.probe a).hit = false)
    (halloc : (isWrite op && s.wrAlloc == 0) = false)
    (hv : ((s.wbState a).L1.lineAt (s.L1.probe a).set (s.L1.probe a).ln).valid = true)
    (hd : ((s.wbState a).L1.lineAt (s.L1.probe a).set (s.L1.probe a).ln).dirty = true) :
    s.access op a =
      (if (s.L2.probe a).hit then
        { (s.wbState a).fillL1 (isWrite op) (s.L1.probe a) with
          L2 := ((s.wbState a).fillL1 (isWrite op) (s.L1.probe a)).L2.updateLRU
            (s.L2.probe a).set (s.L2.probe a).ln }
      else (s.wbState a).fillL1 (isWrite op) (s.L1.probe a)) ∧
    ((s.wbState a).wbRes
      ((s.wbState a).L1.lineAt (s.L1.probe a).set (s.L1.probe a).ln).tag
      (s.L1.probe a).set).hit = true ∧
    (s.wbState a).writeBackL1
        ((s.wbState a).L1.lineAt (s.L1.probe a).set (s.L1.probe a).ln) (s.L1.probe a).set =
      { s.wbState a with
        L2 := Cache.updateLRU
          ((s.wbState a).L2.modifyLine
            ((s.wbState a).wbRes
              ((s.wbState a).L1.lineAt (s.L1.probe a).set (s.L1.probe a).ln).tag
              (s.L1.probe a).set).set
            ((s.wbState a).wbRes
              ((s.wbState a).L1.lineAt (s.L1.probe a).set (s.L1.probe a).ln).tag
              (s.L1.probe a).set).ln
            (fun L => { L with dirty := true }))
          ((s.wbState a).wbRes
            ((s.wbState a).L1.lineAt (s.L1.probe a).set (s.L1.probe a).ln).tag
            (s.L1.probe a).set).set
          ((s.wbState a).wbRes
            ((s.wbState a).L1.lineAt (s.L1.probe a).set (s.L1.probe a).ln).tag
            (s.L1.probe a).set).ln } := by
  have hinv : s.Inv := by
    rw [hs]
    exact (Simulator.inv_new m b w s1 a1 c1 s2 a2 c2 h1 h2).run trace haddr
  have hw : (s.wbState a).Inv := hinv.wbState ha
  have hhit := (hw.wb_probe (Cache.vt_of_lineAt_valid hv)).1
  exact ⟨Simulator.access_eq_fillL1_wbState s op a hmiss halloc, hhit,
    Simulator.writeBackL1_hit _ _ _ hv hd hhit⟩

theorem write_back_probe_hits_witness :
    ((∀ e ∈ [('w', 0)], e.2 < 2 ^ 64) ∧ 16 < 2 ^ 64 ∧
      (((Simulator.new 100 2 1 4 0 1 5 1 10).run [('w', 0)]).L1.probe 16).hit = false ∧
      ((((Simulator.new 100 2 1 4 0 1 5 1 10).run [('w', 0)]).wbState 16).L1.lineAt 0 0).valid =
        true ∧
      ((((Simulator.new 100 2 1 4 0 1 5 1 10).run [('w', 0)]).wbState 16).L1.lineAt 0 0).dirty =
        true) ∧
    ((((Simulator.new 100 2 1 4 0 1 5 1 10).run [('w', 0)]).wbState 16).wbRes
      ((((Simulator.new 100 2 1 4 0 1 5 1 10).run [('w', 0)]).wbState 16).L1.lineAt
        (((Simulator.new 100 2 1 4 0 1 5 1 10).run [('w', 0)]).L1.probe 16).set
        (((Simulator.new 100 2 1 4 0 1 5 1 10).run [('w', 0)]).L1.probe 16).ln).tag
      (((Simulator.new 100 2 1 4 0 1 5 1 10).run [('w', 0)]).L1.probe 16).set).hit = true :=
  ⟨⟨by decide, by decide, by decide, by decide, by decide⟩,
    (write_back_probe_hits 100 2 1 4 0 1 5 1 10 [('w', 0)]
      ((Simulator.new 100 2 1 4 0 1 5 1 10).run [('w', 0)]) 'r' 16 rfl
      (by decide) (by decide) (by decide) (by decide) (by decide) (by decide) (by decide)
      (by decide)).2.1⟩

/-! ## Further results: configuration errors -/

theorem Config.set_eq_none_iff (cfg : Config) (k : String) (v : Nat) :
    cfg.set k v = none ↔ k ∉ configKeys := by
  unfold Config.set configKeys
  simp only [List.mem_cons, List.mem_singleton, List.not_mem_nil, or_false, not_or]
  constructor
  · intro h
    split_ifs at h
    refine ⟨?_, ?_, ?_, ?_, ?_, ?_, ?_, ?_, ?_⟩ <;> assumption
  · rintro ⟨h1, h2, h3, h4, h5, h6, h7, h8, h9⟩
    rw [if_neg h1, if_neg h2, if_neg h3, if_neg h4, if_neg h5, if_neg h6, if_neg h7,
      if_neg h8, if_neg h9]

theorem parseArgs_eq_none_aux (n : Nat) :
    ∀ (args : List String) (cfg : Config), args.length ≤ n →
      (parseArgs args cfg = none ↔ ∃ k ∈ examinedKeys args, k ∉ configKeys) := by
  induction n with
  | zero =>
    intro args cfg hlen
    cases args with
    | nil => simp [parseArgs, examinedKeys]
    | cons k r => simp at hlen
  | succ n ih =>
    intro args cfg hlen
    match args, hlen with
    | [], _ => simp [parseArgs, examinedKeys]
    | [k], _ => simp [parseArgs, examinedKeys]
    | k :: v :: rest, hlen =>
      have hrest : rest.length ≤ n := by
        simp only [List.length_cons] at hlen
        omega
      have hdef : parseArgs (k :: v :: rest) cfg =
          (match cfg.set k (atoi v) with
            | none => none
            | some c => parseArgs rest c) := rfl
      have hkeys : examinedKeys (k :: v :: rest) = k :: examinedKeys rest := rfl
      rw [hdef, hkeys]
      cases hset : cfg.set k (atoi v) with
      | none =>
        have hk := (Config.set_eq_none_iff cfg k (atoi v)).mp hset
        simp only [true_iff]
        exact ⟨k, List.mem_cons_self _ _, hk⟩
      | some c =>
        have hk : ¬ k ∉ configKeys := fun hk => by
          rw [(Config.set_eq_none_iff cfg k (atoi v)).mpr hk] at hset
          cases hset
        simp only [ih rest c hrest, List.mem_cons]
        constructor
        · rintro ⟨k', hk', hn⟩
          exact ⟨k', Or.inr hk', hn⟩
        · rintro ⟨k', hk' | hk', hn⟩
          · rw [hk'] at hn
            exact absurd hn hk
          · exact ⟨k', hk', hn⟩

theorem parseArgs_eq_none_iff (args : List String) (cfg : Config) :
    parseArgs args cfg = none ↔ ∃ k ∈ examinedKeys args, k ∉ configKeys :=
  parseArgs_eq_none_aux args.length args cfg (Nat.le_refl _)

theorem examinedKeys_length_aux (n : Nat) :
    ∀ (args : List String), args.length ≤ n →
      (examinedKeys args).length = args.length / 2 := by
  induction n with
  | zero =>
    intro args hlen
    cases args with
    | nil => rfl
    | cons k r => simp at hlen
  | succ n ih =>
    intro args hlen
    match args, hlen with
    | [], _ => rfl
    | [k], _ => simp [examinedKeys]
    | k :: v :: rest, hlen =>
      have hrest : rest.length ≤ n := by
        simp only [List.length_cons] at hlen
        omega
      have hkeys : examinedKeys (k :: v :: rest) = k :: examinedKeys rest := rfl
      rw [hkeys, List.length_cons, ih rest hrest]
      simp only [List.length_cons]
      omega

theorem examinedKeys_length (args : List String) :
    (examinedKeys args).length = args.length / 2 :=
  examinedKeys_length_aux args.length args (Nat.le_refl _)

theorem main_exit_of_parse_none (argv : List String)
    (file : String → Option (List (Char × Nat)))
    (h : argv.length < 20 ∨ parseArgs (argv.drop 2) ⟨0, 0, 0, 0, 0, 0, 0, 0, 0⟩ = none) :
    (main argv file).exitCode = 1 ∧ (main argv file).processed = 0 := by
  unfold main
  by_cases hlen : argv.length < 20
  · rw [if_pos hlen]
    exact ⟨rfl, rfl⟩
  · rw [if_neg hlen]
    rcases h with h | h
    · exact absurd h hlen
    · rw [h]
      exact ⟨rfl, rfl⟩

/-- C15 as stated fails. With 19 arguments after the program name in which `--mem-cyc`
occurs twice and `--bsize` does not occur, and a trace file holding the one access `r 0x0`,
`main` returns 0 after one call of `access`: the missing parameter keeps its initial value
0. With all nine pairs and a further argument `--bogus` in key position 20, which has no
value after it, `main` also returns 0 after one call of `access`. -/
theorem missing_parameter_accepted :
    ("--bsize" ∈ configKeys ∧
      "--bsize" ∉ ["cacheSim", "t.in", "--mem-cyc", "100", "--mem-cyc", "100", "--wr-alloc",
        "1", "--l1-size", "4", "--l1-assoc", "0", "--l1-cyc", "1", "--l2-size", "5",
        "--l2-assoc", "1", "--l2-cyc", "10"] ∧
      (main ["cacheSim", "t.in", "--mem-cyc", "100", "--mem-cyc", "100", "--wr-alloc",
        "1", "--l1-size", "4", "--l1-assoc", "0", "--l1-cyc", "1", "--l2-size", "5",
        "--l2-assoc", "1", "--l2-cyc", "10"] (fun _ => some [('r', 0)])).exitCode = 0 ∧
      (main ["cacheSim", "t.in", "--mem-cyc", "100", "--mem-cyc", "100", "--wr-alloc",
        "1", "--l1-size", "4", "--l1-assoc", "0", "--l1-cyc", "1", "--l2-size", "5",
        "--l2-assoc", "1", "--l2-cyc", "10"] (fun _ => some [('r', 0)])).processed = 1) ∧
    ("--bogus" ∉ configKeys ∧
      ["cacheSim", "t.in", "--mem-cyc", "100", "--bsize", "2", "--wr-alloc",
        "1", "--l1-size", "4", "--l1-assoc", "0", "--l1-cyc", "1", "--l2-size", "5",
        "--l2-assoc", "1", "--l2-cyc", "10", "--bogus"][20]? = some "--bogus" ∧
      (main ["cacheSim", "t.in", "--mem-cyc", "100", "--bsize", "2", "--wr-alloc",
        "1", "--l1-size", "4", "--l1-assoc", "0", "--l1-cyc", "1", "--l2-size", "5",
        "--l2-assoc", "1", "--l2-cyc", "10", "--bogus"]
        (fun _ => some [('r', 0)])).exitCode = 0 ∧
      (main ["cacheSim", "t.in", "--mem-cyc", "100", "--bsize", "2", "--wr-alloc",
        "1", "--l1-size", "4", "--l1-assoc", "0", "--l1-cyc", "1", "--l2-size", "5",
        "--l2-assoc", "1", "--l2-cyc", "10", "--bogus"]
        (fun _ => some [('r', 0)])).processed = 1) := by
  refine ⟨⟨by decide, by decide, by decide, by decide⟩, by decide, by decide, by decide,
    by decide⟩

/-- C15 amended, configuration errors are fatal: `main` returns 1 without any call of
`access` when there are fewer than 20 arguments (program name included), or when one of the
arguments in key position that has a value after it (positions 2, 4, ... with a successor) is
not one of the nine keys, or when those arguments are pairwise distinct and one of the nine
keys is not among them. -/
theorem config_errors_fatal (argv : List String)
    (file : String → Option (List (Char × Nat)))
    (h : argv.length < 20 ∨ (∃ k ∈ examinedKeys (argv.drop 2), k ∉ configKeys) ∨
      ((examinedKeys (argv.drop 2)).Nodup ∧
        ∃ k ∈ configKeys, k ∉ examinedKeys (argv.drop 2))) :
    (main argv file).exitCode = 1 ∧ (main argv file).processed = 0 := by
  apply main_exit_of_parse_none
  by_cases hlen : argv.length < 20
  · exact Or.inl hlen
  · right
    rw [parseArgs_eq_none_iff]
    by_cases hbad : ∃ k ∈ examinedKeys (argv.drop 2), k ∉ configKeys
    · exact hbad
    · rcases h with h | h | ⟨hnd, k, hk, hnk⟩
      · exact absurd h hlen
      · exact h
      · exfalso
        have hsub : examinedKeys (argv.drop 2) ⊆ configKeys := by
          intro k' hk'
          by_contra hn
          exact hbad ⟨k', hk', hn⟩
        have hl : configKeys.length ≤ (examinedKeys (argv.drop 2)).length := by
          rw [examinedKeys_length, List.length_drop]
          show 9 ≤ _
          omega
        have hperm := (List.subperm_of_subset hnd hsub).perm_of_length_le hl
        exact hnk (hperm.mem_iff.mpr hk)

theorem config_errors_fatal_witness :
    (∃ k ∈ examinedKeys (["cacheSim", "t.in", "--mem-cyc", "100", "--block", "2", "--wr-alloc",
        "1", "--l1-size", "4", "--l1-assoc", "0", "--l1-cyc", "1", "--l2-size", "5",
        "--l2-assoc", "1", "--l2-cyc", "10"].drop 2), k ∉ configKeys) ∧
    (main ["cacheSim", "t.in", "--mem-cyc", "100", "--block", "2", "--wr-alloc",
        "1", "--l1-size", "4", "--l1-assoc", "0", "--l1-cyc", "1", "--l2-size", "5",
        "--l2-assoc", "1", "--l2-cyc", "10"] (fun _ => some [('r', 0)])).exitCode = 1 :=
  ⟨⟨"--block", by decide, by decide⟩,
    (config_errors_fatal ["cacheSim", "t.in", "--mem-cyc", "100", "--block", "2", "--wr-alloc",
        "1", "--l1-size", "4", "--l1-assoc", "0", "--l1-cyc", "1", "--l2-size", "5",
        "--l2-assoc", "1", "--l2-cyc", "10"] (fun _ => some [('r', 0)])
      (Or.inr (Or.inl ⟨"--block", by decide, by decide⟩))).1⟩

/-! ## Further results: recency values -/

theorem Cache.LruOK.mono {c : Cache} {k k' : Nat} (h : c.LruOK k) (hk : k ≤ k') :
    c.LruOK k' :=
  ⟨fun i w L hL hv => Nat.le_trans (h.1 i w L hL hv) hk, h.2⟩

theorem Cache.LruOK.of_sub {c c' : Cache} {k : Nat} (hs : c'.LruSub c) (h : c.LruOK k) :
    c'.LruOK k := by
  refine ⟨fun i w L' hL' hv' => ?_, fun i w w' L1 L2 h1 h2 v1 v2 heq => ?_⟩
  · obtain ⟨L, hL, hv, hl⟩ := hs i w L' hL' hv'
    rw [← hl]
    exact h.1 i w L hL hv
  · obtain ⟨M1, hM1, hv1, hl1⟩ := hs i w L1 h1 v1
    obtain ⟨M2, hM2, hv2, hl2⟩ := hs i w' L2 h2 v2
    exact h.2 i w w' M1 M2 hM1 hM2 hv1 hv2 (by rw [hl1, hl2, heq])

theorem Cache.lruSub_refl (c : Cache) : c.LruSub c :=
  fun _ _ L hL hv => ⟨L, hL, hv, rfl⟩

theorem Cache.eqOff_refl (c : Cache) (i w : Nat) : c.EqOff c i w :=
  fun _ _ _ => rfl

theorem Cache.eqOff_modifyLine (c : Cache) (i w : Nat) (f : Line → Line) :
    (c.modifyLine i w f).EqOff c i w := by
  intro j v hne
  rw [Cache.line?_modifyLine, if_neg]
  rintro ⟨rfl, rfl⟩
  exact hne ⟨rfl, rfl⟩

/-- One recency update keeps the `lru` values of a row distinct and raises the bound by
one, as long as no value wraps; the line the update resets may have been overwritten just
before. -/
theorem Cache.LruOK.updateLRU_of_eqOff {c c1 : Cache} {k i w : Nat} (h : c.LruOK k)
    (he : c1.EqOff c i w) (hk : k + 1 < 2 ^ 32) : (c1.updateLRU i w).LruOK (k + 1) := by
  have key : ∀ (j v : Nat) (L : Line), (c1.updateLRU i w).line? j v = some L →
      L.valid = true →
      (j = i ∧ v = w ∧ L.lru = 0) ∨
      (¬ (j = i ∧ v = w) ∧ ∃ L0, c.line? j v = some L0 ∧ L0.valid = true ∧
        ((j = i ∧ L.lru = L0.lru + 1) ∨ (j ≠ i ∧ L.lru = L0.lru))) := by
    intro j v L hL hv
    rw [Cache.line?_updateLRU] at hL
    cases h1 : c1.line? j v with
    | none => rw [h1] at hL; cases hL
    | some L1 =>
      rw [h1] at hL
      simp only [Option.map_some', Option.some.injEq] at hL
      by_cases hij : i = j
      · by_cases hwv : w = v
        · left
          rw [if_pos hij, if_pos hwv] at hL
          rw [← hL]
          exact ⟨hij.symm, hwv.symm, rfl⟩
        · right
          have hne : ¬ (j = i ∧ v = w) := fun hh => hwv hh.2.symm
          rw [if_pos hij, if_neg hwv] at hL
          rw [he j v hne] at h1
          have hv1 : L1.valid = true := by rw [← hL] at hv; exact hv
          have hb := h.1 j v L1 h1 hv1
          refine ⟨hne, L1, h1, hv1, Or.inl ⟨hij.symm, ?_⟩⟩
          rw [← hL]
          exact Nat.mod_eq_of_lt (by omega)
      · right
        have hne : ¬ (j = i ∧ v = w) := fun hh => hij hh.1.symm
        rw [if_neg hij] at hL
        rw [he j v hne] at h1
        rw [hL] at h1
        exact ⟨hne, L, h1, hv, Or.inr ⟨fun hh => hij hh.symm, rfl⟩⟩
  refine ⟨fun j v L hL hv => ?_, fun j v v' L L' hL hL' hv hv' heq => ?_⟩
  · rcases key j v L hL hv with ⟨-, -, h0⟩ | ⟨-, L0, hL0, hv0, ⟨-, hl⟩ | ⟨-, hl⟩⟩
    · omega
    · have := h.1 j v L0 hL0 hv0
      omega
    · have := h.1 j v L0 hL0 hv0
      omega
  · rcases key j v L hL hv with ⟨hj, hvw, h0⟩ | ⟨hne, L0, hL0, hv0, hcase⟩
    · rcases key j v' L' hL' hv' with ⟨-, hvw', -⟩ | ⟨hne', L0', hL0', hv0', hcase'⟩
      · rw [hvw, hvw']
      · rcases hcase' with ⟨-, hl'⟩ | ⟨hji, -⟩
        · omega
        · exact absurd hj hji
    · rcases key j v' L' hL' hv' with ⟨hj', hvw', h0'⟩ | ⟨hne', L0', hL0', hv0', hcase'⟩
      · rcases hcase with ⟨-, hl⟩ | ⟨hji, -⟩
        · omega
        · exact absurd hj' hji
      · apply h.2 j v v' L0 L0' hL0 hL0' hv0 hv0'
        rcases hcase with ⟨hji, hl⟩ | ⟨hji, hl⟩ <;>
          rcases hcase' with ⟨hji', hl'⟩ | ⟨hji', hl'⟩
        · omega
        · exact absurd hji hji'
        · exact absurd hji' hji
        · omega

theorem Cache.LruOK.updateLRU {c : Cache} {k : Nat} (h : c.LruOK k) (i w : Nat)
    (hk : k + 1 < 2 ^ 32) : (c.updateLRU i w).LruOK (k + 1) :=
  h.updateLRU_of_eqOff (Cache.eqOff_refl c i w) hk

theorem Cache.LruOK.modify_updateLRU {c : Cache} {k : Nat} (h : c.LruOK k) (i w : Nat)
    (f : Line → Line) (hk : k + 1 < 2 ^ 32) :
    ((c.modifyLine i w f).updateLRU i w).LruOK (k + 1) :=
  h.updateLRU_of_eqOff (Cache.eqOff_modifyLine c i w f) hk

theorem Simulator.lruSub_invalidateL1 (s : Simulator) (t2 i2 : Nat) :
    (s.invalidateL1 t2 i2).L1.LruSub s.L1 := by
  intro j v L' hL' hv'
  rw [Simulator.line?_invalidateL1] at hL'
  cases h1 : s.L1.line? j v with
  | none => rw [h1] at hL'; cases hL'
  | some L =>
    rw [h1] at hL'
    simp only [Option.map_some', Option.some.injEq] at hL'
    split_ifs at hL' with hc
    · rw [← hL'] at hv'
      cases hv'
    · rw [← hL']
      rw [← hL'] at hv'
      exact ⟨L, rfl, hv', rfl⟩

theorem Simulator.writeBackL1_lru (s : Simulator) (old : Line) (i : Nat) :
    (s.writeBackL1 old i).L1.LruSub s.L1 ∧
    ∀ (k : Nat), s.L2.LruOK k → k + 1 < 2 ^ 32 → (s.writeBackL1 old i).L2.LruOK (k + 1) := by
  unfold Simulator.writeBackL1
  split
  · exact ⟨Cache.lruSub_refl _, fun k h _ => h.mono (Nat.le_succ _)⟩
  · dsimp only
    split
    · split
      · exact ⟨Simulator.lruSub_invalidateL1 s _ _,
          fun k h hk => h.modify_updateLRU _ _ _ hk⟩
      · exact ⟨Cache.lruSub_refl _, fun k h hk => h.modify_updateLRU _ _ _ hk⟩
    · exact ⟨Cache.lruSub_refl _, fun k h hk => h.modify_updateLRU _ _ _ hk⟩

theorem Simulator.fillL1_lru (s : Simulator) (isW : Bool) (r1 : Res) :
    (∀ (k : Nat), s.L1.LruOK k → k + 1 < 2 ^ 32 → (s.fillL1 isW r1).L1.LruOK (k + 1)) ∧
    ∀ (k : Nat), s.L2.LruOK k → k + 1 < 2 ^ 32 → (s.fillL1 isW r1).L2.LruOK (k + 1) := by
  obtain ⟨h1, h2⟩ := s.writeBackL1_lru (s.L1.lineAt r1.set r1.ln) r1.set
  exact ⟨fun k h hk => (Cache.LruOK.of_sub h1 h).modify_updateLRU _ _ _ hk, h2⟩

theorem Simulator.fillL2_lru (s : Simulator) (r2 : Res) :
    (s.fillL2 r2).L1.LruSub s.L1 ∧
    ∀ (k : Nat), s.L2.LruOK k → k + 1 < 2 ^ 32 → (s.fillL2 r2).L2.LruOK (k + 1) := by
  unfold Simulator.fillL2
  dsimp only
  split
  · exact ⟨Simulator.lruSub_invalidateL1 s _ _, fun k h hk => h.modify_updateLRU _ _ _ hk⟩
  · exact ⟨Cache.lruSub_refl _, fun k h hk => h.modify_updateLRU _ _ _ hk⟩

theorem Simulator.hitL1_lru (s : Simulator) (isW : Bool) (r1 : Res) :
    (∀ (k : Nat), s.L1.LruOK k → k + 1 < 2 ^ 32 → (s.hitL1 isW r1).L1.LruOK (k + 1)) ∧
    (s.hitL1 isW r1).L2 = s.L2 := by
  unfold Simulator.hitL1
  dsimp only
  split
  · exact ⟨fun k h hk => h.modify_updateLRU _ _ _ hk, rfl⟩
  · exact ⟨fun k h hk => h.updateLRU _ _ hk, rfl⟩

theorem Simulator.writeAround_lru (s : Simulator) (a : Nat) :
    (s.writeAround a).L1 = s.L1 ∧
    ∀ (k : Nat), s.L2.LruOK k → k + 1 < 2 ^ 32 → (s.writeAround a).L2.LruOK (k + 1) := by
  unfold Simulator.writeAround
  dsimp only
  split
  · exact ⟨rfl, fun k h hk => h.modify_updateLRU _ _ _ hk⟩
  · exact ⟨rfl, fun k h _ => h.mono (Nat.le_succ _)⟩

theorem Simulator.allocHit_lru (s : Simulator) (isW : Bool) (r1 r2 : Res) :
    (∀ (k : Nat), s.L1.LruOK k → k + 1 < 2 ^ 32 → (s.allocHit isW r1 r2).L1.LruOK (k + 1)) ∧
    ∀ (k : Nat), s.L2.LruOK k → k + 2 < 2 ^ 32 → (s.allocHit isW r1 r2).L2.LruOK (k + 2) := by
  have hf := Simulator.fillL1_lru
    { s with cycles := (s.cycles + (s.tL1 + s.tL2) % 2 ^ 32) % 2 ^ 64 } isW r1
  refine ⟨fun k h hk => hf.1 k h hk, fun k h hk => ?_⟩
  have h3 := (hf.2 k h (by omega)).updateLRU r2.set r2.ln (by omega)
  exact h3

theorem Simulator.allocMiss_lru (s : Simulator) (isW : Bool) (r1 r2 : Res) :
    (∀ (k : Nat), s.L1.LruOK k → k + 1 < 2 ^ 32 → (s.allocMiss isW r1 r2).L1.LruOK (k + 1)) ∧
    ∀ (k : Nat), s.L2.LruOK k → k + 2 < 2 ^ 32 → (s.allocMiss isW r1 r2).L2.LruOK (k + 2) := by
  have h2 := Simulator.fillL2_lru
    { s with mL2 := (s.mL2 + 1) % 2 ^ 64,
             cycles := (s.cycles + (s.tL1 + s.tL2 + s.memC) % 2 ^ 32) % 2 ^ 64 } r2
  have hf := Simulator.fillL1_lru
    (Simulator.fillL2
      { s with mL2 := (s.mL2 + 1) % 2 ^ 64,
               cycles := (s.cycles + (s.tL1 + s.tL2 + s.memC) % 2 ^ 32) % 2 ^ 64 } r2) isW r1
  refine ⟨fun k h hk => ?_, fun k h hk => ?_⟩
  · exact hf.1 k (Cache.LruOK.of_sub h2.1 h) hk
  · have h3 := hf.2 (k + 1) (h2.2 k h (by omega)) (by omega)
    exact h3

theorem Simulator.allocate_lru (s : Simulator) (isW : Bool) (a : Nat) (r1 : Res) :
    (∀ (k : Nat), s.L1.LruOK k → k + 1 < 2 ^ 32 → (s.allocate isW a r1).L1.LruOK (k + 1)) ∧
    ∀ (k : Nat), s.L2.LruOK k → k + 2 < 2 ^ 32 → (s.allocate isW a r1).L2.LruOK (k + 2) := by
  cases h : (s.L2.probe a).hit with
  | true =>
    rw [Simulator.allocate_hit s isW a r1 h]
    exact Simulator.allocHit_lru { s with nL2 := (s.nL2 + 1) % 2 ^ 64 } isW r1 (s.L2.probe a)
  | false =>
    rw [Simulator.allocate_miss s isW a r1 h]
    exact Simulator.allocMiss_lru { s with nL2 := (s.nL2 + 1) % 2 ^ 64 } isW r1 (s.L2.probe a)

theorem Simulator.access_lru (s : Simulator) (op : Char) (a : Nat) :
    (∀ (k : Nat), s.L1.LruOK k → k + 1 < 2 ^ 32 → (s.access op a).L1.LruOK (k + 1)) ∧
    ∀ (k : Nat), s.L2.LruOK k → k + 2 < 2 ^ 32 → (s.access op a).L2.LruOK (k + 2) := by
  cases h1 : (s.L1.probe a).hit with
  | true =>
    rw [Simulator.access_hit s op a h1]
    obtain ⟨g1, g2⟩ := Simulator.hitL1_lru
      { s with nL1 := (s.nL1 + 1) % 2 ^ 64 } (isWrite op) (s.L1.probe a)
    refine ⟨g1, fun k h _ => ?_⟩
    rw [g2]
    exact h.mono (by omega)
  | false =>
    cases hw : (isWrite op && s.wrAlloc == 0) with
    | true =>
      rw [Simulator.access_around s op a h1 hw]
      obtain ⟨g1, g2⟩ := Simulator.writeAround_lru
        { s with nL1 := (s.nL1 + 1) % 2 ^ 64, mL1 := (s.mL1 + 1) % 2 ^ 64 } a
      refine ⟨fun k h _ => ?_, fun k h hk => (g2 k h (by omega)).mono (by omega)⟩
      rw [g1]
      exact h.mono (by omega)
    | false =>
      rw [Simulator.access_allocate s op a h1 hw]
      exact Simulator.allocate_lru
        { s with nL1 := (s.nL1 + 1) % 2 ^ 64, mL1 := (s.mL1 + 1) % 2 ^ 64 } (isWrite op) a
        (s.L1.probe a)

theorem Simulator.run_lru (trace : List (Char × Nat)) (s : Simulator) :
    (∀ (k : Nat), s.L1.LruOK k → k + trace.length < 2 ^ 32 →
      (s.run trace).L1.LruOK (k + trace.length)) ∧
    ∀ (k : Nat), s.L2.LruOK k → k + 2 * trace.length < 2 ^ 32 →
      (s.run trace).L2.LruOK (k + 2 * trace.length) := by
  induction trace generalizing s with
  | nil => exact ⟨fun k h _ => h, fun k h _ => h⟩
  | cons e rest ih =>
    obtain ⟨a1, a2⟩ := s.access_lru e.1 e.2
    obtain ⟨i1, i2⟩ := ih (s.access e.1 e.2)
    rw [Simulator.run_cons]
    simp only [List.length_cons]
    refine ⟨fun k h hk => ?_, fun k h hk => ?_⟩
    · have := i1 (k + 1) (a1 k h (by omega)) (by omega)
      rw [show k + (rest.length + 1) = k + 1 + rest.length by omega]
      exact this
    · have := i2 (k + 2) (a2 k h (by omega)) (by omega)
      rw [show k + 2 * (rest.length + 1) = k + 2 + 2 * rest.length by omega]
      exact this

theorem Cache.lruOK_new (s a b : Nat) : (Cache.new s a b).LruOK 0 := by
  have hv : ∀ (i w : Nat) (L : Line), (Cache.new s a b).line? i w = some L →
      L.valid = true → False := by
    intro i w L hL hv
    have := Cache.vt_of_line? hL
    rw [hv] at this
    exact Cache.vt_new _ _ _ i w L.tag this
  exact ⟨fun i w L hL hv' => (hv i w L hL hv').elim,
    fun i w w' L L' hL _ hv' _ _ => (hv i w L hL hv').elim⟩

/-! ### A row of L2 whose recency values collide -/

theorem lruState_round (z q : Nat) :
    (((lruState z q).access 'w' 4).access 'w' 8).L1 = lruL1 ∧
    (((lruState z q).access 'w' 4).access 'w' 8).L2 =
      lruL2 ((z + 4) % 2 ^ 32) ((q + 4) % 2 ^ 32) := by
  simp [lruState, lruL1, lruL2, Simulator.access, Simulator.allocate, Simulator.allocHit,
    Simulator.allocMiss, Simulator.fillL1, Simulator.fillL2, Simulator.writeBackL1,
    Simulator.hitL1, Simulator.writeAround, Cache.probe, findHit, findFree, Cache.row,
    Cache.updateLRU, Cache.modifyLine, Cache.lineAt, Cache.line?, isWrite, Line.fresh,
    Nat.shiftRight_eq_div_pow, Nat.shiftLeft_eq, maxElement, maxElementLoop,
    Simulator.invalidateL1, invalidateFirst]

theorem lruState_last (z q : Nat) :
    ((lruState z q).access 'w' 4).L2 =
      ⟨1, 4, 2, [[⟨true, true, 0, (z + 2) % 2 ^ 32⟩, ⟨true, true, 1, 0⟩, ⟨true, true, 2, 1⟩,
        ⟨false, false, 0, (q + 2) % 2 ^ 32⟩]]⟩ := by
  simp [lruState, lruL1, lruL2, Simulator.access, Simulator.allocate, Simulator.allocHit,
    Simulator.allocMiss, Simulator.fillL1, Simulator.fillL2, Simulator.writeBackL1,
    Simulator.hitL1, Simulator.writeAround, Cache.probe, findHit, findFree, Cache.row,
    Cache.updateLRU, Cache.modifyLine, Cache.lineAt, Cache.line?, isWrite, Line.fresh,
    Nat.shiftRight_eq_div_pow, Nat.shiftLeft_eq, maxElement, maxElementLoop,
    Simulator.invalidateL1, invalidateFirst]

theorem Simulator.cacheEq_lruState {s : Simulator} {z q : Nat} (h1 : s.L1 = lruL1)
    (h2 : s.L2 = lruL2 z q) (hb : s.blkB = 2) : s.CacheEq (lruState z q) :=
  ⟨h1, h2, hb⟩

theorem Simulator.round_lru (s : Simulator) (z q : Nat) (h1 : s.L1 = lruL1)
    (h2 : s.L2 = lruL2 z q) (hb : s.blkB = 2) (hw : s.wrAlloc = 1) :
    ((s.access 'w' 4).access 'w' 8).L1 = lruL1 ∧
    ((s.access 'w' 4).access 'w' 8).L2 = lruL2 ((z + 4) % 2 ^ 32) ((q + 4) % 2 ^ 32) ∧
    ((s.access 'w' 4).access 'w' 8).blkB = 2 ∧
    ((s.access 'w' 4).access 'w' 8).wrAlloc = 1 := by
  have hce := Simulator.cacheEq_lruState h1 h2 hb
  have hw0 : s.wrAlloc = (lruState z q).wrAlloc := hw
  have c1 := hce.access_congr hw0 'w' 4
  have hw1 : (s.access 'w' 4).wrAlloc = ((lruState z q).access 'w' 4).wrAlloc := by
    rw [(s.access_scalars 'w' 4).2.2.1, ((lruState z q).access_scalars 'w' 4).2.2.1]
    exact hw0
  have c2 := c1.access_congr hw1 'w' 8
  obtain ⟨r1, r2⟩ := lruState_round z q
  refine ⟨c2.1.trans r1, c2.2.1.trans r2, ?_, ?_⟩
  · rw [((s.access 'w' 4).access_scalars 'w' 8).2.1, (s.access_scalars 'w' 4).2.1]
    exact hb
  · rw [((s.access 'w' 4).access_scalars 'w' 8).2.2.1, (s.access_scalars 'w' 4).2.2.1]
    exact hw

theorem Simulator.run_lruRounds (n : Nat) :
    ∀ (s : Simulator) (z q : Nat), z < 2 ^ 32 → q < 2 ^ 32 → s.L1 = lruL1 →
      s.L2 = lruL2 z q → s.blkB = 2 → s.wrAlloc = 1 →
      (s.run (lruRounds n)).L1 = lruL1 ∧
      (s.run (lruRounds n)).L2 = lruL2 ((z + 4 * n) % 2 ^ 32) ((q + 4 * n) % 2 ^ 32) ∧
      (s.run (lruRounds n)).blkB = 2 ∧ (s.run (lruRounds n)).wrAlloc = 1 := by
  induction n with
  | zero =>
    intro s z q hz hq h1 h2 hb hw
    refine ⟨h1, ?_, hb, hw⟩
    rw [Nat.mul_zero, Nat.add_zero, Nat.add_zero, Nat.mod_eq_of_lt hz, Nat.mod_eq_of_lt hq]
    exact h2
  | succ n ih =>
    intro s z q hz hq h1 h2 hb hw
    obtain ⟨r1, r2, r3, r4⟩ := s.round_lru z q h1 h2 hb hw
    have hrun : s.run (lruRounds (n + 1)) =
        ((s.access 'w' 4).access 'w' 8).run (lruRounds n) := rfl
    obtain ⟨i1, i2, i3, i4⟩ := ih ((s.access 'w' 4).access 'w' 8) ((z + 4) % 2 ^ 32)
      ((q + 4) % 2 ^ 32) (Nat.mod_lt _ (by decide)) (Nat.mod_lt _ (by decide)) r1 r2 r3 r4
    rw [hrun]
    refine ⟨i1, ?_, i3, i4⟩
    rw [i2]
    have e1 : ((z + 4) % 2 ^ 32 + 4 * n) % 2 ^ 32 = (z + 4 * (n + 1)) % 2 ^ 32 := by omega
    have e2 : ((q + 4) % 2 ^ 32 + 4 * n) % 2 ^ 32 = (q + 4 * (n + 1)) % 2 ^ 32 := by omega
    rw [e1, e2]

theorem lruRounds_length (n : Nat) : (lruRounds n).length = 2 * n := by
  induction n with
  | zero => rfl
  | succ n ih =>
    show (lruRounds n).length + 1 + 1 = 2 * (n + 1)
    rw [ih]
    omega

/-- C20 as stated fails for L2. With an L1 of one line and an L2 of one set of four ways,
the trace `w 0x0, w 0x4, w 0x8, w 0x4, w 0x8`, then `2^30 - 2` times `w 0x4, w 0x8`, then
`w 0x4` has `2^31 + 2` accesses, fewer than `2^32`. Every access after the first updates
the recency of the L2 row twice (once in `writeBackL1`, once for the block accessed), so the
`lru` of block 0, never touched again, grows by 2 per access and wraps to 0 in the last
update, in which the block accessed is reset to 0 as well: the valid lines at ways 0 and 1
of the L2 row both have `lru = 0`. -/
theorem lru_values_collide :
    ([('w', 0), ('w', 4), ('w', 8), ('w', 4), ('w', 8)] ++ lruRounds (2 ^ 30 - 2) ++
      [('w', 4)]).length < 2 ^ 32 ∧
    1 ≤ (Simulator.new 100 2 1 2 0 1 4 2 10).L1.sets ∧
    1 ≤ (Simulator.new 100 2 1 2 0 1 4 2 10).L2.sets ∧
    ((Simulator.new 100 2 1 2 0 1 4 2 10).run
      ([('w', 0), ('w', 4), ('w', 8), ('w', 4), ('w', 8)] ++ lruRounds (2 ^ 30 - 2) ++
        [('w', 4)])).L2 =
      ⟨1, 4, 2, [[⟨true, true, 0, 0⟩, ⟨true, true, 1, 0⟩, ⟨true, true, 2, 1⟩,
        ⟨false, false, 0, 3⟩]]⟩ ∧
    ¬ ((Simulator.new 100 2 1 2 0 1 4 2 10).run
      ([('w', 0), ('w', 4), ('w', 8), ('w', 4), ('w', 8)] ++ lruRounds (2 ^ 30 - 2) ++
        [('w', 4)])).L2.LruDistinct := by
  have h5 : ((Simulator.new 100 2 1 2 0 1 4 2 10).run
        [('w', 0), ('w', 4), ('w', 8), ('w', 4), ('w', 8)]).L1 = lruL1 ∧
      ((Simulator.new 100 2 1 2 0 1 4 2 10).run
        [('w', 0), ('w', 4), ('w', 8), ('w', 4), ('w', 8)]).L2 = lruL2 6 9 ∧
      ((Simulator.new 100 2 1 2 0 1 4 2 10).run
        [('w', 0), ('w', 4), ('w', 8), ('w', 4), ('w', 8)]).blkB = 2 ∧
      ((Simulator.new 100 2 1 2 0 1 4 2 10).run
        [('w', 0), ('w', 4), ('w', 8), ('w', 4), ('w', 8)]).wrAlloc = 1 := by
    decide
  obtain ⟨p1, p2, p3, p4⟩ := h5
  obtain ⟨q1, q2, q3, q4⟩ := Simulator.run_lruRounds (2 ^ 30 - 2) _ 6 9 (by decide)
    (by decide) p1 p2 p3 p4
  have e1 : (6 + 4 * (2 ^ 30 - 2)) % 2 ^ 32 = 4294967294 := by norm_num
  have e2 : (9 + 4 * (2 ^ 30 - 2)) % 2 ^ 32 = 1 := by norm_num
  rw [e1, e2] at q2
  have hce := Simulator.cacheEq_lruState q1 q2 q3
  have hlast := (hce.access_congr q4 'w' 4).2.1
  rw [lruState_last] at hlast
  have e3 : (4294967294 + 2) % 2 ^ 32 = 0 := by norm_num
  have e4 : (1 + 2) % 2 ^ 32 = 3 := by norm_num
  rw [e3, e4] at hlast
  have hfinal : ((Simulator.new 100 2 1 2 0 1 4 2 10).run
      ([('w', 0), ('w', 4), ('w', 8), ('w', 4), ('w', 8)] ++ lruRounds (2 ^ 30 - 2) ++
        [('w', 4)])).L2 =
      ⟨1, 4, 2, [[⟨true, true, 0, 0⟩, ⟨true, true, 1, 0⟩, ⟨true, true, 2, 1⟩,
        ⟨false, false, 0, 3⟩]]⟩ := by
    have hone : ∀ (X : Simulator), X.run [('w', 4)] = X.access 'w' 4 := fun _ => rfl
    rw [Simulator.run_append, Simulator.run_append, hone]
    exact hlast
  refine ⟨?_, by decide, by decide, hfinal, ?_⟩
  · rw [List.length_append, List.length_append, lruRounds_length]
    norm_num
  · intro hd
    rw [hfinal] at hd
    have := hd 0 0 1 ⟨true, true, 0, 0⟩ ⟨true, true, 1, 0⟩ rfl rfl rfl rfl rfl
    cases this

theorem Cache.LruDistinct.victim_unique {c : Cache} (h : c.LruDistinct) (a : Nat)
    (hmiss : (c.probe a).hit = false)
    (hfull : ∀ L ∈ c.row (c.probe a).set, L.valid = true) (v : Nat) (L : Line)
    (hL : c.line? (c.probe a).set v = some L) :
    ∃ L0, c.line? (c.probe a).set (c.probe a).ln = some L0 ∧
      (v ≠ (c.probe a).ln → L.lru < L0.lru) := by
  have hfind : findHit ((a >>> c.blockB) / c.sets) (c.row ((a >>> c.blockB) % c.sets)) =
      none := by
    cases hf : findHit ((a >>> c.blockB) / c.sets) (c.row ((a >>> c.blockB) % c.sets)) with
    | none => rfl
    | some w => rw [(Cache.probe_of_findHit_some hf).1] at hmiss; cases hmiss
  rw [Cache.probe_set] at hfull hL ⊢
  have hfree : findFree (c.row ((a >>> c.blockB) % c.sets)) = none := by
    cases hf : findFree (c.row ((a >>> c.blockB) % c.sets)) with
    | none => rfl
    | some w =>
      obtain ⟨L1, hL1, hv1, -⟩ := findFree_some hf
      have := hfull L1 (List.getElem?_mem hL1)
      rw [hv1] at this
      cases this
  rw [(Cache.probe_of_findFree_none hfind hfree).2]
  have hne : c.row ((a >>> c.blockB) % c.sets) ≠ [] := by
    intro he
    unfold Cache.line? at hL
    rw [he] at hL
    cases hL
  obtain ⟨L0, hL0, hmax, -⟩ := maxElement_spec hne
  refine ⟨L0, hL0, fun hv => ?_⟩
  have hle := hmax v L hL
  have hneq : L.lru ≠ L0.lru := fun heq =>
    hv (h _ v _ L L0 hL hL0 (hfull L (List.getElem?_mem hL))
      (hfull L0 (List.getElem?_mem hL0)) heq)
  omega

/-- C20 amended, recency values of resident lines are distinct: after fewer than `2^32`
accesses on a freshly constructed simulator, in every row of L1 two valid lines at different
way positions have different `lru` values; after fewer than `2^31` accesses the same holds in
every row of L2. Hence, in such a state, when a probe misses in a row all of whose lines are
valid, the line it returns has an `lru` strictly larger than that of every other line of the
row: the victim is the unique line of maximal `lru`. -/
theorem lru_distinct (m b w s1 a1 c1 s2 a2 c2 : Nat) (trace : List (Char × Nat))
    (hlen : trace.length < 2 ^ 32) :
    ((Simulator.new m b w s1 a1 c1 s2 a2 c2).run trace).L1.LruDistinct ∧
    (trace.length < 2 ^ 31 →
      ((Simulator.new m b w s1 a1 c1 s2 a2 c2).run trace).L2.LruDistinct) ∧
    (∀ (a : Nat),
      (((Simulator.new m b w s1 a1 c1 s2 a2 c2).run trace).L1.probe a).hit = false →
      (∀ L ∈ ((Simulator.new m b w s1 a1 c1 s2 a2 c2).run trace).L1.row
          (((Simulator.new m b w s1 a1 c1 s2 a2 c2).run trace).L1.probe a).set,
        L.valid = true) →
      ∀ (v : Nat) (L : Line),
        ((Simulator.new m b w s1 a1 c1 s2 a2 c2).run trace).L1.line?
          (((Simulator.new m b w s1 a1 c1 s2 a2 c2).run trace).L1.probe a).set v = some L →
        ∃ L0, ((Simulator.new m b w s1 a1 c1 s2 a2 c2).run trace).L1.line?
            (((Simulator.new m b w s1 a1 c1 s2 a2 c2).run trace).L1.probe a).set
            (((Simulator.new m b w s1 a1 c1 s2 a2 c2).run trace).L1.probe a).ln = some L0 ∧
          (v ≠ (((Simulator.new m b w s1 a1 c1 s2 a2 c2).run trace).L1.probe a).ln →
            L.lru < L0.lru)) ∧
    (trace.length < 2 ^ 31 → ∀ (a : Nat),
      (((Simulator.new m b w s1 a1 c1 s2 a2 c2).run trace).L2.probe a).hit = false →
      (∀ L ∈ ((Simulator.new m b w s1 a1 c1 s2 a2 c2).run trace).L2.row
          (((Simulator.new m b w s1 a1 c1 s2 a2 c2).run trace).L2.probe a).set,
        L.valid = true) →
      ∀ (v : Nat) (L : Line),
        ((Simulator.new m b w s1 a1 c1 s2 a2 c2).run trace).L2.line?
          (((Simulator.new m b w s1 a1 c1 s2 a2 c2).run trace).L2.probe a).set v = some L →
        ∃ L0, ((Simulator.new m b w s1 a1 c1 s2 a2 c2).run trace).L2.line?
            (((Simulator.new m b w s1 a1 c1 s2 a2 c2).run trace).L2.probe a).set
            (((Simulator.new m b w s1 a1 c1 s2 a2 c2).run trace).L2.probe a).ln = some L0 ∧
          (v ≠ (((Simulator.new m b w s1 a1 c1 s2 a2 c2).run trace).L2.probe a).ln →
            L.lru < L0.lru)) := by
  obtain ⟨r1, r2⟩ := Simulator.run_lru trace (Simulator.new m b w s1 a1 c1 s2 a2 c2)
  have d1 : ((Simulator.new m b w s1 a1 c1 s2 a2 c2).run trace).L1.LruDistinct :=
    (r1 0 (Cache.lruOK_new s1 a1 b) (by omega)).2
  have d2 : trace.length < 2 ^ 31 →
      ((Simulator.new m b w s1 a1 c1 s2 a2 c2).run trace).L2.LruDistinct :=
    fun h => (r2 0 (Cache.lruOK_new s2 a2 b) (by omega)).2
  exact ⟨d1, d2, fun a hm hf v L hL => d1.victim_unique a hm hf v L hL,
    fun h a hm hf v L hL => (d2 h).victim_unique a hm hf v L hL⟩

theorem lru_distinct_witness :
    [('w', 0), ('w', 4), ('w', 8), ('w', 4), ('w', 8)].length < 2 ^ 32 ∧
    ((Simulator.new 100 2 1 2 0 1 4 2 10).run
      [('w', 0), ('w', 4), ('w', 8), ('w', 4), ('w', 8)]).L1.LruDistinct :=
  ⟨by decide,
    (lru_distinct 100 2 1 2 0 1 4 2 10 [('w', 0), ('w', 4), ('w', 8), ('w', 4), ('w', 8)]
      (by decide)).1⟩

end CacheSim
